import Mathlib

/-! ## ModBox: the module worker protocol loop

A shallow embedding of `ModuleWorker::work` and `ModuleWorker::please_work`
(`src/module/module_worker.cpp`).  The functions the worker calls on the socket
and on the function registry (`sendFixed`, `readModuleHeader`, `readModuleName`,
`recvString`, `getFuncProvider`, `getArgsSpec`, `getRetSpec`, `recvArg`, `sendArg`,
`freeArg` and the handler itself) are not part of the embedded sources: they are
fields of an `Env`, arbitrary state transformers that may throw.  Every call the
worker makes is appended, with what it returned, to a trace, so that the order
of the worker's actions can be stated.  Further down come the dispatch queue of
the draw thread (`addDrawFunction` and the drain in `drawLoop`), the
floating-point numbers on the wire (`sendFloat32`, `recvFloat32` and their
64-bit fellows), `bytes_pack`, the event manager and the handlers of the
graphics functions, each with its own introduction.
-/

namespace ModBox

/-- The objects a C++ `throw` can deliver to the `catch` clauses of
`ModuleWorker::please_work`: the two classes `work` raises itself
(`std::runtime_error`, and `std::out_of_range` from `at`), any other
`std::exception` raised by a callee, and a value that is no `std::exception`. -/
inductive Thrown where
  | runtime_error (what : String)
  | out_of_range
  | std_exception (what : String)
  | non_std
  deriving DecidableEq, Repr

/-- The text `e.what()` of a thrown `std::exception`; `none` for a value that
`catch (std::exception&)` does not match.  The text of `std::out_of_range` is
the standard library's own; it stands here as `"out_of_range"`. -/
def Thrown.what : Thrown → Option String
  | .runtime_error s => some s
  | .out_of_range => some "out_of_range"
  | .std_exception s => some s
  | .non_std => none

/-- How a run of the worker's loop ends: the loop is left and the function
returns, an exception leaves the function, or the model's budget of loop passes
is used up while the `while (true)` loop is still running. -/
inductive Outcome where
  | returned
  | threw (e : Thrown)
  | unfinished
  deriving DecidableEq, Repr

instance instDecidableEqExcept {ε α : Type} [DecidableEq ε] [DecidableEq α] :
    DecidableEq (Except ε α) := fun a b =>
  match a, b with
  | .ok x, .ok y => if h : x = y then isTrue (by rw [h]) else isFalse (by intro c; cases c; exact h rfl)
  | .error x, .error y =>
    if h : x = y then isTrue (by rw [h]) else isFalse (by intro c; cases c; exact h rfl)
  | .ok _, .error _ => isFalse (by intro c; cases c)
  | .error _, .ok _ => isFalse (by intro c; cases c)

/-- One call made by the worker, with what the call returned (or threw).
`V` is the type of the values behind the `void*` arguments, `P` the type of the
registered function providers. -/
inductive Event (V P : Type) where
  | sendFixed (data : String) (r : Except Thrown Unit)
  | readModuleHeader (r : Except Thrown Bool)
  | readModuleName (r : Except Thrown String)
  | log (msg : String)
  | recvString (r : Except Thrown String)
  | getFuncProvider (cmd : String) (r : Except Thrown (Option P))
  | getArgsSpec (cmd : String) (r : Except Thrown (List Char))
  | recvArg (spec : Char) (r : Except Thrown V)
  | invoke (prov : P) (args : List V) (r : Except Thrown (Option (List V)))
  | getRetSpec (cmd : String) (r : Except Thrown (List Char))
  | sendArg (arg : V) (spec : Char) (r : Except Thrown Unit)
  | freeArg (arg : V) (spec : Char) (r : Except Thrown Unit)
  | deleteResult
  deriving DecidableEq

/-- The functions `ModuleWorker::work` calls and whose bodies lie outside the
embedded sources.  Each one takes the state `σ` of the outside world (socket,
registry, heap, engine) and gives back what it returned or threw together with
the state it left.  A handler returns `none` for a null `FuncResult*`, and
otherwise the vector `result->data`. -/
structure Env (σ V P : Type) where
  sendFixed : String → σ → Except Thrown Unit × σ
  readModuleHeader : σ → Except Thrown Bool × σ
  readModuleName : σ → Except Thrown String × σ
  recvString : σ → Except Thrown String × σ
  getFuncProvider : String → σ → Except Thrown (Option P) × σ
  getArgsSpec : String → σ → Except Thrown (List Char) × σ
  getRetSpec : String → σ → Except Thrown (List Char) × σ
  recvArg : Char → σ → Except Thrown V × σ
  invoke : P → List V → σ → Except Thrown (Option (List V)) × σ
  sendArg : V → Char → σ → Except Thrown Unit × σ
  freeArg : V → Char → σ → Except Thrown Unit × σ

/-- The state the worker runs in: the outside world and the calls made so far,
oldest first. -/
structure World (σ V P : Type) where
  st : σ
  trace : List (Event V P)
  deriving DecidableEq

/-- Whether the call is a `recvArg`. -/
def Event.isRecvArg {V P : Type} : Event V P → Bool
  | .recvArg _ _ => true
  | _ => false

/-- Whether the call is an invocation of a handler. -/
def Event.isInvoke {V P : Type} : Event V P → Bool
  | .invoke _ _ _ => true
  | _ => false

/-- Whether the call is a `sendArg`. -/
def Event.isSendArg {V P : Type} : Event V P → Bool
  | .sendArg _ _ _ => true
  | _ => false

/-- Whether the call is a `freeArg`. -/
def Event.isFreeArg {V P : Type} : Event V P → Bool
  | .freeArg _ _ _ => true
  | _ => false

/-- The calls `recvArg(sock, c)` that decoded the values `vals` under the type
codes `spec`, position by position. -/
def recvEvents {V P : Type} (spec : List Char) (vals : List V) : List (Event V P) :=
  List.zipWith (fun c v => Event.recvArg c (.ok v)) spec vals

/-- The calls `sendArg(sock, v, c)` that sent the values `data` under the type
codes `spec`, position by position. -/
def sentEvents {V P : Type} (data : List V) (spec : List Char) : List (Event V P) :=
  List.zipWith (fun v c => Event.sendArg v c (.ok ())) data spec

/-- The calls `freeArg(v, c)` that released the values `vals` under the type
codes `spec`, position by position. -/
def freedEvents {V P : Type} (vals : List V) (spec : List Char) : List (Event V P) :=
  List.zipWith (fun v c => Event.freeArg v c (.ok ())) vals spec

/-- Whether the call is a `recvString`. -/
def Event.isRecvString {V P : Type} : Event V P → Bool
  | .recvString _ => true
  | _ => false

/-- What one pass of the loop of `work` that ran to its end dealt with: the
command name, its provider and signatures, the decoded arguments and the values
the handler returned. -/
structure CallRecord (V P : Type) where
  cmd : String
  prov : P
  argsSpec : List Char
  retSpec : List Char
  args : List V
  data : List V

/-- The calls of a pass of the loop body (lines 42-82) that ran to its end, in
order: lookup, signature, one decode per argument, the handler, the return
signature, one send per return value, one release per argument, one release per
return value, and the deletion of the result. -/
def CallRecord.bodyEvents {V P : Type} (c : CallRecord V P) : List (Event V P) :=
  [.getFuncProvider c.cmd (.ok (some c.prov)), .getArgsSpec c.cmd (.ok c.argsSpec)] ++
    recvEvents c.argsSpec c.args ++
    [.invoke c.prov c.args (.ok (some c.data)), .getRetSpec c.cmd (.ok c.retSpec)] ++
    sentEvents c.data c.retSpec ++ freedEvents c.args c.argsSpec ++
    freedEvents c.data c.retSpec ++ [.deleteResult]

/-- The calls of a whole pass of the loop that ran to its end: the read of the
command name, then the calls of the loop body. -/
def CallRecord.events {V P : Type} (c : CallRecord V P) : List (Event V P) :=
  .recvString (.ok c.cmd) :: c.bodyEvents

/-- A piece of straight-line code of the worker: from a world to what it
returned or threw, and the world it leaves. -/
def Act (σ V P α : Type) : Type := World σ V P → Except Thrown α × World σ V P

namespace Act

variable {σ V P α β : Type}

/-- Sequencing: an exception skips the rest. -/
def andThen (m : Act σ V P α) (f : α → Act σ V P β) : Act σ V P β := fun w =>
  match m w with
  | (.ok a, w1) => f a w1
  | (.error e, w1) => (.error e, w1)

instance : Monad (Act σ V P) where
  pure a := fun w => (.ok a, w)
  bind := andThen

/-- The statement `throw e`. -/
def raise (e : Thrown) : Act σ V P α := fun w => (.error e, w)

/-- The block `try { m } catch (...) { h }`: whatever `m` throws is handed to `h`. -/
def tryCatchAll (m : Act σ V P α) (h : Thrown → Act σ V P α) : Act σ V P α := fun w =>
  match m w with
  | (.error e, w1) => h e w1
  | r => r

/-- A call of one of the outside functions: it runs on the outside state, and
the call is appended to the trace with its result. -/
def ext (f : σ → Except Thrown α × σ) (ev : Except Thrown α → Event V P) : Act σ V P α :=
  fun w =>
    match f w.st with
    | (.ok a, s) => (.ok a, ⟨s, w.trace ++ [ev (.ok a)]⟩)
    | (.error e, s) => (.error e, ⟨s, w.trace ++ [ev (.error e)]⟩)

/-- The member `at(i)` of `std::vector` and `std::string`: the element at index
`i`, or `std::out_of_range` thrown when there is none. -/
def atIndex (l : List α) (i : Nat) : Act σ V P α :=
  match l.get? i with
  | some v => pure v
  | none => raise .out_of_range

/-- The macro `LOG(msg)`. -/
def log (msg : String) : Act σ V P Unit := fun w =>
  (.ok (), ⟨w.st, w.trace ++ [Event.log msg]⟩)

/-- The statement `delete result`. -/
def deleteResult : Act σ V P Unit := fun w =>
  (.ok (), ⟨w.st, w.trace ++ [Event.deleteResult]⟩)

/-- The action only adds calls at the end of the trace, and each call it adds
satisfies `Q`. -/
def AppendsOnly (Q : Event V P → Prop) (m : Act σ V P α) : Prop :=
  ∀ w, ∃ evs, (m w).2.trace = w.trace ++ evs ∧ ∀ ev ∈ evs, Q ev

end Act

section Worker

variable {σ V P : Type} (env : Env σ V P)

/-- Lines 57-59 of `work`: `for (char i : argsSpec) args.push_back(recvArg(sock, i));`
started with the vector `args`. -/
def recvArgs : List Char → List V → Act σ V P (List V)
  | [], args => pure args
  | c :: rest, args => do
    let a ← Act.ext (env.recvArg c) (Event.recvArg c)
    recvArgs rest (args ++ [a])

/-- Lines 70-72 of `work`, from index `i` on:
`sendArg(sock, result->data.at(i), retSpec.at(i))`.  `n` counts the indices left,
`retSpec.length() - i`; `at` throws `std::out_of_range` past the end. -/
def sendRets (data : List V) (retSpec : List Char) : Nat → Nat → Act σ V P Unit
  | 0, _ => pure ()
  | n + 1, i => do
    let v ← Act.atIndex data i
    let c ← Act.atIndex retSpec i
    Act.ext (env.sendArg v c) (Event.sendArg v c)
    sendRets data retSpec n (i + 1)

/-- Lines 75-77 and 79-81 of `work`, from index `i` on:
`freeArg(vals.at(i), spec.at(i))`, `n` counting the indices left. -/
def freeAll (vals : List V) (spec : List Char) : Nat → Nat → Act σ V P Unit
  | 0, _ => pure ()
  | n + 1, i => do
    let v ← Act.atIndex vals i
    let c ← Act.atIndex spec i
    Act.ext (env.freeArg v c) (Event.freeArg v c)
    freeAll vals spec n (i + 1)

/-- The text of the error raised for an unknown command. -/
def notFound (cmd : String) : Thrown :=
  .runtime_error ("Function '" ++ cmd ++ "' not found")

/-- Lines 74-82 of `work`: the arguments are freed, then the returned values,
then the result is deleted. -/
def freeMemory (argsSpec retSpec : List Char) (args data : List V) : Act σ V P Unit := do
  freeAll env args argsSpec argsSpec.length 0
  freeAll env data retSpec retSpec.length 0
  Act.deleteResult

/-- Lines 68-82 of `work`: the result `data` of the call is sent back, then the
arguments and the returned values are freed. -/
def sendAndFree (cmd : String) (argsSpec : List Char) (args data : List V) : Act σ V P Unit := do
  let retSpec ← Act.ext (env.getRetSpec cmd) (Event.getRetSpec cmd)
  sendRets env data retSpec retSpec.length 0
  freeMemory env argsSpec retSpec args data

/-- Lines 64-82 of `work`: a null result is an error; otherwise the result is
sent back and the memory is freed. -/
def handleResult (cmd : String) (argsSpec : List Char) (args : List V) :
    Option (List V) → Act σ V P Unit
  | none => Act.raise (.runtime_error "function provider error: reslut is nullptr")
  | some data => sendAndFree env cmd argsSpec args data

/-- Lines 52-82 of `work`: with the provider `prov` of the command found, its
arguments are read, it is run, and its result is handled. -/
def callProvider (cmd : String) (prov : P) : Act σ V P Unit := do
  let argsSpec ← Act.ext (env.getArgsSpec cmd) (Event.getArgsSpec cmd)
  let args ← recvArgs env argsSpec []
  let result ← Act.ext (env.invoke prov args) (Event.invoke prov args)
  handleResult env cmd argsSpec args result

/-- Lines 42-82 of `work`: one pass of the loop body after the command name
`cmd` has been read and found different from `"exit"`. -/
def runCommand (cmd : String) : Act σ V P Unit := do
  let prov ← Act.tryCatchAll
    (Act.ext (env.getFuncProvider cmd) (Event.getFuncProvider cmd))
    (fun _ => Act.raise (notFound cmd))
  match prov with
  | none => Act.raise (notFound cmd)
  | some prov => callProvider env cmd prov

/-- Lines 36-83 of `work`: the `while (true)` loop, run for at most `fuel`
passes.  It is left when the command `"exit"` is read (`break`). -/
def workLoop : Nat → World σ V P → Outcome × World σ V P
  | 0, w => (.unfinished, w)
  | fuel + 1, w =>
    match Act.ext env.recvString Event.recvString w with
    | (.error e, w1) => (.threw e, w1)
    | (.ok cmd, w1) =>
      if cmd = "exit" then
        (.returned, w1)
      else
        match runCommand env cmd w1 with
        | (.error e, w2) => (.threw e, w2)
        | (.ok (), w2) => workLoop fuel w2

/-- Lines 30-34 of `work`: the handshake before the loop. -/
def handshake : Act σ V P Unit := do
  let header := "ModBox/M"
  Act.ext (env.sendFixed header) (Event.sendFixed header)
  let _ ← Act.ext env.readModuleHeader Event.readModuleHeader
  let name ← Act.ext env.readModuleName Event.readModuleName
  Act.log ("Module '" ++ name ++ "' connected")

/-- Line 85 of `work`: `LOG(L"Exiting module worker")`, reached when the loop
is left by `break`. -/
def exitLog (r : Outcome × World σ V P) : Outcome × World σ V P :=
  match r with
  | (.returned, w) => (.returned, (Act.log "Exiting module worker" w).2)
  | r => r

/-- The function `ModuleWorker::work()`: the handshake, the loop (for at most
`fuel` passes) and the closing `LOG`. -/
def work (fuel : Nat) (w : World σ V P) : Outcome × World σ V P :=
  match handshake env w with
  | (.error e, w1) => (.threw e, w1)
  | (.ok (), w1) => exitLog (workLoop env fuel w1)

/-- The function `ModuleWorker::please_work()`: `work()` inside
`try { } catch (std::exception& e) { LOG; return; } catch (...) { LOG; return; }`. -/
def please_work (fuel : Nat) (w : World σ V P) : Outcome × World σ V P :=
  match work env fuel w with
  | (.threw e, w1) =>
    match e.what with
    | some what =>
      (.returned,
        (Act.log ("Module error: ModuleWorker::work() threw exception: '" ++ what ++ "'") w1).2)
    | none =>
      (.returned,
        (Act.log "Module error: ModuleWorker::work() threw something we don't care about" w1).2)
  | r => r

end Worker

/-! ## A scripted connection

A concrete `Env` on which sessions can be run: the socket is a list of frames
still to be read and a list of frames written, and the registry is a list of
entries. -/

/-- Modelled from the spec: one item on the wire, as `net/socketlib` (not in the
embedded sources) frames it: a fixed-size block sent as is, a fixed-width
unsigned integer, or a length-prefixed string.  `socketlib-float.cpp` sends a
floating-point number as the length-prefixed string of its decimal text. -/
inductive Frame where
  | raw (s : String)
  | u64 (n : Nat)
  | text (s : String)
  deriving DecidableEq, Repr

/-- Modelled from the spec: the value behind a `void*` argument, one case per
type code used by the registrations in `graphics.cpp`: `'u'` (unsigned 64-bit),
`'f'` (floating point, kept as the decimal text it travels as) and `'s'` (string). -/
inductive Val where
  | u64 (n : Nat)
  | flt (text : String)
  | str (s : String)
  deriving DecidableEq, Repr

/-- The socket of a scripted session: frames still to be read, frames written so
far, and the number of writes the peer still accepts before sending fails. -/
structure Conn where
  input : List Frame
  output : List Frame
  writable : Nat
  deriving DecidableEq, Repr

/-- One registration `registerFuncProvider(FuncProvider(name, handler), argsSpec, retSpec)`. -/
structure FuncEntry where
  name : String
  handler : List Val → Except Thrown (Option (List Val))
  argsSpec : List Char
  retSpec : List Char

/-- Modelled from the spec: reading one frame from the socket; it fails when the
input is used up. -/
def Conn.read (c : Conn) : Except Thrown Frame × Conn :=
  match c.input with
  | [] => (.error (.std_exception "recv failed"), c)
  | f :: rest => (.ok f, { c with input := rest })

/-- Modelled from the spec: writing one frame to the socket; it fails when the
peer accepts no more writes. -/
def Conn.write (f : Frame) (c : Conn) : Except Thrown Unit × Conn :=
  match c.writable with
  | 0 => (.error (.std_exception "send failed"), c)
  | k + 1 => (.ok (), { c with output := c.output ++ [f], writable := k })

/-- Modelled from the spec: `recvArg(sock, spec)` of `modules/module_io` (declared
in `module_io.hpp`, body not in the embedded sources): decode one value of the
type the code names; a frame of another kind, or an unknown code, is a failure. -/
def decodeArg (spec : Char) (c : Conn) : Except Thrown Val × Conn :=
  match c.read with
  | (.error e, c1) => (.error e, c1)
  | (.ok f, c1) =>
    match f with
    | .u64 n => if spec = 'u' then (.ok (.u64 n), c1) else (.error (.std_exception "bad frame"), c1)
    | .text s =>
      if spec = 'f' then (.ok (.flt s), c1)
      else if spec = 's' then (.ok (.str s), c1)
      else (.error (.std_exception "bad frame"), c1)
    | .raw _ => (.error (.std_exception "bad frame"), c1)

/-- Modelled from the spec: the frame `sendArg(sock, arg, spec)` writes for a
value under a type code; `none` when the value is not of the type the code names. -/
def encodeArg (v : Val) (spec : Char) : Option Frame :=
  match v with
  | .u64 n => if spec = 'u' then some (.u64 n) else none
  | .flt s => if spec = 'f' then some (.text s) else none
  | .str s => if spec = 's' then some (.text s) else none

/-- Modelled from the spec: the registry lookup behind `getFuncProvider`,
`getArgsSpec` and `getRetSpec` (`modules/module_manager`, not in the embedded
sources). -/
def lookup (registry : List FuncEntry) (cmd : String) : Option FuncEntry :=
  registry.find? (fun e => e.name == cmd)

/-- Modelled from the spec: the outside functions of `ModuleWorker::work` over a
scripted connection.  `moduleHeader` is the header a module is expected to
send; `readModuleHeader` returns whether the header read equals it (the
declaration in `module_io.hpp` returns `bool`).  A provider is named by its
command. -/
def scripted (moduleHeader : String) (registry : List FuncEntry) : Env Conn Val String where
  sendFixed data c := Conn.write (.raw data) c
  readModuleHeader c :=
    match c.read with
    | (.ok (.raw h), c1) => (.ok (h == moduleHeader), c1)
    | (.ok _, c1) => (.error (.std_exception "bad frame"), c1)
    | (.error e, c1) => (.error e, c1)
  readModuleName c :=
    match c.read with
    | (.ok (.text s), c1) => (.ok s, c1)
    | (.ok _, c1) => (.error (.std_exception "bad frame"), c1)
    | (.error e, c1) => (.error e, c1)
  recvString c :=
    match c.read with
    | (.ok (.text s), c1) => (.ok s, c1)
    | (.ok _, c1) => (.error (.std_exception "bad frame"), c1)
    | (.error e, c1) => (.error e, c1)
  getFuncProvider cmd c := (.ok ((lookup registry cmd).map (fun e => e.name)), c)
  getArgsSpec cmd c :=
    match lookup registry cmd with
    | some e => (.ok e.argsSpec, c)
    | none => (.error (.std_exception "no such function"), c)
  getRetSpec cmd c :=
    match lookup registry cmd with
    | some e => (.ok e.retSpec, c)
    | none => (.error (.std_exception "no such function"), c)
  recvArg spec c := decodeArg spec c
  invoke prov args c :=
    match lookup registry prov with
    | some e => (e.handler args, c)
    | none => (.error (.std_exception "no such function"), c)
  sendArg v spec c :=
    match encodeArg v spec with
    | some f => Conn.write f c
    | none => (.error (.std_exception "bad value"), c)
  freeArg _ _ c := (.ok (), c)

/-- The handler of the test registration `"test.add"`: it returns its first
argument plus 1 (in 64-bit unsigned arithmetic). -/
def testAddHandler : List Val → Except Thrown (Option (List Val))
  | .u64 n :: _ => .ok (some [.u64 ((n + 1) % 2 ^ 64)])
  | _ => .error (.std_exception "bad arguments")

/-- A registry with the one entry `"test.add"`, argument signature
`[U64, F64]` (`"uf"`) and return signature `[U64]` (`"u"`). -/
def testRegistry : List FuncEntry :=
  [{ name := "test.add", handler := testAddHandler, argsSpec := ['u', 'f'], retSpec := ['u'] }]

/-- The scripted environment of the test sessions: modules announce themselves
with the header `"ModBox/m"`. -/
def testEnv : Env Conn Val String := scripted "ModBox/m" testRegistry

/-- The frames a module sends in a session that calls `"test.add"` with `3` and
`2.5` (travelling as the text `std::to_string` gives it) and then exits. -/
def addSession : List Frame :=
  [.raw "ModBox/m", .text "tester", .text "test.add", .u64 3, .text "2.500000", .text "exit"]

/-- A world at the start of a session: nothing written, nothing traced. -/
def start (input : List Frame) (writable : Nat) : World Conn Val String :=
  ⟨⟨input, [], writable⟩, []⟩

/-- The world of a test session once the handshake with a module named `name`
is done: the header `"ModBox/M"` is written, `input` is still to be read and
`writable` more writes are accepted. -/
def opened (name : String) (input : List Frame) (writable : Nat) : World Conn Val String :=
  ⟨⟨input, [.raw "ModBox/M"], writable⟩,
    [.sendFixed "ModBox/M" (.ok ()), .readModuleHeader (.ok true), .readModuleName (.ok name),
      .log ("Module '" ++ name ++ "' connected")]⟩

/-- The world of the session `addSession` at the top of the loop, the handshake
done. -/
def addOpened : World Conn Val String :=
  opened "tester" [.text "test.add", .u64 3, .text "2.500000", .text "exit"] 9

/-- The socket of the session `addSession` once the command name is read. -/
def addArgsConn : Conn :=
  ⟨[.u64 3, .text "2.500000", .text "exit"], [.raw "ModBox/M"], 9⟩

/-- The socket of the session `addSession` once the two arguments are decoded. -/
def addCalledConn : Conn :=
  ⟨[.text "exit"], [.raw "ModBox/M"], 9⟩

/-- The world of the session `addSession` at the top of the loop after the call
of `"test.add"`: the result `4` is written and only `"exit"` is left to read. -/
def addDone : World Conn Val String :=
  ⟨⟨[.text "exit"], [.raw "ModBox/M", .u64 4], 8⟩,
    addOpened.trace ++
      [.recvString (.ok "test.add"), .getFuncProvider "test.add" (.ok (some "test.add")),
        .getArgsSpec "test.add" (.ok ['u', 'f']), .recvArg 'u' (.ok (.u64 3)),
        .recvArg 'f' (.ok (.flt "2.500000")),
        .invoke "test.add" [.u64 3, .flt "2.500000"] (.ok (some [.u64 4])),
        .getRetSpec "test.add" (.ok ['u']), .sendArg (.u64 4) 'u' (.ok ()),
        .freeArg (.u64 3) 'u' (.ok ()), .freeArg (.flt "2.500000") 'f' (.ok ()),
        .freeArg (.u64 4) 'u' (.ok ()), .deleteResult]⟩

/-! ## The dispatch queue of the draw thread

A shallow embedding of `addDrawFunction` (`include/game/game_loop.hpp`) and of the
drain of `drawFunctions` in `drawLoop` (`src/game/game_loop.cpp`, lines 280-291).
The queue is a `std::vector<std::packaged_task<void()>>`; the behaviour of the
standard library (vector growth, `packaged_task::operator()`, `get_future`,
`future::wait`) is written out as the C++ standard gives it.  `γ` is the state
the task bodies work on (scene, physics, counters), `β` the type of the values
tasks produce. -/

/-- A callable of return type `void` handed to `addDrawFunction`.  On the engine
state `g`, `run g` tells whether the call returns or throws, the engine state it
leaves, and the void callables it hands in turn to `addDrawFunction(f, false)`
while it runs (on the thread that runs it). -/
inductive VoidFunc (γ : Type) where
  | mk (run : γ → Except Thrown Unit × γ × List (VoidFunc γ))

/-- What a call of the callable does on the engine state `g`. -/
def VoidFunc.run {γ : Type} : VoidFunc γ → γ → Except Thrown Unit × γ × List (VoidFunc γ)
  | .mk r => r

/-- A callable handed to `addDrawFunction` whose return type is not `void`:
`run g` gives the value it returns (or what it throws), the engine state it
leaves, and the void callables it hands to `addDrawFunction(f, false)`. -/
structure ValueFunc (γ β : Type) where
  run : γ → Except Thrown β × γ × List (VoidFunc γ)

/-- The lambda `addDrawFunction` stores in the packaged task, one per branch of
its `if constexpr`: `[=]() { func(); }` (line 37), `[&]() { ret = func(); }`
(line 50) and `[&]() { ret = new ReturnType(func()); }` (line 62). -/
inductive DrawBody (γ β : Type) where
  | call (func : VoidFunc γ)
  | assign (func : ValueFunc γ β)
  | box (func : ValueFunc γ β)

/-- What running the lambda does on the engine state `g`: the value assigned to
`ret` if there is one (or the exception that leaves the lambda), the engine
state, and the callables submitted meanwhile. -/
def DrawBody.run {γ β : Type} (b : DrawBody γ β) (g : γ) :
    Except Thrown (Option β) × γ × List (VoidFunc γ) :=
  match b with
  | .call f =>
    match f.run g with
    | (.ok _, g1, subs) => (.ok none, g1, subs)
    | (.error e, g1, subs) => (.error e, g1, subs)
  | .assign f =>
    match f.run g with
    | (.ok v, g1, subs) => (.ok (some v), g1, subs)
    | (.error e, g1, subs) => (.error e, g1, subs)
  | .box f =>
    match f.run g with
    | (.ok v, g1, subs) => (.ok (some v), g1, subs)
    | (.error e, g1, subs) => (.error e, g1, subs)

/-- A `std::packaged_task<void()>` in the queue: its stored lambda, and `id`,
which names its shared state (the object a future obtained from it refers to).
Each `emplace_back` creates a task with a fresh `id`. -/
structure PackagedTask (γ β : Type) where
  id : Nat
  body : DrawBody γ β

/-- The state the dispatch works on.  `drawFunctions` and `capacity` are the
vector; `executed` lists, in order, the shared states made ready by an
invocation, each with the engine state its body started from; `stored` holds
the exceptions stored in shared states; `abandoned` the shared states made
ready by the destruction of a task that was never invoked; `retrieved` the
shared states whose future was taken; `rets i` is the variable `ret` of the
call that enqueued task `i`, once assigned. -/
structure DrawSys (γ β : Type) where
  engine : γ
  drawFunctions : List (PackagedTask γ β)
  capacity : Nat
  nextId : Nat
  executed : List (Nat × γ)
  stored : List (Nat × Thrown)
  abandoned : List Nat
  retrieved : List Nat
  rets : Nat → Option β
  log : List String

section Dispatch

variable {γ β : Type}

/-- The state before any task is submitted. -/
def DrawSys.init (g : γ) : DrawSys γ β :=
  ⟨g, [], 0, 0, [], [], [], [], fun _ => none, []⟩

/-- The macro `LOG(msg)`. -/
def DrawSys.logMsg (msg : String) (s : DrawSys γ β) : DrawSys γ β :=
  { s with log := s.log ++ [msg] }

/-- The shared states already made ready by an invocation. -/
def DrawSys.executedIds (s : DrawSys γ β) : List Nat :=
  s.executed.map Prod.fst

/-- The member `drawFunctions.emplace_back(lambda)`: a new task at the end of
the vector.  When the vector is full its storage is reallocated and its capacity
grows (here as libstdc++ does, to twice the size, at least 1). -/
def DrawSys.emplaceBack (body : DrawBody γ β) (s : DrawSys γ β) : DrawSys γ β :=
  { s with
    drawFunctions := s.drawFunctions ++ [⟨s.nextId, body⟩]
    nextId := s.nextId + 1
    capacity := if s.drawFunctions.length < s.capacity then s.capacity
      else max 1 (2 * s.capacity) }

/-- Lines 23 and 35-38 of `addDrawFunction`, its branch for `void`: the `LOG` and
the block that, holding the mutex, appends the task. -/
def addDrawFunction_enqueue (func : VoidFunc γ) (s : DrawSys γ β) : DrawSys γ β :=
  (s.logMsg "Adding draw function").emplaceBack (.call func)

/-- What `drawFunctions.back().get_future()` gives. -/
inductive BackFuture where
  | undefined
  | threw (e : Thrown)
  | future (ticket : Nat)
  deriving DecidableEq, Repr

/-- The text of the `std::future_error` thrown by `get_future` on a task whose
future was taken already (as libstdc++ words it). -/
def futureAlreadyRetrieved : Thrown :=
  .std_exception "std::future_error: Future already retrieved"

/-- The text of the `std::future_error` thrown by `operator()` on a task that
was invoked already (as libstdc++ words it). -/
def promiseAlreadySatisfied : Thrown :=
  .std_exception "std::future_error: Promise already satisfied"

/-- The expression `drawFunctions.back().get_future()`: the future of the task
that is last in the vector at that moment.  `back()` of an empty vector is
undefined behaviour; `get_future` throws when the future of that task was taken
before. -/
def backFuture (s : DrawSys γ β) : BackFuture × DrawSys γ β :=
  match s.drawFunctions.getLast? with
  | none => (.undefined, s)
  | some t =>
    if t.id ∈ s.retrieved then (.threw futureAlreadyRetrieved, s)
    else (.future t.id, { s with retrieved := s.retrieved ++ [t.id] })

/-- Whether `future.wait()` on the shared state `ticket` returns: the shared
state is ready, by an invocation of its task or by the destruction of a task
never invoked. -/
def DrawSys.ready (s : DrawSys γ β) (ticket : Nat) : Bool :=
  decide (ticket ∈ s.executedIds) || decide (ticket ∈ s.abandoned)

/-- The call `addDrawFunction(func, false)` for a `void` callable, lines 23-44
with `barrier` false: the task is appended and the call returns. -/
def addDrawFunction_void (func : VoidFunc γ) (s : DrawSys γ β) : DrawSys γ β :=
  (addDrawFunction_enqueue func s).logMsg "Called"

/-- Lines 39-44 of `addDrawFunction` with `barrier` true, once the future
`ticket` is taken: `future.wait()` and the return.  `none` while the wait
blocks. -/
def addDrawFunction_barrier_return (s : DrawSys γ β) (ticket : Nat) : Option (DrawSys γ β) :=
  if s.ready ticket then some (s.logMsg "Called") else none

/-- Lines 23 and 46-52 of `addDrawFunction`, its branch for a default
constructible return type: holding the mutex, the task is appended and its
future taken.  The result names the task appended and gives the future. -/
def addDrawFunction_assign_submit (func : ValueFunc γ β) (s : DrawSys γ β) :
    Nat × BackFuture × DrawSys γ β :=
  (s.nextId, backFuture ((s.logMsg "Adding draw function").emplaceBack (.assign func)))

/-- Lines 53-54 of `addDrawFunction`: `future.wait(); return ret;` for the task
`own` and the future `ticket`, `dflt` being the default-constructed value
`ret` starts with.  `none` while the wait blocks. -/
def addDrawFunction_assign_return (dflt : β) (s : DrawSys γ β) (own ticket : Nat) : Option β :=
  if s.ready ticket then some ((s.rets own).getD dflt) else none

/-- Lines 23 and 58-64 of `addDrawFunction`, its branch for a copyable return
type: holding the mutex, the task is appended and its future taken. -/
def addDrawFunction_box_submit (func : ValueFunc γ β) (s : DrawSys γ β) :
    Nat × BackFuture × DrawSys γ β :=
  (s.nextId, backFuture ((s.logMsg "Adding draw function").emplaceBack (.box func)))

/-- Lines 65-69 of `addDrawFunction`: `future.wait()`, then the copy of `*ret`
is returned and the box deleted.  `none` while the wait blocks; `some none` when
`ret` was never assigned, the pointer read being uninitialised (undefined
behaviour). -/
def addDrawFunction_box_return (s : DrawSys γ β) (own ticket : Nat) : Option (Option β) :=
  if s.ready ticket then some (s.rets own) else none

/-- The call `func()` on a packaged task of the queue: `operator()` throws
`std::future_error` when the task was invoked before; otherwise it runs the
stored lambda, and what the lambda returns or throws is stored in the shared
state, which becomes ready: an exception of the lambda does not leave
`operator()`.  The callables the lambda submits meanwhile go through
`addDrawFunction(f, false)` on this thread (the mutex is recursive). -/
def DrawSys.runTask (t : PackagedTask γ β) (s : DrawSys γ β) :
    Except Thrown Unit × DrawSys γ β :=
  if t.id ∈ s.executedIds then (.error promiseAlreadySatisfied, s)
  else
    match t.body.run s.engine with
    | (r, g, subs) =>
      let s1 := subs.foldl (fun acc f => addDrawFunction_void f acc) { s with engine := g }
      let s2 := { s1 with executed := s1.executed ++ [(t.id, s.engine)] }
      match r with
      | .ok (some v) => (.ok (), { s2 with rets := Function.update s2.rets t.id (some v) })
      | .ok none => (.ok (), s2)
      | .error e => (.ok (), { s2 with stored := s2.stored ++ [(t.id, e)] })

/-- How the drain of one frame ends: the loop and `clear()` are done; an
exception leaves `drawLoop`; or the behaviour is undefined. -/
inductive DrainOutcome where
  | completed
  | threw (e : Thrown)
  | undefined
  deriving DecidableEq, Repr

/-- Lines 282-289 of `drawLoop`: `for (auto& func : drawFunctions)` over the
tasks `todo` that lie between `begin()` and `end()` as taken when the loop
starts; tasks appended meanwhile lie past that `end()`.  An exception of
`func()` is logged and thrown again, as a copy of static type `std::exception`.
An append that reallocates the vector invalidates the iterators of the loop:
going on is undefined behaviour. -/
def drainLoop : List (PackagedTask γ β) → DrawSys γ β → DrainOutcome × DrawSys γ β
  | [], s => (.completed, s)
  | t :: rest, s =>
    match s.runTask t with
    | (.error e, s1) =>
      match e.what with
      | some what =>
        (.threw (.std_exception "std::exception"),
          s1.logMsg ("draw function: exception: " ++ what))
      | none => (.threw e, s1)
    | (.ok _, s1) =>
      if s1.capacity = s.capacity then drainLoop rest s1 else (.undefined, s1)

/-- The member `drawFunctions.clear()`: every task is destroyed, the capacity
stays; the shared state of a task that was never invoked becomes ready (with
the error `broken_promise`). -/
def DrawSys.clear (s : DrawSys γ β) : DrawSys γ β :=
  { s with
    drawFunctions := []
    abandoned := s.abandoned ++
      ((s.drawFunctions.map (fun t => t.id)).filter (fun i => decide (i ∉ s.executedIds))) }

/-- Lines 280-291 of `drawLoop`: holding the mutex, every queued task is run,
then the queue is cleared. -/
def drain (s : DrawSys γ β) : DrainOutcome × DrawSys γ β :=
  match drainLoop s.drawFunctions s with
  | (.completed, s1) => (.completed, s1.clear)
  | r => r

/-- Lines 275-323 of `drawLoop`: the loop `while (irrDeviceRun())` for `frames`
passes, each one the drain followed by the rendering and the pacing of the
frame (`render`, on the engine state). -/
def drawLoop (render : γ → γ) : Nat → DrawSys γ β → DrainOutcome × DrawSys γ β
  | 0, s => (.completed, s)
  | frames + 1, s =>
    match drain s with
    | (.completed, s1) => drawLoop render frames { s1 with engine := render s1.engine }
    | r => r

/-- The states in which every queued task is a distinct task that was not
invoked yet, and every shared state named anywhere was created before. -/
def DrawSys.WellFormed (s : DrawSys γ β) : Prop :=
  (s.drawFunctions.map (fun t => t.id)).Nodup ∧
  (∀ t ∈ s.drawFunctions, t.id < s.nextId ∧ t.id ∉ s.executedIds) ∧
  (∀ i ∈ s.executedIds, i < s.nextId) ∧
  (∀ i ∈ s.abandoned, i < s.nextId) ∧
  (∀ i ∈ s.retrieved, i < s.nextId)

/-- What the threads of the program can do to the dispatch, one step at a
time, each step being atomic (a block holding the mutex, or a single
expression): a pass of the loop of `drawLoop` on the draw thread, and, on any
other thread, the locked block of a call of `addDrawFunction` for a void
callable (lines 35-38), line 40 of such a call with `barrier` true, and the
locked block of a call for a value-producing callable (lines 48-52, 60-64). -/
inductive DrawAction (γ β : Type) where
  | frame
  | enqueueVoid (func : VoidFunc γ)
  | takeBack
  | submitAssign (func : ValueFunc γ β)
  | submitBox (func : ValueFunc γ β)

/-- One step of the program on the dispatch; `none` when the behaviour is
undefined or an exception ends `drawLoop`. -/
def DrawSys.step (render : γ → γ) : DrawAction γ β → DrawSys γ β → Option (DrawSys γ β)
  | .frame, s =>
    match drain s with
    | (.completed, s1) => some { s1 with engine := render s1.engine }
    | _ => none
  | .enqueueVoid f, s => some (addDrawFunction_enqueue f s)
  | .takeBack, s =>
    match backFuture s with
    | (.undefined, _) => none
    | (_, s1) => some s1
  | .submitAssign f, s =>
    match addDrawFunction_assign_submit f s with
    | (_, .undefined, _) => none
    | (_, _, s1) => some s1
  | .submitBox f, s =>
    match addDrawFunction_box_submit f s with
    | (_, .undefined, _) => none
    | (_, _, s1) => some s1

/-- A sequence of steps of the program on the dispatch. -/
def DrawSys.run (render : γ → γ) : List (DrawAction γ β) → DrawSys γ β → Option (DrawSys γ β)
  | [], s => some s
  | a :: rest, s =>
    match s.step render a with
    | none => none
    | some s1 => s1.run render rest

/-- The task `own`, enqueued with the lambda `body`, is accounted for: it was
never destroyed without being invoked, and it is either still queued, the
caller's `ret` not assigned, or was invoked from an engine state `g`, the value
its lambda produced there being assigned to the caller's `ret`, and `ret` not
assigned when the lambda produced none. -/
def DrawSys.Tracks (s : DrawSys γ β) (own : Nat) (body : DrawBody γ β) : Prop :=
  own < s.nextId ∧ own ∉ s.abandoned ∧
    (((∃ t ∈ s.drawFunctions, t.id = own ∧ t.body = body) ∧ s.rets own = none) ∨
      (∃ g, (own, g) ∈ s.executed ∧
        (∀ v, (body.run g).1 = .ok (some v) → s.rets own = some v) ∧
        ((∀ v, (body.run g).1 ≠ .ok (some v)) → s.rets own = none)))

end Dispatch

/-- A void task that increments a shared counter (the engine state). -/
def incrTask : VoidFunc Nat :=
  .mk fun g => (.ok (), g + 1, [])

/-- A void task whose body throws, as the lambda of `graphicsLoadTerrain` does
when no scene node can be created. -/
def failTask : VoidFunc Nat :=
  .mk fun g => (.error (.runtime_error "unable to create terrain scene node"), g, [])

/-- A void task whose body hands `incrTask` to `addDrawFunction(f, false)`. -/
def nestingTask : VoidFunc Nat :=
  .mk fun g => (.ok (), g, [incrTask])

/-- The queue `[incrTask, incrTask]` submitted to a fresh dispatch. -/
def twoIncrScene : DrawSys Nat Nat :=
  addDrawFunction_void incrTask (addDrawFunction_void incrTask (DrawSys.init 0))

/-- The queue `[incrTask, failTask, incrTask]` submitted to a fresh dispatch. -/
def failScene : DrawSys Nat Nat :=
  addDrawFunction_void incrTask
    (addDrawFunction_void failTask (addDrawFunction_void incrTask (DrawSys.init 0)))

/-- A value-producing task: it returns the counter plus 40 and increments the
counter. -/
def answerFunc : ValueFunc Nat Nat :=
  ⟨fun g => (.ok (g + 40), g + 1, [])⟩

/-- A value-producing task whose body throws, as the lambda of
`graphicsCreateCube` does when no scene node can be created (`graphics.cpp`,
lines 363-374). -/
def throwingFunc : ValueFunc Nat Nat :=
  ⟨fun g => (.error (.runtime_error "failed to create a cube scene node"), g, [])⟩

/-- The steps that follow the submission of `answerFunc` in the test of the
value-producing calls: another thread enqueues `incrTask`, then the draw thread
runs a frame. -/
def valueSteps : List (DrawAction Nat Nat) :=
  [.enqueueVoid incrTask, .frame]

/-- The dispatch after `answerFunc` was submitted to a fresh dispatch on the
default-constructible path and the steps `valueSteps` were made. -/
def assignScene : DrawSys Nat Nat :=
  (((addDrawFunction_assign_submit answerFunc (DrawSys.init 0)).2.2).run id valueSteps).getD
    (DrawSys.init 0)

/-- The dispatch after `answerFunc` was submitted to a fresh dispatch on the
heap-box path and the steps `valueSteps` were made. -/
def boxScene : DrawSys Nat Nat :=
  (((addDrawFunction_box_submit answerFunc (DrawSys.init 0)).2.2).run id valueSteps).getD
    (DrawSys.init 0)

/-- The dispatch after `throwingFunc` was submitted to a fresh dispatch on the
default-constructible path and the steps `valueSteps` were made. -/
def assignThrowScene : DrawSys Nat Nat :=
  (((addDrawFunction_assign_submit throwingFunc (DrawSys.init 0)).2.2).run id valueSteps).getD
    (DrawSys.init 0)

/-- The dispatch after `throwingFunc` was submitted to a fresh dispatch on the
heap-box path and the steps `valueSteps` were made. -/
def boxThrowScene : DrawSys Nat Nat :=
  (((addDrawFunction_box_submit throwingFunc (DrawSys.init 0)).2.2).run id valueSteps).getD
    (DrawSys.init 0)

/-- The dispatch after a first frame that drained two tasks (the vector is
empty and keeps its capacity of 2), with `nestingTask` then submitted. -/
def nestedScene : DrawSys Nat Nat :=
  addDrawFunction_void nestingTask (drain twoIncrScene).2

/-! ## Floating-point numbers on the wire

A shallow embedding of `sendFloat32`, `sendFloat64`, `recvFloat32` and
`recvFloat64` (`src/net/socketlib-float.cpp`): a number travels as the string
`std::to_string` gives, and comes back through `std::stof` or `std::stod`.  The two
library functions are written out as the standards give them (`printf("%f")`
and `strtof`/`strtod`, with the range errors glibc reports).  A finite number is
its exact rational value; the negative zero and the sign bit of a NaN are kept
apart. -/

/-- A binary floating-point format: the number of bits of the significand and
the least and greatest exponent of a normal number. -/
structure FloatFormat where
  prec : Nat
  emin : Int
  emax : Int
  deriving DecidableEq, Repr

/-- The type `float`. -/
def binary32 : FloatFormat := ⟨24, -126, 127⟩

/-- The type `double`. -/
def binary64 : FloatFormat := ⟨53, -1022, 1023⟩

/-- The value of a `float` or `double`: a finite number (zero being the
positive zero), the negative zero, an infinity, or a NaN with its sign bit. -/
inductive FloatVal where
  | finite (q : ℚ)
  | negZero
  | inf (negative : Bool)
  | nan (negative : Bool)
  deriving DecidableEq

/-- The integer nearest to `x`, the even one of the two when `x` is half-way. -/
def roundHalfEven (x : ℚ) : ℤ :=
  if x - ⌊x⌋ < 1 / 2 then ⌊x⌋
  else if 1 / 2 < x - ⌊x⌋ then ⌊x⌋ + 1
  else if ⌊x⌋ % 2 = 0 then ⌊x⌋ else ⌊x⌋ + 1

/-- The number with a significand of `prec` bits nearest to `q` (ties to
even), subnormal below `2 ^ emin`, with no bound on the exponent above. -/
def FloatFormat.round (F : FloatFormat) (q : ℚ) : ℚ :=
  if q = 0 then 0
  else
    (roundHalfEven (q / 2 ^ (max (Int.log 2 |q|) F.emin - (F.prec - 1))) : ℚ) *
      2 ^ (max (Int.log 2 |q|) F.emin - (F.prec - 1))

/-- The number with a significand of `prec` bits nearest to `q` (ties to
even), with no bound on the exponent on either side. -/
def FloatFormat.roundNormal (F : FloatFormat) (q : ℚ) : ℚ :=
  if q = 0 then 0
  else
    (roundHalfEven (q / 2 ^ (Int.log 2 |q| - (F.prec - 1))) : ℚ) *
      2 ^ (Int.log 2 |q| - (F.prec - 1))

/-- The bit that `strtod` of glibc loses below the least normal number (its bug
30220, in `round_and_return`): the first `prec` bits of the magnitude are kept
apart from the bit that follows them and from the bits after that one, and
when the number is shifted to the subnormal exponent the bit that follows is
dropped.  It is missed when no bit comes after it, that is when the magnitude
has exactly `prec + 1` significant bits.  The result is the weight of that bit,
zero when nothing is lost. -/
def FloatFormat.lostBit (F : FloatFormat) (q : ℚ) : ℚ :=
  if q ≠ 0 ∧ Int.log 2 |q| < F.emin ∧ (|q| / 2 ^ (Int.log 2 |q| - F.prec)).den = 1 ∧
      (|q| / 2 ^ (Int.log 2 |q| - F.prec)).num % 2 = 1 then
    2 ^ (Int.log 2 |q| - F.prec)
  else 0

/-- The value glibc rounds to the format: `q` itself, less the bit lost, if any,
from its magnitude. -/
def FloatFormat.kept (F : FloatFormat) (q : ℚ) : ℚ :=
  if q < 0 then q + F.lostBit q else q - F.lostBit q

/-- The conversion of an exact value to the format, as `strtof` and `strtod` of
glibc do it for `std::stof` and `std::stod`: the nearest number of the format
(to the value `kept`, which is the exact value but for the bit glibc loses); the
error `std::out_of_range` when the nearest number is beyond the largest finite
one, and, as glibc reports it where tininess is detected after rounding
(x86-64), when the value rounded to `prec` bits with an unbounded exponent is
still below the least normal number and the number returned is not the value
rounded.  A value that rounds up to the least normal number is returned without
an error. -/
def FloatFormat.convert (F : FloatFormat) (q : ℚ) : Except Thrown ℚ :=
  if (2 : ℚ) ^ (F.emax + 1) ≤ |F.round q| then .error .out_of_range
  else if |F.roundNormal q| < (2 : ℚ) ^ F.emin ∧ F.round (F.kept q) ≠ F.kept q then
    .error .out_of_range
  else .ok (F.round (F.kept q))

/-- The finite values, zeros, infinities and NaNs of the format: a finite `q`
belongs to it when converting `q` gives `q` itself. -/
def FloatFormat.IsValue (F : FloatFormat) : FloatVal → Prop
  | .finite q => F.convert q = .ok q
  | _ => True

/-- The character of a decimal digit. -/
def digitChar (d : Nat) : Char :=
  Char.ofNat (48 + d)

/-- The decimal digits of `n`, most significant first, `"0"` for zero. -/
def natDigits (n : Nat) : List Char :=
  if n = 0 then ['0'] else ((Nat.digits 10 n).reverse).map digitChar

/-- The last `k` decimal digits of `n`, most significant first, with leading
zeros. -/
def fracDigits : Nat → Nat → List Char
  | 0, _ => []
  | k + 1, n => fracDigits k (n / 10) ++ [digitChar (n % 10)]

/-- The text `printf("%f")` gives for a finite number of sign `negative` and
magnitude `a`: the minus sign when the sign bit is set, then the magnitude
rounded to six decimal places. -/
def printFixed (negative : Bool) (a : ℚ) : List Char :=
  (if negative then ['-'] else []) ++
    natDigits ((roundHalfEven (a * 10 ^ 6)).toNat / 10 ^ 6) ++ ['.'] ++
    fracDigits 6 ((roundHalfEven (a * 10 ^ 6)).toNat % 10 ^ 6)

/-- The function `std::to_string` on a `float` or `double`: the text that
`printf("%f", v)` gives, the value rounded to six decimal places, with the
minus sign of a negative zero and of a NaN whose sign bit is set. -/
def to_string : FloatVal → String
  | .finite q => String.mk (printFixed (decide (q < 0)) |q|)
  | .negZero => String.mk (printFixed true 0)
  | .inf false => "inf"
  | .inf true => "-inf"
  | .nan false => "nan"
  | .nan true => "-nan"

/-- The white space `strtod` skips, what `isspace` accepts in the "C" locale: the
space and the characters 9 to 13 (tab, line feed, vertical tab, form feed,
carriage return). -/
def isSpace (c : Char) : Bool :=
  c = ' ' || (9 ≤ c.toNat && c.toNat ≤ 13)

/-- The value of a hexadecimal digit. -/
def hexVal (c : Char) : Option Nat :=
  if '0' ≤ c ∧ c ≤ '9' then some (c.toNat - 48)
  else if 'a' ≤ c ∧ c ≤ 'f' then some (c.toNat - 87)
  else if 'A' ≤ c ∧ c ≤ 'F' then some (c.toNat - 55)
  else none

/-- The value of a run of decimal digits read from left to right. -/
def digitsValue (ds : List Char) : Nat :=
  ds.foldl (fun acc c => 10 * acc + (c.toNat - 48)) 0

/-- The value of a run of hexadecimal digits read from left to right. -/
def hexValue (ds : List Char) : Nat :=
  ds.foldl (fun acc c => 16 * acc + (hexVal c).getD 0) 0

/-- An optional sign: whether it is a minus, and what follows. -/
def scanSign : List Char → Bool × List Char
  | [] => (false, [])
  | c :: r => if c = '-' then (true, r) else if c = '+' then (false, r) else (false, c :: r)

/-- An optional exponent part introduced by one of the letters `marks`: the
letter, an optional sign and at least one decimal digit.  Without a digit
nothing is taken. -/
def scanExponent (marks : List Char) (cs : List Char) : Int × List Char :=
  match cs with
  | [] => (0, [])
  | c :: r =>
    if c ∈ marks then
      if ((scanSign r).2.takeWhile Char.isDigit) = [] then (0, cs)
      else
        ((if (scanSign r).1 then -1 else 1) *
            (digitsValue ((scanSign r).2.takeWhile Char.isDigit) : Int),
          (scanSign r).2.dropWhile Char.isDigit)
    else (0, cs)

/-- What `strtod` recognises at the start of a text, after white space and
sign: a decimal or hexadecimal number (its digits as a natural number, the
count of digits after the point, the exponent), an infinity or a NaN. -/
inductive Numeral where
  | decimal (mantissa scale : Nat) (exp10 : Int)
  | hex (mantissa scale : Nat) (exp2 : Int)
  | infinity
  | notANumber
  deriving DecidableEq, Repr

/-- The digits after an optional point. -/
def scanFraction (isDig : Char → Bool) : List Char → List Char × List Char
  | [] => ([], [])
  | c :: r => if c = '.' then (r.takeWhile isDig, r.dropWhile isDig) else ([], c :: r)

/-- A decimal number: digits with an optional point among them, at least one
digit, and an optional exponent. -/
def scanDecimal (cs : List Char) : Option (Numeral × List Char) :=
  if cs.takeWhile Char.isDigit = [] ∧
      (scanFraction Char.isDigit (cs.dropWhile Char.isDigit)).1 = [] then none
  else
    some (.decimal
        (digitsValue (cs.takeWhile Char.isDigit ++
          (scanFraction Char.isDigit (cs.dropWhile Char.isDigit)).1))
        (scanFraction Char.isDigit (cs.dropWhile Char.isDigit)).1.length
        (scanExponent ['e', 'E'] (scanFraction Char.isDigit (cs.dropWhile Char.isDigit)).2).1,
      (scanExponent ['e', 'E'] (scanFraction Char.isDigit (cs.dropWhile Char.isDigit)).2).2)

/-- Whether the character is a hexadecimal digit. -/
def isHexDigit (c : Char) : Bool :=
  (hexVal c).isSome

/-- A hexadecimal number: `0x` or `0X`, hexadecimal digits with an optional
point among them, at least one digit, and an optional binary exponent. -/
def scanHex (cs : List Char) : Option (Numeral × List Char) :=
  match cs with
  | z :: x :: r =>
    if z = '0' ∧ (x = 'x' ∨ x = 'X') then
      if r.takeWhile isHexDigit = [] ∧ (scanFraction isHexDigit (r.dropWhile isHexDigit)).1 = []
      then none
      else
        some (.hex
            (hexValue (r.takeWhile isHexDigit ++
              (scanFraction isHexDigit (r.dropWhile isHexDigit)).1))
            (scanFraction isHexDigit (r.dropWhile isHexDigit)).1.length
            (scanExponent ['p', 'P'] (scanFraction isHexDigit (r.dropWhile isHexDigit)).2).1,
          (scanExponent ['p', 'P'] (scanFraction isHexDigit (r.dropWhile isHexDigit)).2).2)
    else none
  | _ => none

/-- Whether the text starts with the letters of `word`, in either case. -/
def startsWithWord : List Char → List Char → Bool
  | [], _ => true
  | _ :: _, [] => false
  | w :: word, c :: cs => c.toLower = w && startsWithWord word cs

/-- The optional `(n-char-sequence)` after `nan`. -/
def scanNanTail (cs : List Char) : List Char :=
  match cs with
  | [] => []
  | c :: r =>
    if c = '(' then
      match r.dropWhile (fun c => c.isAlphanum || c = '_') with
      | [] => cs
      | d :: r1 => if d = ')' then r1 else cs
    else cs

/-- The words `infinity`, `inf` and `nan`, in either case. -/
def scanSpecial (cs : List Char) : Option (Numeral × List Char) :=
  if startsWithWord ['i', 'n', 'f', 'i', 'n', 'i', 't', 'y'] cs then some (.infinity, cs.drop 8)
  else if startsWithWord ['i', 'n', 'f'] cs then some (.infinity, cs.drop 3)
  else if startsWithWord ['n', 'a', 'n'] cs then some (.notANumber, scanNanTail (cs.drop 3))
  else none

/-- The subject sequence of `strtod`: leading white space is skipped, then come
an optional sign and the longest number that can be read.  The result tells
the sign, the number and the text left over; `none` when no number starts
there. -/
def scanNumeral (cs : List Char) : Option (Bool × Numeral × List Char) :=
  match scanSpecial (scanSign (cs.dropWhile isSpace)).2 with
  | some (n, rest) => some ((scanSign (cs.dropWhile isSpace)).1, n, rest)
  | none =>
    match scanHex (scanSign (cs.dropWhile isSpace)).2 with
    | some (n, rest) => some ((scanSign (cs.dropWhile isSpace)).1, n, rest)
    | none =>
      match scanDecimal (scanSign (cs.dropWhile isSpace)).2 with
      | some (n, rest) => some ((scanSign (cs.dropWhile isSpace)).1, n, rest)
      | none => none

/-- The exact value of a number read, its sign apart. -/
def Numeral.value : Numeral → Option ℚ
  | .decimal m k x => some ((m : ℚ) * 10 ^ (x - k))
  | .hex m k x => some ((m : ℚ) * 2 ^ (x - 4 * k))
  | _ => none

/-- The error `std::invalid_argument` of `std::stof` and `std::stod`, thrown when
no conversion could be performed. -/
def invalidArgument : Thrown :=
  .std_exception "invalid_argument"

/-- The number `strtod` returns for a sign and the exact magnitude read: the
conversion of the signed value, the negative zero when a minus sign stands
before a zero. -/
def convertSigned (F : FloatFormat) (neg : Bool) (a : ℚ) : Except Thrown FloatVal :=
  match F.convert ((if neg then -1 else 1) * a) with
  | .ok r => .ok (if neg = true ∧ r = 0 then .negZero else .finite r)
  | .error e => .error e

/-- The functions `std::stof` (for `binary32`) and `std::stod` (for `binary64`)
called with the string alone: the number at the start of the text is converted
and what follows it is ignored; `std::invalid_argument` when no number starts
the text, `std::out_of_range` when the conversion reports a range error. -/
def stoFloat (F : FloatFormat) (str : String) : Except Thrown FloatVal :=
  match scanNumeral str.data with
  | none => .error invalidArgument
  | some (neg, n, _) =>
    match n with
    | .infinity => .ok (.inf neg)
    | .notANumber => .ok (.nan neg)
    | .decimal m k x => convertSigned F neg ((m : ℚ) * 10 ^ (x - k))
    | .hex m k x => convertSigned F neg ((m : ℚ) * 2 ^ (x - 4 * k))

/-- The function `sendFloat32` (through `sendStringFloat32`): the string handed
to `sendString`. -/
def sendFloat32 (v : FloatVal) : String :=
  to_string v

/-- The function `sendFloat64` (through `sendStringFloat64`): the string handed
to `sendString`. -/
def sendFloat64 (v : FloatVal) : String :=
  to_string v

/-- The function `recvFloat32` (through `recvStringFloat32`) on the string
`recvString` returned: `std::stof(str)`. -/
def recvFloat32 (str : String) : Except Thrown FloatVal :=
  stoFloat binary32 str

/-- The function `recvFloat64` (through `recvStringFloat64`) on the string
`recvString` returned: `std::stod(str)`. -/
def recvFloat64 (str : String) : Except Thrown FloatVal :=
  stoFloat binary64 str

/-- Whether a number that `strtod` reads can start the text: after the white
space comes a digit, a point, a sign, or the first letter of `inf` or `nan`. -/
def canStartNumeral (cs : List Char) : Bool :=
  match cs.dropWhile isSpace with
  | [] => false
  | c :: _ => c.isDigit || c = '.' || c = '+' || c = '-' || c.toLower = 'i' || c.toLower = 'n'

/-- A value that `printf("%f")` prints in full: a zero, an infinity, a NaN, or a
finite number that is a whole number of millionths. -/
def FloatVal.PrintsExactly : FloatVal → Prop
  | .finite q => (q * 10 ^ 6).den = 1
  | _ => True

/-- An optional sign as text: nothing, `+` or `-`, and whether it is a minus. -/
def SignText (sg : List Char) (neg : Bool) : Prop :=
  (sg = [] ∧ neg = false) ∨ (sg = ['+'] ∧ neg = false) ∨ (sg = ['-'] ∧ neg = true)

/-- The digits of a number as text: the digits `ip` before the point and `fp`
after it, at least one digit in all, the point optional when no digit follows
it. -/
def MantissaText (isDig : Char → Bool) (mt ip fp : List Char) : Prop :=
  (∀ c ∈ ip, isDig c = true) ∧ (∀ c ∈ fp, isDig c = true) ∧ (ip ≠ [] ∨ fp ≠ []) ∧
    ((fp = [] ∧ mt = ip) ∨ mt = ip ++ '.' :: fp)

/-- An optional exponent part as text, and the exponent it denotes: nothing
(exponent zero), or one of the letters `marks`, an optional sign and at least
one decimal digit. -/
def ExponentText (marks : List Char) (ep : List Char) (x : Int) : Prop :=
  (ep = [] ∧ x = 0) ∨
    ∃ m sg neg ds, m ∈ marks ∧ SignText sg neg ∧ ds ≠ [] ∧ (∀ c ∈ ds, c.isDigit = true) ∧
      ep = m :: (sg ++ ds) ∧ x = (if neg then -1 else 1) * (digitsValue ds : Int)

/-- The optional text after `nan`: nothing, or letters, digits and underscores
between parentheses. -/
def NanTailText (seq : List Char) : Prop :=
  seq = [] ∨ ∃ cs, (∀ c ∈ cs, c.isAlphanum = true ∨ c = '_') ∧ seq = '(' :: (cs ++ [')'])

/-- The texts `strtod` takes for a number after its sign, with the number each
denotes: a decimal number with an optional exponent, or `0x` and a hexadecimal
number with an optional binary exponent, or `inf` or `infinity`, or `nan` with
its optional tail, the words in either case. -/
def UnsignedText (body : List Char) (n : Numeral) : Prop :=
  (∃ mt ip fp ep x, MantissaText Char.isDigit mt ip fp ∧ ExponentText ['e', 'E'] ep x ∧
      body = mt ++ ep ∧ n = .decimal (digitsValue (ip ++ fp)) fp.length x) ∨
    (∃ z mt ip fp ep x, (z = 'x' ∨ z = 'X') ∧ MantissaText isHexDigit mt ip fp ∧
      ExponentText ['p', 'P'] ep x ∧ body = '0' :: z :: (mt ++ ep) ∧
      n = .hex (hexValue (ip ++ fp)) fp.length x) ∨
    ((body.map Char.toLower = ['i', 'n', 'f'] ∨
        body.map Char.toLower = ['i', 'n', 'f', 'i', 'n', 'i', 't', 'y']) ∧ n = .infinity) ∨
    (∃ w seq, w.map Char.toLower = ['n', 'a', 'n'] ∧ NanTailText seq ∧ body = w ++ seq ∧
      n = .notANumber)

/-- The texts `strtod` takes for a number, with the sign and the number each
denotes: an optional sign, then the text of a number. -/
def NumeralText (p : List Char) (neg : Bool) (n : Numeral) : Prop :=
  ∃ sg body, SignText sg neg ∧ p = sg ++ body ∧ UnsignedText body n

/-- A text that, after its leading white space, starts with a text `strtod`
takes for a number. -/
def StartsWithNumeral (cs : List Char) : Prop :=
  ∃ p rest neg n, cs.dropWhile isSpace = p ++ rest ∧ NumeralText p neg n

/-- The exact values out of the range of the format: those of magnitude at
least the largest finite number plus half a unit of its last place, and those
other than zero below the least normal number less a quarter unit of its last
place whose value `kept` is no multiple of the least subnormal number. -/
def FloatFormat.OutOfRange (F : FloatFormat) (v : ℚ) : Prop :=
  (2 : ℚ) ^ (F.emax + 1) - 2 ^ (F.emax - F.prec) ≤ |v| ∨
    (v ≠ 0 ∧ |v| < (2 : ℚ) ^ F.emin - 2 ^ (F.emin - F.prec - 1) ∧
      ¬ ∃ k : ℤ, F.kept v = k * 2 ^ (F.emin - F.prec + 1))

/-! ## The module worker: a handler that returns no result -/

/-- Whether the call is a `getRetSpec`. -/
def Event.isGetRetSpec {V P : Type} : Event V P → Bool
  | .getRetSpec _ _ => true
  | _ => false

/-- A handler that returns a null `FuncResult*`, whatever its arguments. -/
def nullHandler : List Val → Except Thrown (Option (List Val)) :=
  fun _ => .ok none

/-- A registry with the one entry `"test.null"`, argument signature `"u"` and
return signature `"u"`, whose handler returns null. -/
def nullRegistry : List FuncEntry :=
  [{ name := "test.null", handler := nullHandler, argsSpec := ['u'], retSpec := ['u'] }]

/-- The scripted environment of the session that calls `"test.null"`. -/
def nullEnv : Env Conn Val String := scripted "ModBox/m" nullRegistry

/-- The frames a module sends in a session that calls `"test.null"` with `7` and
then exits. -/
def nullSession : List Frame :=
  [.raw "ModBox/m", .text "tester", .text "test.null", .u64 7, .text "exit"]

/-! ## Wide strings packed into bytes

A shallow embedding of `bytes_pack(const std::wstring&)` (`src/util/bytes_pack.cpp`).
A wide character is the integer value of its `wchar_t`, a byte the value of its
`char` taken as unsigned, a number below 256. -/

/-- The conversion `(unsigned int)wc`: the value modulo `2 ^ 32`. -/
def toUnsignedInt (wc : Int) : Nat :=
  (wc % 2 ^ 32).toNat

/-- The conversion `(char)wc`, as the byte it gives: the value modulo `2 ^ 8`. -/
def toChar (wc : Int) : Nat :=
  (wc % 2 ^ 8).toNat

/-- The body of the loop of `bytes_pack` (lines 13-17) for the wide character
`wc`, the string built so far being `s`. -/
def bytes_pack_step (s : List Nat) (wc : Int) : List Nat :=
  if toUnsignedInt wc ≤ 0xFF then s ++ [toChar wc] else s ++ ['?'.toNat]

/-- The function `bytes_pack(const std::wstring& ws)`: the loop of lines 12-18
started with the empty string (`reserve` changes no content). -/
def bytes_pack (ws : List Int) : List Nat :=
  ws.foldl bytes_pack_step []

/-! ## The event manager

A shallow embedding of `EventManager` (`src/core/event_manager.cpp`).  The header
`event_manager.hpp` is not among the embedded sources; the members are taken as
the code uses them: `eventHandlers` maps an event name to a set of handlers
ordered by `EventHandler::operator<` (the code calls `emplace`, `lower_bound`
with an `EventHandler`, and `erase` on an entry), and `current_id` is the 64-bit
counter the ids come from.  A set is the list of its elements in the order the
set iterates them.  A handler is a function on the arguments `A` of the event
and a state `γ` of the world outside the manager; it returns or throws. -/

/-- What leaves a handler called by `raiseEvent`: the class
`StopEventPropagation` the loop catches, or anything else. -/
inductive Raised where
  | StopEventPropagation
  | other (e : Thrown)
  deriving DecidableEq, Repr

/-- How a member function ends: it returns, it throws, or its behaviour is not
defined by the language (an iterator that points to no element is erased). -/
inductive Effect (α : Type) where
  | done (a : α)
  | threw (e : Thrown)
  | undefined
  deriving DecidableEq, Repr

/-- What a function that returned gave back, mapped by `f`. -/
def Effect.map {α β : Type} (f : α → β) : Effect α → Effect β
  | .done a => .done (f a)
  | .threw e => .threw e
  | .undefined => .undefined

/-- The class `EventHandler`: an id and the function to call. -/
structure EventHandler (A γ : Type) where
  id : Nat
  func : A → γ → Except Raised Unit × γ

/-- The member `EventHandler::operator<` (lines 10-13): `id < other.id`. -/
def EventHandler.lt {A γ : Type} (h other : EventHandler A γ) : Bool :=
  h.id < other.id

/-- One call `handler(args)` made by `raiseEvent`, with how it ended. -/
structure HandlerCall (A : Type) where
  id : Nat
  args : A
  result : Except Raised Unit
  deriving DecidableEq

/-- The class `EventManager`: the handlers of each event that has an entry in
the map, and the id the next handler gets. -/
structure EventManager (A γ : Type) where
  eventHandlers : String → Option (List (EventHandler A γ))
  current_id : Nat

section Events

variable {A γ : Type}

/-- A manager with no entry in its map. -/
def EventManager.empty (current_id : Nat) : EventManager A γ :=
  ⟨fun _ => none, current_id⟩

/-- The ids of the handlers of an event, in the order of the set; `none` when
the map has no entry for the event. -/
def EventManager.ids (m : EventManager A γ) (event : String) : Option (List Nat) :=
  (m.eventHandlers event).map (fun hs => hs.map (fun h => h.id))

/-- The map with the entry of `event` replaced (`none`: erased). -/
def EventManager.setHandlers (m : EventManager A γ) (event : String)
    (hs : Option (List (EventHandler A γ))) : EventManager A γ :=
  { m with eventHandlers := fun e => if e = event then hs else m.eventHandlers e }

/-- The member `emplace` of a `std::set` ordered by `operator<`: the element goes
before the first larger one; it is not inserted when an equivalent one is there. -/
def setEmplace (h : EventHandler A γ) : List (EventHandler A γ) → List (EventHandler A γ)
  | [] => [h]
  | x :: xs =>
    if h.lt x then h :: x :: xs
    else if x.lt h then x :: setEmplace h xs
    else x :: xs

/-- The function `EventManager::addEventHandler` (lines 20-29): the handler
enters the set of the event (`operator[]` makes an empty set for a new event)
under the id `current_id`, the counter is incremented in 64 bits, and the id is
returned. -/
def addEventHandler (event : String) (handler : A → γ → Except Raised Unit × γ)
    (m : EventManager A γ) : Nat × EventManager A γ :=
  (m.current_id,
    { eventHandlers := fun e =>
        if e = event then some (setEmplace ⟨m.current_id, handler⟩ ((m.eventHandlers event).getD []))
        else m.eventHandlers e,
      current_id := (m.current_id + 1) % 2 ^ 64 })

/-- The object `whatToLookFor` of `removeEventHandler` (lines 35-36): a handler
with the id looked for and a function that does nothing. -/
def whatToLookFor (id : Nat) : EventHandler A γ :=
  ⟨id, fun _ g => (.ok (), g)⟩

/-- The function `EventManager::removeEventHandler` (lines 31-39): `at` throws
`std::out_of_range` for an event without entry; `lower_bound` finds the first
handler that is not less than `whatToLookFor`, and `erase` removes it.  When
every handler is less, `lower_bound` gives `end()` and `erase(end())` is
undefined. -/
def removeEventHandler (event : String) (id : Nat) (m : EventManager A γ) :
    Effect (EventManager A γ) :=
  match m.eventHandlers event with
  | none => .threw .out_of_range
  | some handlers =>
    match handlers.dropWhile (fun h => h.lt (whatToLookFor id)) with
    | [] => .undefined
    | _ :: rest =>
      .done (m.setHandlers event
        (some (handlers.takeWhile (fun h => h.lt (whatToLookFor id)) ++ rest)))

/-- The function `EventManager::removeAllEventHandlers` (lines 41-45): the entry
of the event is erased from the map. -/
def removeAllEventHandlers (event : String) (m : EventManager A γ) : EventManager A γ :=
  m.setHandlers event none

/-- The loop of `raiseEvent` (lines 54-60) over the handlers still to call:
`StopEventPropagation` leaves the loop, anything else thrown leaves the
function.  The result tells how the function ends, the state the handlers left
and the calls made, in order. -/
def raiseLoop (args : A) : List (EventHandler A γ) → γ →
    Except Thrown Unit × γ × List (HandlerCall A)
  | [], g => (.ok (), g, [])
  | h :: rest, g =>
    match h.func args g with
    | (.ok (), g1) =>
      ((raiseLoop args rest g1).1, (raiseLoop args rest g1).2.1,
        ⟨h.id, args, .ok ()⟩ :: (raiseLoop args rest g1).2.2)
    | (.error .StopEventPropagation, g1) =>
      (.ok (), g1, [⟨h.id, args, .error .StopEventPropagation⟩])
    | (.error (.other e), g1) => (.error e, g1, [⟨h.id, args, .error (.other e)⟩])

/-- The function `EventManager::raiseEvent` (lines 47-61): nothing is done for an
event without entry; otherwise the handlers of the event are called in the order
of the set.  The handlers act on the state `γ` and leave the manager as it is. -/
def raiseEvent (event : String) (args : A) (m : EventManager A γ) (g : γ) :
    Except Thrown Unit × γ × List (HandlerCall A) :=
  match m.eventHandlers event with
  | none => (.ok (), g, [])
  | some handlers => raiseLoop args handlers g

/-- One call of a member function of the manager. -/
inductive EventOp (A γ : Type) where
  | addEventHandler (event : String) (handler : A → γ → Except Raised Unit × γ)
  | removeEventHandler (event : String) (id : Nat)
  | removeAllEventHandlers (event : String)
  | raiseEvent (event : String) (args : A)

/-- A sequence of calls made one after the other on a manager, a call that
throws leaving the exception to its caller: the ids the calls of
`addEventHandler` returned, in order, and the manager and the outside state at
the end; `none` when the behaviour of a call is undefined. -/
def runOps : List (EventOp A γ) → EventManager A γ → γ →
    Option (List Nat × EventManager A γ × γ)
  | [], m, g => some ([], m, g)
  | .addEventHandler event handler :: ops, m, g =>
    (runOps ops (addEventHandler event handler m).2 g).map
      (fun r => ((addEventHandler event handler m).1 :: r.1, r.2))
  | .removeEventHandler event id :: ops, m, g =>
    match removeEventHandler event id m with
    | .done m1 => runOps ops m1 g
    | .threw _ => runOps ops m g
    | .undefined => none
  | .removeAllEventHandlers event :: ops, m, g => runOps ops (removeAllEventHandlers event m) g
  | .raiseEvent event args :: ops, m, g => runOps ops m (raiseEvent event args m g).2.1

/-- The state a manager is in when its sets are in order and its counter has
not wrapped: the handlers of each event stand in ascending order of their ids,
every id is below `current_id`, and handlers of different events have
different ids. -/
def EventManager.WellFormed (m : EventManager A γ) : Prop :=
  (∀ event hs, m.eventHandlers event = some hs →
    (hs.map (fun h => h.id)).Pairwise (fun a b => a < b)) ∧
  (∀ event hs, m.eventHandlers event = some hs → ∀ h ∈ hs, h.id < m.current_id) ∧
  (∀ e1 e2 hs1 hs2, m.eventHandlers e1 = some hs1 → m.eventHandlers e2 = some hs2 →
    ∀ h1 ∈ hs1, ∀ h2 ∈ hs2, h1.id = h2.id → e1 = e2)

end Events

/-- A handler that notes its number in the outside state and returns. -/
def noteHandler (n : Nat) : Unit → List Nat → Except Raised Unit × List Nat :=
  fun _ g => (.ok (), g ++ [n])

/-- A handler that notes its number in the outside state and throws
`StopEventPropagation`. -/
def stopHandler (n : Nat) : Unit → List Nat → Except Raised Unit × List Nat :=
  fun _ g => (.error .StopEventPropagation, g ++ [n])

/-- A manager after three registrations: a handler of the event `"a"` (id 0),
one of the event `"b"` (id 1) and a second one of the event `"a"` (id 2). -/
def threeHandlers : EventManager Unit (List Nat) :=
  (addEventHandler "a" (noteHandler 2)
    (addEventHandler "b" (noteHandler 1)
      (addEventHandler "a" (noteHandler 0) (EventManager.empty 0)).2).2).2

/-- A manager whose event `"a"` has three handlers, the second of which stops
the propagation. -/
def stoppingHandlers : EventManager Unit (List Nat) :=
  (addEventHandler "a" (noteHandler 2)
    (addEventHandler "a" (stopHandler 1)
      (addEventHandler "a" (noteHandler 0) (EventManager.empty 0)).2).2).2

/-! ## The handlers of the graphics functions

A shallow embedding of the nine handlers of `src/graphics/graphics.cpp` (lines
96-270) and of their registration (lines 272-294).  The handlers take the decoded
arguments as a `std::vector<std::string>` and return a `FuncResult` by value; the
`getArgument` they call on that vector is not among the embedded sources (the
one of `include/modules/module_io.hpp` is declared for `std::vector<void*>`), nor
are the functions of the engine they call.  These are fields of a
`GraphicsEnv`, arbitrary state transformers that may throw.  A pointer is the
number of its address, 0 for `nullptr`.  Every read of an argument and every
call into the engine is appended to a trace. -/

/-- The types `T` at which the handlers call `getArgument<T>`. -/
inductive NativeType where
  | uint64_t
  | float
  | double
  | string
  deriving DecidableEq, Repr

/-- The values of a native type. -/
def NativeType.Value : NativeType → Type
  | .uint64_t => Nat
  | .float => FloatVal
  | .double => FloatVal
  | .string => String

/-- The functions of the engine the handlers call, with their arguments: game
objects, scene nodes, textures and drawables. -/
inductive EngineCall where
  | graphicsCreateCube
  | newGameObject (node : Nat)
  | registerGameObject (obj : Nat)
  | getGameObject (handle : Nat)
  | sceneNode (obj : Nat)
  | graphicsMoveObject (node : Nat) (x y z : FloatVal)
  | graphicsDeleteObject (obj : Nat)
  | unregisterGameObject (handle : Nat)
  | graphicsRotateObject (node : Nat) (pitch roll yaw : FloatVal)
  | getTexture (filename : String)
  | registerTexture (texture : Nat)
  | accessTexture (handle : Nat)
  | setMaterialTexture (node layer texture : Nat)
  | drawables_access (handle : Nat)
  | drawables_insert (drawable : Nat)
  | graphicsCreateDrawableCube
  | graphicsEnablePhysics (drawable : Nat) (x y z : FloatVal)
  deriving DecidableEq

/-- One step of a handler that can be seen from outside: a mutex locked or
released, an argument read at a native type, a call into the engine with what
it returned, a line of the log. -/
inductive GEvent where
  | lock (mutex : String)
  | unlock (mutex : String)
  | getArgument (T : NativeType) (idx : Nat)
  | call (c : EngineCall) (r : Except Thrown Nat)
  | log (msg : String)
  deriving DecidableEq

/-- Whether the step reads an argument. -/
def GEvent.isGetArgument : GEvent → Bool
  | .getArgument _ _ => true
  | _ => false

/-- Whether the step is a call into the engine: a game object, a texture or a
drawable is made, looked up or changed. -/
def GEvent.isCall : GEvent → Bool
  | .call _ _ => true
  | _ => false

/-- The reads of arguments among the steps, in order: the native type and the
index of each. -/
def argumentReads : List GEvent → List (NativeType × Nat)
  | [] => []
  | .getArgument T idx :: rest => (T, idx) :: argumentReads rest
  | _ :: rest => argumentReads rest

/-- The functions the handlers call and whose bodies lie outside the embedded
sources: `getArgument<T>(args, idx)` on the vector of decoded arguments, and the
functions of the engine.  A call into the engine gives back a pointer or a
handle (0 where the function returns nothing). -/
structure GraphicsEnv (σ V : Type) where
  getArgument : (T : NativeType) → List V → Nat → σ → Except Thrown T.Value × σ
  call : EngineCall → σ → Except Thrown Nat × σ

/-- The state a handler runs in: the engine and the steps made so far. -/
structure GWorld (σ : Type) where
  st : σ
  trace : List GEvent
  deriving DecidableEq

/-- The struct `FuncResult`: the vector `data` of the returned values, a slot
being `none` until `setReturn` stores a value in it. -/
structure FuncResult where
  data : List (Option Nat)
  deriving DecidableEq, Repr

/-- The member `resize(n)` of `std::vector`: the first `n` elements are kept and
empty slots are added up to `n`. -/
def FuncResult.resize (ret : FuncResult) (n : Nat) : FuncResult :=
  ⟨ret.data.take n ++ List.replicate (n - ret.data.length) none⟩

/-- The class `std::logic_error`, a `std::exception` with its text. -/
def logic_error (what : String) : Thrown :=
  .std_exception what

/-- A piece of straight-line code of a handler. -/
def GAct (σ α : Type) : Type := GWorld σ → Except Thrown α × GWorld σ

namespace GAct

variable {σ V α β : Type}

/-- Sequencing: an exception skips the rest. -/
def andThen (m : GAct σ α) (f : α → GAct σ β) : GAct σ β := fun w =>
  match m w with
  | (.ok a, w1) => f a w1
  | (.error e, w1) => (.error e, w1)

instance : Monad (GAct σ) where
  pure a := fun w => (.ok a, w)
  bind := andThen

/-- The statement `throw e`. -/
def raise (e : Thrown) : GAct σ α := fun w => (.error e, w)

/-- The call `getArgument<T>(args, idx)`. -/
def getArgument (env : GraphicsEnv σ V) (T : NativeType) (args : List V) (idx : Nat) :
    GAct σ T.Value := fun w =>
  ((env.getArgument T args idx w.st).1,
    ⟨(env.getArgument T args idx w.st).2, w.trace ++ [.getArgument T idx]⟩)

/-- A call into the engine. -/
def call (env : GraphicsEnv σ V) (c : EngineCall) : GAct σ Nat := fun w =>
  ((env.call c w.st).1, ⟨(env.call c w.st).2, w.trace ++ [.call c (env.call c w.st).1]⟩)

/-- The macro `LOG(msg)`. -/
def log (msg : String) : GAct σ Unit := fun w =>
  (.ok (), ⟨w.st, w.trace ++ [.log msg]⟩)

/-- A scope that starts with `std::lock_guard<std::recursive_mutex> lock(mutex)`:
the mutex is locked, the rest of the scope runs, and the mutex is released when
the scope is left, by `return` or by an exception. -/
def withLock (mutex : String) (body : GAct σ α) : GAct σ α := fun w =>
  ((body ⟨w.st, w.trace ++ [.lock mutex]⟩).1,
    ⟨(body ⟨w.st, w.trace ++ [.lock mutex]⟩).2.st,
      (body ⟨w.st, w.trace ++ [.lock mutex]⟩).2.trace ++ [.unlock mutex]⟩)

/-- The block `try { m } catch (const std::out_of_range& e) { h }`. -/
def catchOutOfRange (m : GAct σ α) (h : GAct σ α) : GAct σ α := fun w =>
  match m w with
  | (.error .out_of_range, w1) => h w1
  | r => r

/-- What a piece of code does when it returns: the value satisfies `Q`, and the
reads of arguments it made are `L`. -/
def Completes (m : GAct σ α) (L : List (NativeType × Nat)) (Q : α → Prop) : Prop :=
  ∀ w a w1, m w = (.ok a, w1) →
    Q a ∧ ∃ evs, w1.trace = w.trace ++ evs ∧ argumentReads evs = L

end GAct

section Graphics

variable {σ V : Type} (env : GraphicsEnv σ V)

/-- The function `setReturn<uint64_t>(ret, idx, value)`, after the one of
`include/modules/module_io.hpp` (lines 23-33): the value is stored in the slot
`idx` of `data`.  An index past the end throws `std::out_of_range` under
`FORTIFY_SOURCE` (`at`) and is undefined without it; no handler reaches it. -/
def setReturn (ret : FuncResult) (idx : Nat) (value : Nat) : GAct σ FuncResult :=
  if idx < ret.data.length then pure ⟨ret.data.set idx (some value)⟩
  else GAct.raise .out_of_range

/-- The function `DrawablesManager::access` (`drawables_manager.cpp`, lines 3-10):
`drawables.access(handle)`, with `std::out_of_range` turned into a
`std::runtime_error`. -/
def DrawablesManager.access (handle : Nat) : GAct σ Nat :=
  GAct.catchOutOfRange (GAct.call env (.drawables_access handle))
    (GAct.raise (.runtime_error ("No such drawable handle: " ++ String.mk (natDigits handle))))

/-- The function `DrawablesManager::track` (`drawables_manager.cpp`, lines 12-15). -/
def DrawablesManager.track (drawable : Nat) : GAct σ Nat :=
  GAct.call env (.drawables_insert drawable)

/-- The conversion of a `double` to `float` where a handler passes doubles to
`core::vector3df`: the nearest `float`, an infinity beyond the largest one, the
negative zero for a negative number that rounds to zero. -/
def doubleToFloat : FloatVal → FloatVal
  | .finite q =>
    if (2 : ℚ) ^ (binary32.emax + 1) ≤ |binary32.round q| then .inf (decide (q < 0))
    else if q < 0 ∧ binary32.round q = 0 then .negZero
    else .finite (binary32.round q)
  | v => v

/-- The function `handlerGraphicsCreateCube` (lines 96-108); its parameter is
marked `UNUSED`. -/
def handlerGraphicsCreateCube (_args : List V) : GAct σ FuncResult :=
  GAct.withLock "gameObjectMutex" (do
    let node ← GAct.call env .graphicsCreateCube
    let obj ← GAct.call env (.newGameObject node)
    let objectHandle ← GAct.call env (.registerGameObject obj)
    setReturn ((FuncResult.mk []).resize 1) 0 objectHandle)

/-- The function `handlerGraphicsMoveObject` (lines 110-128). -/
def handlerGraphicsMoveObject (args : List V) : GAct σ FuncResult :=
  if args.length ≠ 4 then
    GAct.raise (logic_error "Wrong number of arguments for handlerGraphicsMoveObject()")
  else
    GAct.withLock "gameObjectMutex" (do
      let objectHandle ← GAct.getArgument env .uint64_t args 0
      let x ← GAct.getArgument env .double args 1
      let y ← GAct.getArgument env .double args 2
      let z ← GAct.getArgument env .double args 3
      let obj ← GAct.call env (.getGameObject objectHandle)
      let node ← GAct.call env (.sceneNode obj)
      let _ ← GAct.call env (.graphicsMoveObject node x y z)
      pure (FuncResult.mk []))

/-- The function `handlerGraphicsDeleteObject` (lines 130-145). -/
def handlerGraphicsDeleteObject (args : List V) : GAct σ FuncResult :=
  if args.length ≠ 1 then
    GAct.raise (logic_error "Wrong number of arguments for handlerGraphicsDeleteObject()")
  else
    GAct.withLock "gameObjectMutex" (do
      let objectHandle ← GAct.getArgument env .uint64_t args 0
      let obj ← GAct.call env (.getGameObject objectHandle)
      let _ ← GAct.call env (.graphicsDeleteObject obj)
      let _ ← GAct.call env (.unregisterGameObject objectHandle)
      pure (FuncResult.mk []))

/-- The function `handlerGraphicsRotateObject` (lines 147-166). -/
def handlerGraphicsRotateObject (args : List V) : GAct σ FuncResult :=
  if args.length ≠ 4 then
    GAct.raise (logic_error "Wrong number of arguments for handlerGraphicsRotateObject()")
  else
    GAct.withLock "gameObjectMutex" (do
      let objectHandle ← GAct.getArgument env .uint64_t args 0
      let pitch ← GAct.getArgument env .double args 1
      let roll ← GAct.getArgument env .double args 2
      let yaw ← GAct.getArgument env .double args 3
      let obj ← GAct.call env (.getGameObject objectHandle)
      let node ← GAct.call env (.sceneNode obj)
      let _ ← GAct.call env (.graphicsRotateObject node (doubleToFloat pitch)
        (doubleToFloat roll) (doubleToFloat yaw))
      pure (FuncResult.mk []))

/-- The function `handlerGraphicsLoadTexture` (lines 170-191): the mutex is
locked before the number of arguments is looked at. -/
def handlerGraphicsLoadTexture (args : List V) : GAct σ FuncResult :=
  GAct.withLock "irrlichtMutex"
    (if args.length ≠ 1 then
      GAct.raise (logic_error "Wrong number of arguments for handlerGraphicsLoadTexture()")
    else do
      let filename ← GAct.getArgument env .string args 0
      let texture ← GAct.call env (.getTexture filename)
      if texture = 0 then
        setReturn ((FuncResult.mk []).resize 1) 0 0
      else do
        let handle ← GAct.call env (.registerTexture texture)
        setReturn ((FuncResult.mk []).resize 1) 0 handle)

/-- The function `handlerGraphicsAddTexture` (lines 193-213). -/
def handlerGraphicsAddTexture (args : List V) : GAct σ FuncResult :=
  if args.length ≠ 2 then
    GAct.raise (logic_error "Wrong number of arguments for handlerGraphicsAddTexture()")
  else
    GAct.withLock "gameObjectMutex" (do
      let objectHandle ← GAct.getArgument env .uint64_t args 0
      let textureHandle ← GAct.getArgument env .uint64_t args 1
      let obj ← GAct.call env (.getGameObject objectHandle)
      let texture ← GAct.call env (.accessTexture textureHandle)
      GAct.log ("Adding texture " ++ String.mk (natDigits textureHandle) ++ " to object " ++
        String.mk (natDigits objectHandle))
      let node ← GAct.call env (.sceneNode obj)
      let _ ← GAct.call env (.setMaterialTexture node 0 texture)
      pure (FuncResult.mk []))

/-- The function `handlerGraphicsDrawableAddTexture` (lines 215-235); the text of
its error names `handlerGraphicsAddTexture`. -/
def handlerGraphicsDrawableAddTexture (args : List V) : GAct σ FuncResult :=
  if args.length ≠ 2 then
    GAct.raise (logic_error "Wrong number of arguments for handlerGraphicsAddTexture()")
  else
    GAct.withLock "gameObjectMutex" (do
      let objectHandle ← GAct.getArgument env .uint64_t args 0
      let textureHandle ← GAct.getArgument env .uint64_t args 1
      let obj ← DrawablesManager.access env objectHandle
      let texture ← GAct.call env (.accessTexture textureHandle)
      GAct.log ("Adding texture " ++ String.mk (natDigits textureHandle) ++ " to object " ++
        String.mk (natDigits objectHandle))
      let _ ← GAct.call env (.setMaterialTexture obj 0 texture)
      pure (FuncResult.mk []))

/-- The function `handlerCreateDrawableCube` (lines 239-251). -/
def handlerCreateDrawableCube (args : List V) : GAct σ FuncResult :=
  if args.length ≠ 0 then
    GAct.raise (logic_error "Wrong number of arguments for handlerCreateDrawableCube()")
  else do
    GAct.log "Creating drawable cube"
    let drawable ← GAct.call env .graphicsCreateDrawableCube
    let handle ← DrawablesManager.track env drawable
    setReturn ((FuncResult.mk []).resize 1) 0 handle

/-- The function `handlerDrawableEnablePhysics` (lines 253-270). -/
def handlerDrawableEnablePhysics (args : List V) : GAct σ FuncResult :=
  if args.length ≠ 4 then
    GAct.raise (logic_error "Wrong number of arguments for handlerDrawableEnablePhysics()")
  else do
    let drawableHandle ← GAct.getArgument env .uint64_t args 0
    let x ← GAct.getArgument env .float args 1
    let y ← GAct.getArgument env .float args 2
    let z ← GAct.getArgument env .float args 3
    let drawable ← DrawablesManager.access env drawableHandle
    let _ ← GAct.call env (.graphicsEnablePhysics drawable x y z)
    pure (FuncResult.mk [])

/-- One registration `registerFuncProvider(FuncProvider(name, handler), argsSpec, retSpec)`
of a handler of `graphics.cpp`. -/
structure GraphicsEntry (σ V : Type) where
  name : String
  handler : List V → GAct σ FuncResult
  argsSpec : List Char
  retSpec : List Char

/-- The function `initializeGraphicsFuncProviders` (lines 272-294): the nine
registrations it makes, in order. -/
def initializeGraphicsFuncProviders : List (GraphicsEntry σ V) :=
  [⟨"graphics.createCube", handlerGraphicsCreateCube env, [], ['u']⟩,
    ⟨"graphics.moveObject", handlerGraphicsMoveObject env, ['u', 'f', 'f', 'f'], []⟩,
    ⟨"graphics.rotateObject", handlerGraphicsRotateObject env, ['u', 'f', 'f', 'f'], []⟩,
    ⟨"graphics.deleteObject", handlerGraphicsDeleteObject env, ['u'], []⟩,
    ⟨"graphics.texture.loadFromFile", handlerGraphicsLoadTexture env, ['s'], ['u']⟩,
    ⟨"graphics.texture.add", handlerGraphicsAddTexture env, ['u', 'u'], []⟩,
    ⟨"graphics.texture.addToDrawable", handlerGraphicsDrawableAddTexture env, ['u', 'u'], []⟩,
    ⟨"graphics.drawable.createCube", handlerCreateDrawableCube env, [], ['u']⟩,
    ⟨"graphics.drawable.enablePhysics", handlerDrawableEnablePhysics env,
      ['u', 'f', 'f', 'f'], []⟩]

end Graphics

/-- Modelled from the spec: an engine for test runs.  Its state counts the
objects made; every call into it succeeds and gives back the next number as
pointer or handle.  `getArgument<T>` converts the decoded value at the index: an
unsigned integer for `uint64_t`, the decimal text of a number through
`std::stof` for `float` and through `std::stod` for `double`, a string for
`std::string`; a value of another kind, or none, is an error. -/
def testGraphics : GraphicsEnv Nat Val where
  getArgument T args idx s :=
    match T with
    | .uint64_t =>
      match args.get? idx with
      | some (.u64 n) => (.ok n, s)
      | _ => (.error (.std_exception "bad argument"), s)
    | .float =>
      match args.get? idx with
      | some (.flt text) => (stoFloat binary32 text, s)
      | _ => (.error (.std_exception "bad argument"), s)
    | .double =>
      match args.get? idx with
      | some (.flt text) => (stoFloat binary64 text, s)
      | _ => (.error (.std_exception "bad argument"), s)
    | .string =>
      match args.get? idx with
      | some (.str t) => (.ok t, s)
      | _ => (.error (.std_exception "bad argument"), s)
  call _ s := (.ok (s + 1), s + 1)

/-! ## Lemmas on the embedding -/

section Lemmas

variable {σ V P α β : Type} (env : Env σ V P)

@[simp] theorem Act.pure_run (a : α) (w : World σ V P) :
    (pure a : Act σ V P α) w = (.ok a, w) := rfl

@[simp] theorem Act.bind_run (m : Act σ V P α) (f : α → Act σ V P β) (w : World σ V P) :
    (m >>= f) w = Act.andThen m f w := rfl

/-- A loop that has used up `k` passes without being left goes on, with more
budget, from the world it had reached. -/
theorem workLoop_resume (k n : Nat) (w0 w : World σ V P)
    (h : workLoop env k w0 = (.unfinished, w)) :
    workLoop env (k + n) w0 = workLoop env n w := by
  induction k generalizing w0 with
  | zero =>
    simp only [workLoop, Prod.mk.injEq, true_and] at h
    simp [h]
  | succ k ih =>
    rw [Nat.add_right_comm]
    simp only [workLoop] at h ⊢
    rcases hr : Act.ext env.recvString Event.recvString w0 with ⟨_ | cmd, w1⟩
    · simp [hr] at h
    · simp only [hr] at h ⊢
      by_cases hx : cmd = "exit"
      · simp [hx] at h
      · simp only [hx, if_false] at h ⊢
        rcases hc : runCommand env cmd w1 with ⟨_ | u, w2⟩
        · simp [hc] at h
        · simp only [hc] at h ⊢
          exact ih w2 h

/-- A run of `work` that has used up `k` passes of the loop and stands at the top
of the loop in world `w` goes on, with more budget, as the loop does from `w`. -/
theorem work_resume (k n : Nat) (w0 w : World σ V P)
    (h : work env k w0 = (.unfinished, w)) :
    work env (k + n) w0 = exitLog (workLoop env n w) := by
  simp only [work] at h ⊢
  rcases hh : handshake env w0 with ⟨_ | u, w1⟩
  · simp [hh] at h
  · simp only [hh] at h ⊢
    have hl : workLoop env k w1 = (.unfinished, w) := by
      rcases hw : workLoop env k w1 with ⟨o, w2⟩
      rw [hw] at h
      cases o <;> simp_all [exitLog]
    rw [workLoop_resume env k n w1 w hl]

variable (Q : Event V P → Prop)

theorem Act.appends_pure (a : α) : Act.AppendsOnly Q (pure a : Act σ V P α) :=
  fun _ => ⟨[], by simp⟩

theorem Act.appends_raise (e : Thrown) : Act.AppendsOnly Q (Act.raise e : Act σ V P α) :=
  fun _ => ⟨[], by simp [Act.raise]⟩

theorem Act.appends_log (msg : String) (hQ : Q (.log msg)) :
    Act.AppendsOnly Q (Act.log msg : Act σ V P Unit) :=
  fun _ => ⟨[Event.log msg], by simp [Act.log, hQ]⟩

theorem Act.appends_deleteResult (hQ : Q .deleteResult) :
    Act.AppendsOnly Q (Act.deleteResult : Act σ V P Unit) :=
  fun _ => ⟨[Event.deleteResult], by simp [Act.deleteResult, hQ]⟩

theorem Act.appends_ext (f : σ → Except Thrown α × σ) (ev : Except Thrown α → Event V P)
    (hQ : ∀ r, Q (ev r)) : Act.AppendsOnly Q (Act.ext f ev) := by
  intro w
  rcases hf : f w.st with ⟨e | a, s⟩
  · exact ⟨[ev (.error e)], by simp [Act.ext, hf, hQ]⟩
  · exact ⟨[ev (.ok a)], by simp [Act.ext, hf, hQ]⟩

theorem Act.appends_bind {m : Act σ V P α} {f : α → Act σ V P β}
    (hm : Act.AppendsOnly Q m) (hf : ∀ a, Act.AppendsOnly Q (f a)) :
    Act.AppendsOnly Q (m >>= f) := by
  intro w
  obtain ⟨e1, h1, q1⟩ := hm w
  rcases hr : m w with ⟨e | a, w1⟩
  · refine ⟨e1, ?_, q1⟩
    simp only [Act.bind_run, Act.andThen, hr]
    simpa [hr] using h1
  · obtain ⟨e2, h2, q2⟩ := hf a w1
    refine ⟨e1 ++ e2, ?_, ?_⟩
    · simp only [Act.bind_run, Act.andThen, hr]
      rw [hr] at h1
      simp only at h1
      rw [h2, h1, List.append_assoc]
    · intro ev hev
      rcases List.mem_append.mp hev with h | h
      · exact q1 ev h
      · exact q2 ev h

theorem Act.appends_tryCatchAll {m : Act σ V P α} {h : Thrown → Act σ V P α}
    (hm : Act.AppendsOnly Q m) (hh : ∀ e, Act.AppendsOnly Q (h e)) :
    Act.AppendsOnly Q (Act.tryCatchAll m h) := by
  intro w
  obtain ⟨e1, h1, q1⟩ := hm w
  rcases hr : m w with ⟨e | a, w1⟩
  · obtain ⟨e2, h2, q2⟩ := hh e w1
    refine ⟨e1 ++ e2, ?_, ?_⟩
    · simp only [Act.tryCatchAll, hr]
      rw [hr] at h1
      simp only at h1
      rw [h2, h1, List.append_assoc]
    · intro ev hev
      rcases List.mem_append.mp hev with h | h
      · exact q1 ev h
      · exact q2 ev h
  · refine ⟨e1, ?_, q1⟩
    simp only [Act.tryCatchAll, hr]
    simpa [hr] using h1

theorem appends_recvArgs (hQ : ∀ c r, Q (.recvArg c r)) (spec : List Char) (args : List V) :
    Act.AppendsOnly Q (recvArgs env spec args) := by
  induction spec generalizing args with
  | nil => exact Act.appends_pure Q args
  | cons c rest ih =>
    simp only [recvArgs]
    exact Act.appends_bind Q (Act.appends_ext Q _ _ (hQ c)) (fun a => ih _)

theorem appends_at (l : List α) (i : Nat) :
    Act.AppendsOnly Q (Act.atIndex l i : Act σ V P α) := by
  unfold Act.atIndex
  cases l.get? i
  · exact Act.appends_raise Q _
  · exact Act.appends_pure Q _

theorem appends_sendRets (hQ : ∀ v c r, Q (.sendArg v c r)) (data : List V)
    (retSpec : List Char) (n i : Nat) :
    Act.AppendsOnly Q (sendRets env data retSpec n i) := by
  induction n generalizing i with
  | zero => exact Act.appends_pure Q ()
  | succ n ih =>
    simp only [sendRets]
    exact Act.appends_bind Q (appends_at Q _ _) (fun v =>
      Act.appends_bind Q (appends_at Q _ _) (fun c =>
        Act.appends_bind Q (Act.appends_ext Q _ _ (hQ v c)) (fun _ => ih _)))

theorem appends_freeAll (hQ : ∀ v c r, Q (.freeArg v c r)) (vals : List V)
    (spec : List Char) (n i : Nat) :
    Act.AppendsOnly Q (freeAll env vals spec n i) := by
  induction n generalizing i with
  | zero => exact Act.appends_pure Q ()
  | succ n ih =>
    simp only [freeAll]
    exact Act.appends_bind Q (appends_at Q _ _) (fun v =>
      Act.appends_bind Q (appends_at Q _ _) (fun c =>
        Act.appends_bind Q (Act.appends_ext Q _ _ (hQ v c)) (fun _ => ih _)))

theorem appends_freeMemory (hfree : ∀ v c r, Q (.freeArg v c r)) (hdel : Q .deleteResult)
    (args data : List V) (argsSpec retSpec : List Char) :
    Act.AppendsOnly Q (freeMemory env argsSpec retSpec args data) := by
  unfold freeMemory
  exact Act.appends_bind Q (appends_freeAll env Q hfree _ _ _ _)
    (fun _ => Act.appends_bind Q (appends_freeAll env Q hfree _ _ _ _)
      (fun _ => Act.appends_deleteResult Q hdel))

theorem appends_sendAndFree (hret : ∀ c r, Q (.getRetSpec c r))
    (hsend : ∀ v c r, Q (.sendArg v c r)) (hfree : ∀ v c r, Q (.freeArg v c r))
    (hdel : Q .deleteResult) (cmd : String) (argsSpec : List Char) (args data : List V) :
    Act.AppendsOnly Q (sendAndFree env cmd argsSpec args data) := by
  unfold sendAndFree
  refine Act.appends_bind Q (Act.appends_ext Q _ _ (hret cmd)) (fun retSpec => ?_)
  exact Act.appends_bind Q (appends_sendRets env Q hsend _ _ _ _)
    (fun _ => appends_freeMemory env Q hfree hdel args data argsSpec retSpec)

theorem appends_handleResult (hret : ∀ c r, Q (.getRetSpec c r))
    (hsend : ∀ v c r, Q (.sendArg v c r)) (hfree : ∀ v c r, Q (.freeArg v c r))
    (hdel : Q .deleteResult) (cmd : String) (argsSpec : List Char) (args : List V)
    (result : Option (List V)) :
    Act.AppendsOnly Q (handleResult env cmd argsSpec args result) := by
  cases result with
  | none => exact Act.appends_raise Q _
  | some data => exact appends_sendAndFree env Q hret hsend hfree hdel _ _ _ _

theorem appends_callProvider (cmd : String) (prov : P) :
    Act.AppendsOnly (fun _ => True) (callProvider env cmd prov) := by
  unfold callProvider
  refine Act.appends_bind _ (Act.appends_ext _ _ _ (fun _ => trivial)) (fun argsSpec => ?_)
  refine Act.appends_bind _ (appends_recvArgs env _ (fun _ _ => trivial) _ _) (fun args => ?_)
  refine Act.appends_bind _ (Act.appends_ext _ _ _ (fun _ => trivial)) (fun result => ?_)
  exact appends_handleResult env _ (fun _ _ => trivial) (fun _ _ _ => trivial)
    (fun _ _ _ => trivial) trivial _ _ _ _

theorem appends_runCommand (cmd : String) :
    Act.AppendsOnly (fun _ => True) (runCommand env cmd) := by
  unfold runCommand
  refine Act.appends_bind _
    (Act.appends_tryCatchAll _ (Act.appends_ext _ _ _ (fun _ => trivial))
      (fun _ => Act.appends_raise _ _)) ?_
  intro prov
  cases prov with
  | none => exact Act.appends_raise _ _
  | some prov => exact appends_callProvider env cmd prov

theorem appends_workLoop (fuel : Nat) (w : World σ V P) :
    ∃ evs, (workLoop env fuel w).2.trace = w.trace ++ evs := by
  induction fuel generalizing w with
  | zero => exact ⟨[], by simp [workLoop]⟩
  | succ fuel ih =>
    simp only [workLoop]
    obtain ⟨e1, h1, _⟩ := Act.appends_ext (fun _ => True) env.recvString
      (Event.recvString : _ → Event V P) (fun _ => trivial) w
    rcases hr : Act.ext env.recvString Event.recvString w with ⟨e | cmd, w1⟩
    · exact ⟨e1, by simpa [hr] using h1⟩
    · rw [hr] at h1
      simp only at h1 ⊢
      by_cases hx : cmd = "exit"
      · exact ⟨e1, by simpa [hx] using h1⟩
      · simp only [hx, if_false]
        obtain ⟨e2, h2, _⟩ := appends_runCommand env cmd w1
        rcases hc : runCommand env cmd w1 with ⟨e | u, w2⟩
        · rw [hc] at h2
          exact ⟨e1 ++ e2, by simp only at h2 ⊢; rw [h2, h1, List.append_assoc]⟩
        · rw [hc] at h2
          obtain ⟨e3, h3⟩ := ih w2
          refine ⟨e1 ++ (e2 ++ e3), ?_⟩
          simp only at h2 ⊢
          rw [h3, h2, h1, List.append_assoc, List.append_assoc]

theorem appends_exitLog (r : Outcome × World σ V P) :
    ∃ evs, (exitLog r).2.trace = r.2.trace ++ evs := by
  rcases r with ⟨o, w⟩
  cases o with
  | returned => exact ⟨[Event.log "Exiting module worker"], by simp [exitLog, Act.log]⟩
  | threw e => exact ⟨[], by simp [exitLog]⟩
  | unfinished => exact ⟨[], by simp [exitLog]⟩

theorem Act.atIndex_of_lt (l : List α) (i : Nat) (h : i < l.length) (w : World σ V P) :
    Act.atIndex l i w = (.ok l[i], w) := by
  simp [Act.atIndex, List.getElem?_eq_getElem h]

/-- The argument loop either decodes one value per type code, left to right, or
stops at the first decode that throws. -/
theorem recvArgs_spec (spec : List Char) (args : List V) (w : World σ V P) :
    (∃ vals s, vals.length = spec.length ∧
      recvArgs env spec args w = (.ok (args ++ vals), ⟨s, w.trace ++ recvEvents spec vals⟩)) ∨
    (∃ vals c e s, vals.length < spec.length ∧ spec.get? vals.length = some c ∧
      recvArgs env spec args w =
        (.error e, ⟨s, w.trace ++ recvEvents (spec.take vals.length) vals ++
          [.recvArg c (.error e)]⟩)) := by
  induction spec generalizing args w with
  | nil => exact Or.inl ⟨[], w.st, rfl, by simp [recvArgs, recvEvents]⟩
  | cons c rest ih =>
    rcases hr : env.recvArg c w.st with ⟨e | a, s1⟩
    · refine Or.inr ⟨[], c, e, s1, by simp, by simp, ?_⟩
      simp [recvArgs, Act.andThen, Act.ext, hr, recvEvents]
    · rcases ih (args ++ [a]) ⟨s1, w.trace ++ [.recvArg c (.ok a)]⟩ with
        ⟨vals, s, hl, h⟩ | ⟨vals, c1, e, s, hl, hc, h⟩
      · refine Or.inl ⟨a :: vals, s, by simp [hl], ?_⟩
        simp [recvArgs, Act.andThen, Act.ext, hr, h, recvEvents]
      · refine Or.inr ⟨a :: vals, c1, e, s, by simpa using hl, by simpa using hc, ?_⟩
        simp [recvArgs, Act.andThen, Act.ext, hr, h, recvEvents]

/-- The send loop, when the result has an entry for every type code of the
return signature, either sends entry after entry under the type code at the
same position, or stops at the first send that throws. -/
theorem sendRets_spec (data : List V) (retSpec : List Char) (n i : Nat)
    (hn : i + n = retSpec.length) (hlen : retSpec.length ≤ data.length) (w : World σ V P) :
    (∃ s, sendRets env data retSpec n i w =
      (.ok (), ⟨s, w.trace ++ sentEvents (data.drop i) (retSpec.drop i)⟩)) ∨
    (∃ j v c e s, j < n ∧ data.get? (i + j) = some v ∧ retSpec.get? (i + j) = some c ∧
      sendRets env data retSpec n i w =
        (.error e, ⟨s, w.trace ++ sentEvents ((data.drop i).take j) ((retSpec.drop i).take j) ++
          [.sendArg v c (.error e)]⟩)) := by
  induction n generalizing i w with
  | zero =>
    refine Or.inl ⟨w.st, ?_⟩
    have : retSpec.drop i = [] := List.drop_eq_nil_of_le (by omega)
    simp [sendRets, sentEvents, this]
  | succ n ih =>
    have hi : i < retSpec.length := by omega
    have hd : i < data.length := by omega
    have hdv : data.get? i = some data[i] := by simp [List.getElem?_eq_getElem hd]
    have hcv : retSpec.get? i = some retSpec[i] := by simp [List.getElem?_eq_getElem hi]
    have hdd : data.drop i = data[i] :: data.drop (i + 1) := List.drop_eq_getElem_cons hd
    have hcd : retSpec.drop i = retSpec[i] :: retSpec.drop (i + 1) := List.drop_eq_getElem_cons hi
    have hstep : sendRets env data retSpec (n + 1) i w =
        Act.andThen (Act.ext (env.sendArg data[i] retSpec[i]) (Event.sendArg data[i] retSpec[i]))
          (fun _ => sendRets env data retSpec n (i + 1)) w := by
      simp only [sendRets, Act.bind_run, Act.andThen, Act.atIndex_of_lt data i hd,
        Act.atIndex_of_lt retSpec i hi]
    rw [hstep]
    rcases hr : env.sendArg data[i] retSpec[i] w.st with ⟨e | u, s1⟩
    · refine Or.inr ⟨0, data[i], retSpec[i], e, s1, by omega, hdv, hcv, ?_⟩
      simp [Act.andThen, Act.ext, hr, sentEvents]
    · rcases ih (i + 1) (by omega) ⟨s1, w.trace ++ [.sendArg data[i] retSpec[i] (.ok ())]⟩ with
        ⟨s, h⟩ | ⟨j, v, c, e, s, hj, hv, hc, h⟩
      · refine Or.inl ⟨s, ?_⟩
        simp only [Act.andThen, Act.ext, hr, h]
        rw [hdd, hcd]
        simp only [sentEvents, List.zipWith_cons_cons, List.append_assoc, List.singleton_append]
      · refine Or.inr ⟨j + 1, v, c, e, s, by omega, ?_, ?_, ?_⟩
        · rw [← hv]; congr 1; omega
        · rw [← hc]; congr 1; omega
        · simp only [Act.andThen, Act.ext, hr, h]
          rw [hdd, hcd]
          simp only [sentEvents, List.take_succ_cons, List.zipWith_cons_cons, List.append_assoc,
            List.singleton_append]

/-- One pass of the loop of `work`: with a command other than `"exit"` read at
the top of the loop, `work` goes on as the loop body does. -/
theorem work_step (k fuel : Nat) (w0 w : World σ V P) (cmd : String) (s1 : σ)
    (hreach : work env k w0 = (.unfinished, w))
    (hread : env.recvString w.st = (.ok cmd, s1)) (hne : cmd ≠ "exit") :
    work env (k + (fuel + 1)) w0 =
      match runCommand env cmd ⟨s1, w.trace ++ [.recvString (.ok cmd)]⟩ with
      | (.error e, w2) => (.threw e, w2)
      | (.ok _, w2) => exitLog (workLoop env fuel w2) := by
  rw [work_resume env k (fuel + 1) w0 w hreach]
  simp only [workLoop, Act.ext, hread, hne, if_false]
  rcases hrun : runCommand env cmd ⟨s1, w.trace ++ [.recvString (.ok cmd)]⟩ with ⟨e | u, w2⟩
  · simp [hrun, exitLog]
  · simp [hrun, exitLog]

/-- The trace of `work` extends the trace of the pass of the loop body it runs. -/
theorem work_step_trace (k fuel : Nat) (w0 w : World σ V P) (cmd : String) (s1 : σ)
    (hreach : work env k w0 = (.unfinished, w))
    (hread : env.recvString w.st = (.ok cmd, s1)) (hne : cmd ≠ "exit") :
    ∃ later, (work env (k + (fuel + 1)) w0).2.trace =
      (runCommand env cmd ⟨s1, w.trace ++ [.recvString (.ok cmd)]⟩).2.trace ++ later := by
  rw [work_step env k fuel w0 w cmd s1 hreach hread hne]
  rcases hrun : runCommand env cmd ⟨s1, w.trace ++ [.recvString (.ok cmd)]⟩ with ⟨e | u, w2⟩
  · exact ⟨[], by simp [hrun]⟩
  · simp only [hrun]
    obtain ⟨e1, h1⟩ := appends_workLoop env fuel w2
    obtain ⟨e2, h2⟩ := appends_exitLog (workLoop env fuel w2)
    exact ⟨e1 ++ e2, by rw [h2, h1, List.append_assoc]⟩

/-- A pass of the loop body that throws makes `work` throw the same. -/
theorem work_step_error (k fuel : Nat) (w0 w w2 : World σ V P) (cmd : String) (s1 : σ)
    (e : Thrown) (hreach : work env k w0 = (.unfinished, w))
    (hread : env.recvString w.st = (.ok cmd, s1)) (hne : cmd ≠ "exit")
    (hrun : runCommand env cmd ⟨s1, w.trace ++ [.recvString (.ok cmd)]⟩ = (.error e, w2)) :
    work env (k + (fuel + 1)) w0 = (.threw e, w2) := by
  rw [work_step env k fuel w0 w cmd s1 hreach hread hne, hrun]

/-- With the provider found and the signature fetched, the loop body goes on
with the argument loop. -/
theorem runCommand_found (w1 : World σ V P) (cmd : String) (prov : P) (argsSpec : List Char)
    (s2 s3 : σ) (hlook : env.getFuncProvider cmd w1.st = (.ok (some prov), s2))
    (hspec : env.getArgsSpec cmd s2 = (.ok argsSpec, s3)) :
    runCommand env cmd w1 =
      Act.andThen (recvArgs env argsSpec []) (fun args =>
        Act.andThen (Act.ext (env.invoke prov args) (Event.invoke prov args))
          (handleResult env cmd argsSpec args))
        ⟨s3, w1.trace ++ [.getFuncProvider cmd (.ok (some prov)),
          .getArgsSpec cmd (.ok argsSpec)]⟩ := by
  simp [runCommand, callProvider, Act.andThen, Act.tryCatchAll, Act.ext, hlook, hspec]

/-- With the arguments decoded, a result returned and the return signature
fetched, the loop body goes on with the send loop and the release of memory. -/
theorem runCommand_called (w1 w4 : World σ V P) (cmd : String) (prov : P)
    (argsSpec retSpec : List Char) (args data : List V) (s2 s3 s5 s6 : σ)
    (hlook : env.getFuncProvider cmd w1.st = (.ok (some prov), s2))
    (hspec : env.getArgsSpec cmd s2 = (.ok argsSpec, s3))
    (hrecv : recvArgs env argsSpec [] ⟨s3, w1.trace ++ [.getFuncProvider cmd (.ok (some prov)),
      .getArgsSpec cmd (.ok argsSpec)]⟩ = (.ok args, w4))
    (hcall : env.invoke prov args w4.st = (.ok (some data), s5))
    (hret : env.getRetSpec cmd s5 = (.ok retSpec, s6)) :
    runCommand env cmd w1 =
      Act.andThen (sendRets env data retSpec retSpec.length 0)
        (fun _ => freeMemory env argsSpec retSpec args data)
        ⟨s6, w4.trace ++ [.invoke prov args (.ok (some data)),
          .getRetSpec cmd (.ok retSpec)]⟩ := by
  rw [runCommand_found env w1 cmd prov argsSpec s2 s3 hlook hspec]
  simp [Act.andThen, hrecv, Act.ext, hcall, handleResult, sendAndFree, hret]

end Lemmas

/-! ## The module worker: handshake, command loop and error paths -/

section Claims

variable {σ V P : Type} (env : Env σ V P)

/-- C1: in any run of `work` that stands at the top of its loop (in world `w`,
after `k` passes), if the command name read is not `"exit"` and
`getFuncProvider` throws or returns null for it, `work` fails with the error
`"Function '<name>' not found"`, and the only call made after the name was read
is that lookup: no argument is read, no handler is invoked, nothing is sent. -/
theorem work_unknown_function (k fuel : Nat) (w0 w : World σ V P) (cmd : String) (s1 s2 : σ)
    (r : Except Thrown (Option P))
    (hreach : work env k w0 = (.unfinished, w))
    (hread : env.recvString w.st = (.ok cmd, s1))
    (hne : cmd ≠ "exit")
    (hlook : env.getFuncProvider cmd s1 = (r, s2))
    (hr : r = .ok none ∨ ∃ e, r = .error e) :
    work env (k + (fuel + 1)) w0 =
      (.threw (.runtime_error ("Function '" ++ cmd ++ "' not found")),
        ⟨s2, w.trace ++ [.recvString (.ok cmd), .getFuncProvider cmd r]⟩) := by
  rw [work_resume env k (fuel + 1) w0 w hreach]
  rcases hr with rfl | ⟨e, rfl⟩
  · simp [workLoop, Act.ext, hread, hne, runCommand, Act.tryCatchAll, Act.andThen, hlook,
      Act.raise, notFound, exitLog]
  · simp [workLoop, Act.ext, hread, hne, runCommand, Act.tryCatchAll, Act.andThen, hlook,
      Act.raise, notFound, exitLog]

/-- Witness for C1: a test session whose first command, `"nope"`, is not registered. -/
theorem work_unknown_function_witness :
    work testEnv (0 + (0 + 1)) (start [.raw "ModBox/m", .text "tester", .text "nope"] 10) =
      (.threw (.runtime_error ("Function '" ++ "nope" ++ "' not found")),
        ⟨⟨[], [.raw "ModBox/M"], 9⟩,
          (opened "tester" [.text "nope"] 9).trace ++
            [.recvString (.ok "nope"), .getFuncProvider "nope" (.ok none)]⟩) :=
  work_unknown_function testEnv 0 0 (start [.raw "ModBox/m", .text "tester", .text "nope"] 10)
    (opened "tester" [.text "nope"] 9) "nope" ⟨[], [.raw "ModBox/M"], 9⟩ ⟨[], [.raw "ModBox/M"], 9⟩
    (.ok none) (by decide!) (by decide!) (by decide) (by decide!) (Or.inl rfl)

/-- C2: when the provider of the command read is found and its argument
signature is `argsSpec`, the loop body makes one `recvArg` call per type code of
`argsSpec`, in order, each with the type code at its position, and then invokes
the handler on the list `vals` of the values these calls returned, in that
order; nothing later in that pass is a `recvArg` call or an invocation; or else
the decode at some position fails, and `work` ends with that error right there,
the handler not invoked. -/
theorem work_decodes_arguments (k fuel : Nat) (w0 w : World σ V P) (cmd : String) (prov : P)
    (argsSpec : List Char) (s1 s2 s3 : σ)
    (hreach : work env k w0 = (.unfinished, w))
    (hread : env.recvString w.st = (.ok cmd, s1))
    (hne : cmd ≠ "exit")
    (hlook : env.getFuncProvider cmd s1 = (.ok (some prov), s2))
    (hspec : env.getArgsSpec cmd s2 = (.ok argsSpec, s3)) :
    (∃ vals res rest later, vals.length = argsSpec.length ∧
      (runCommand env cmd ⟨s1, w.trace ++ [.recvString (.ok cmd)]⟩).2.trace =
        w.trace ++ [.recvString (.ok cmd), .getFuncProvider cmd (.ok (some prov)),
          .getArgsSpec cmd (.ok argsSpec)] ++ recvEvents argsSpec vals ++
          .invoke prov vals res :: rest ∧
      (∀ ev ∈ rest, ev.isRecvArg = false ∧ ev.isInvoke = false) ∧
      (work env (k + (fuel + 1)) w0).2.trace =
        (runCommand env cmd ⟨s1, w.trace ++ [.recvString (.ok cmd)]⟩).2.trace ++ later) ∨
    (∃ vals c e s4, vals.length < argsSpec.length ∧ argsSpec.get? vals.length = some c ∧
      work env (k + (fuel + 1)) w0 =
        (.threw e, ⟨s4, w.trace ++ [.recvString (.ok cmd), .getFuncProvider cmd (.ok (some prov)),
          .getArgsSpec cmd (.ok argsSpec)] ++ recvEvents (argsSpec.take vals.length) vals ++
          [.recvArg c (.error e)]⟩)) := by
  have hfound := runCommand_found env ⟨s1, w.trace ++ [.recvString (.ok cmd)]⟩ cmd prov argsSpec
    s2 s3 hlook hspec
  simp only [List.append_assoc, List.singleton_append] at hfound
  rcases recvArgs_spec env argsSpec [] ⟨s3, w.trace ++ (.recvString (.ok cmd) ::
      [.getFuncProvider cmd (.ok (some prov)), .getArgsSpec cmd (.ok argsSpec)])⟩ with
    ⟨vals, s4, hl, h⟩ | ⟨vals, c, e, s4, hl, hc, h⟩
  · left
    obtain ⟨later, hlater⟩ := work_step_trace env k fuel w0 w cmd s1 hreach hread hne
    rcases hinv : env.invoke prov vals s4 with ⟨e | result, s5⟩
    · refine ⟨vals, .error e, [], later, hl, ?_, by simp, hlater⟩
      rw [hfound]
      simp [Act.andThen, h, Act.ext, hinv]
    · obtain ⟨rest, hrest, hq⟩ := appends_handleResult env
        (fun ev => ev.isRecvArg = false ∧ ev.isInvoke = false)
        (fun _ _ => ⟨rfl, rfl⟩) (fun _ _ _ => ⟨rfl, rfl⟩) (fun _ _ _ => ⟨rfl, rfl⟩) ⟨rfl, rfl⟩
        cmd argsSpec vals result
        ⟨s5, w.trace ++ (.recvString (.ok cmd) :: [.getFuncProvider cmd (.ok (some prov)),
          .getArgsSpec cmd (.ok argsSpec)]) ++ recvEvents argsSpec vals ++
          [.invoke prov vals (.ok result)]⟩
      refine ⟨vals, .ok result, rest, later, hl, ?_, hq, hlater⟩
      rw [hfound]
      simp only [Act.andThen, h, Act.ext, hinv, List.nil_append]
      rw [hrest]
      simp
  · right
    refine ⟨vals, c, e, s4, hl, hc, ?_⟩
    apply work_step_error env k fuel w0 w _ cmd s1 e hreach hread hne
    rw [hfound]
    simp [Act.andThen, h]

/-- Witness for C2: the call of `"test.add"` in the test session. -/
theorem work_decodes_arguments_witness :
    (∃ vals res rest later, vals.length = ['u', 'f'].length ∧
      (runCommand testEnv "test.add"
          ⟨addArgsConn, addOpened.trace ++ [.recvString (.ok "test.add")]⟩).2.trace =
        addOpened.trace ++ [.recvString (.ok "test.add"),
          .getFuncProvider "test.add" (.ok (some "test.add")),
          .getArgsSpec "test.add" (.ok ['u', 'f'])] ++ recvEvents ['u', 'f'] vals ++
          .invoke "test.add" vals res :: rest ∧
      (∀ ev ∈ rest, ev.isRecvArg = false ∧ ev.isInvoke = false) ∧
      (work testEnv (0 + (0 + 1)) (start addSession 10)).2.trace =
        (runCommand testEnv "test.add"
          ⟨addArgsConn, addOpened.trace ++ [.recvString (.ok "test.add")]⟩).2.trace ++ later) ∨
    (∃ vals c e s4, vals.length < ['u', 'f'].length ∧ ['u', 'f'].get? vals.length = some c ∧
      work testEnv (0 + (0 + 1)) (start addSession 10) =
        (.threw e, ⟨s4, addOpened.trace ++ [.recvString (.ok "test.add"),
          .getFuncProvider "test.add" (.ok (some "test.add")),
          .getArgsSpec "test.add" (.ok ['u', 'f'])] ++
          recvEvents (['u', 'f'].take vals.length) vals ++ [.recvArg c (.error e)]⟩)) :=
  work_decodes_arguments testEnv 0 0 (start addSession 10) addOpened "test.add" "test.add"
    ['u', 'f'] addArgsConn addArgsConn addArgsConn (by decide!) (by decide!) (by decide)
    (by decide!) (by decide!)

/-- C3: when the handler of a command returns a result `data` with at least as
many entries as the return signature `retSpec` has type codes, the `sendArg`
calls of that pass are those of entries `0, 1, ..., m - 1` of `data` (`m` the
length of `retSpec`), each with the type code at its position, in that order and
with no other call in between; the rest of the pass sends nothing.  Should one of
these sends throw, the sends made are the first ones of that list, and `work`
ends with that error. -/
theorem work_sends_result (k fuel : Nat) (w0 w : World σ V P) (cmd : String) (prov : P)
    (argsSpec retSpec : List Char) (args data : List V) (s1 s2 s3 s4 s5 s6 : σ)
    (hreach : work env k w0 = (.unfinished, w))
    (hread : env.recvString w.st = (.ok cmd, s1))
    (hne : cmd ≠ "exit")
    (hlook : env.getFuncProvider cmd s1 = (.ok (some prov), s2))
    (hspec : env.getArgsSpec cmd s2 = (.ok argsSpec, s3))
    (hrecv : recvArgs env argsSpec [] ⟨s3, w.trace ++ [.recvString (.ok cmd),
      .getFuncProvider cmd (.ok (some prov)), .getArgsSpec cmd (.ok argsSpec)]⟩ =
      (.ok args, ⟨s4, w.trace ++ [.recvString (.ok cmd), .getFuncProvider cmd (.ok (some prov)),
        .getArgsSpec cmd (.ok argsSpec)] ++ recvEvents argsSpec args⟩))
    (hcall : env.invoke prov args s4 = (.ok (some data), s5))
    (hret : env.getRetSpec cmd s5 = (.ok retSpec, s6))
    (hlen : retSpec.length ≤ data.length) :
    (∃ rest later,
      (runCommand env cmd ⟨s1, w.trace ++ [.recvString (.ok cmd)]⟩).2.trace =
        w.trace ++ [.recvString (.ok cmd), .getFuncProvider cmd (.ok (some prov)),
          .getArgsSpec cmd (.ok argsSpec)] ++ recvEvents argsSpec args ++
          [.invoke prov args (.ok (some data)), .getRetSpec cmd (.ok retSpec)] ++
          sentEvents data retSpec ++ rest ∧
      (sentEvents data retSpec : List (Event V P)).length = retSpec.length ∧
      (∀ ev ∈ rest, ev.isSendArg = false) ∧
      (work env (k + (fuel + 1)) w0).2.trace =
        (runCommand env cmd ⟨s1, w.trace ++ [.recvString (.ok cmd)]⟩).2.trace ++ later) ∨
    (∃ j v c e s7, j < retSpec.length ∧ data.get? j = some v ∧ retSpec.get? j = some c ∧
      work env (k + (fuel + 1)) w0 =
        (.threw e, ⟨s7, w.trace ++ [.recvString (.ok cmd), .getFuncProvider cmd (.ok (some prov)),
          .getArgsSpec cmd (.ok argsSpec)] ++ recvEvents argsSpec args ++
          [.invoke prov args (.ok (some data)), .getRetSpec cmd (.ok retSpec)] ++
          sentEvents (data.take j) (retSpec.take j) ++ [.sendArg v c (.error e)]⟩)) := by
  have hcalled := runCommand_called env ⟨s1, w.trace ++ [.recvString (.ok cmd)]⟩
    ⟨s4, w.trace ++ [.recvString (.ok cmd), .getFuncProvider cmd (.ok (some prov)),
        .getArgsSpec cmd (.ok argsSpec)] ++ recvEvents argsSpec args⟩
    cmd prov argsSpec retSpec args data s2 s3 s5 s6 hlook hspec
    (by simpa using hrecv) hcall hret
  rcases sendRets_spec env data retSpec retSpec.length 0 (by simp) hlen
      ⟨s6, w.trace ++ [.recvString (.ok cmd), .getFuncProvider cmd (.ok (some prov)),
        .getArgsSpec cmd (.ok argsSpec)] ++ recvEvents argsSpec args ++
        [.invoke prov args (.ok (some data)), .getRetSpec cmd (.ok retSpec)]⟩ with
    ⟨s7, h⟩ | ⟨j, v, c, e, s7, hj, hv, hc, h⟩
  · left
    obtain ⟨later, hlater⟩ := work_step_trace env k fuel w0 w cmd s1 hreach hread hne
    obtain ⟨rest, hrest, hq⟩ := appends_freeMemory env (fun ev => ev.isSendArg = false)
      (fun _ _ _ => rfl) rfl args data argsSpec retSpec
      ⟨s7, w.trace ++ [.recvString (.ok cmd), .getFuncProvider cmd (.ok (some prov)),
        .getArgsSpec cmd (.ok argsSpec)] ++ recvEvents argsSpec args ++
        [.invoke prov args (.ok (some data)), .getRetSpec cmd (.ok retSpec)] ++
        sentEvents data retSpec⟩
    refine ⟨rest, later, ?_, by simp [sentEvents, hlen], hq, hlater⟩
    rw [hcalled]
    simp only [List.drop_zero] at h
    simp only [Act.andThen, h]
    rw [hrest]
  · right
    refine ⟨j, v, c, e, s7, hj, by simpa using hv, by simpa using hc, ?_⟩
    apply work_step_error env k fuel w0 w _ cmd s1 e hreach hread hne
    rw [hcalled]
    simp only [List.drop_zero] at h
    simp only [Act.andThen, h]

/-- Witness for C3: the call of `"test.add"` in the test session, whose handler
returns one value for the return signature `"u"`. -/
theorem work_sends_result_witness :
    (∃ rest later,
      (runCommand testEnv "test.add"
          ⟨addArgsConn, addOpened.trace ++ [.recvString (.ok "test.add")]⟩).2.trace =
        addOpened.trace ++ [.recvString (.ok "test.add"),
          .getFuncProvider "test.add" (.ok (some "test.add")),
          .getArgsSpec "test.add" (.ok ['u', 'f'])] ++
          recvEvents ['u', 'f'] [.u64 3, .flt "2.500000"] ++
          [.invoke "test.add" [.u64 3, .flt "2.500000"] (.ok (some [.u64 4])),
            .getRetSpec "test.add" (.ok ['u'])] ++
          sentEvents [.u64 4] ['u'] ++ rest ∧
      (sentEvents [Val.u64 4] ['u'] : List (Event Val String)).length = ['u'].length ∧
      (∀ ev ∈ rest, ev.isSendArg = false) ∧
      (work testEnv (0 + (0 + 1)) (start addSession 10)).2.trace =
        (runCommand testEnv "test.add"
          ⟨addArgsConn, addOpened.trace ++ [.recvString (.ok "test.add")]⟩).2.trace ++ later) ∨
    (∃ j v c e s7, j < ['u'].length ∧ [Val.u64 4].get? j = some v ∧ ['u'].get? j = some c ∧
      work testEnv (0 + (0 + 1)) (start addSession 10) =
        (.threw e, ⟨s7, addOpened.trace ++ [.recvString (.ok "test.add"),
          .getFuncProvider "test.add" (.ok (some "test.add")),
          .getArgsSpec "test.add" (.ok ['u', 'f'])] ++
          recvEvents ['u', 'f'] [.u64 3, .flt "2.500000"] ++
          [.invoke "test.add" [.u64 3, .flt "2.500000"] (.ok (some [.u64 4])),
            .getRetSpec "test.add" (.ok ['u'])] ++
          sentEvents ([Val.u64 4].take j) (['u'].take j) ++ [.sendArg v c (.error e)]⟩)) :=
  work_sends_result testEnv 0 0 (start addSession 10) addOpened "test.add" "test.add"
    ['u', 'f'] ['u'] [.u64 3, .flt "2.500000"] [.u64 4] addArgsConn addArgsConn addArgsConn
    addCalledConn addCalledConn addCalledConn (by decide!) (by decide!) (by decide) (by decide!)
    (by decide!) (by decide!) (by decide!) (by decide!) (by decide)

/-- C4: with the registry in which `"test.add"` has argument signature
`[U64, F64]`, return signature `[U64]` and a handler returning its first argument
plus 1, the session whose input after the handshake is the command `"test.add"`,
the unsigned integer 3, the number 2.5 and the command `"exit"` ends without
error (for any budget of at least two passes of the loop); what it has written
is the handshake header followed by the encoding of the unsigned integer 4 and
nothing else, and all its input is read. -/
theorem work_test_add (fuel : Nat) :
    work testEnv (1 + (fuel + 1)) (start addSession 10) =
        (.returned, ⟨⟨[], [.raw "ModBox/M", .u64 4], 8⟩,
          addDone.trace ++ [.recvString (.ok "exit"), .log "Exiting module worker"]⟩) ∧
      encodeArg (.u64 4) 'u' = some (.u64 4) ∧
      decodeArg 'u' ⟨[.u64 3], [], 0⟩ = (.ok (.u64 3), ⟨[], [], 0⟩) ∧
      decodeArg 'f' ⟨[.text "2.500000"], [], 0⟩ = (.ok (.flt "2.500000"), ⟨[], [], 0⟩) := by
  refine ⟨?_, by decide, by decide!, by decide!⟩
  have hreach : work testEnv 1 (start addSession 10) = (.unfinished, addDone) := by decide!
  have hread : testEnv.recvString addDone.st =
      (.ok "exit", ⟨[], [.raw "ModBox/M", .u64 4], 8⟩) := by decide!
  rw [work_resume testEnv 1 (fuel + 1) (start addSession 10) addDone hreach]
  simp [workLoop, Act.ext, hread, exitLog, Act.log]

/-- C5: in any run of `work` that stands at the top of its loop (in world `w`,
after `k` passes), if the command name read is `"exit"`, `work` returns normally,
and after that read it makes no call at all (no registry lookup, no read, no
send): it only logs that the worker exits. -/
theorem work_exit (k fuel : Nat) (w0 w : World σ V P) (s1 : σ)
    (hreach : work env k w0 = (.unfinished, w))
    (hread : env.recvString w.st = (.ok "exit", s1)) :
    work env (k + (fuel + 1)) w0 =
      (.returned,
        ⟨s1, w.trace ++ [.recvString (.ok "exit"), .log "Exiting module worker"]⟩) := by
  rw [work_resume env k (fuel + 1) w0 w hreach]
  simp [workLoop, Act.ext, hread, exitLog, Act.log]

/-- Witness for C5: a test session whose first command is `"exit"`. -/
theorem work_exit_witness :
    work testEnv (0 + (0 + 1)) (start [.raw "ModBox/m", .text "tester", .text "exit"] 10) =
      (.returned,
        ⟨⟨[], [.raw "ModBox/M"], 9⟩,
          (opened "tester" [.text "exit"] 9).trace ++
            [.recvString (.ok "exit"), .log "Exiting module worker"]⟩) :=
  work_exit testEnv 0 0 (start [.raw "ModBox/m", .text "tester", .text "exit"] 10)
    (opened "tester" [.text "exit"] 9) ⟨[], [.raw "ModBox/M"], 9⟩ (by decide!) (by decide!)

/-- C6: every run of `work` starts by sending the header `"ModBox/M"`, of 8
characters; the module's header is read next, then the module name; and the
loop, where the command names are read, starts only from a world in which these
three calls are made, in that order.  A call that throws ends the run there. -/
theorem work_handshake_order (fuel : Nat) (w : World σ V P) :
    ("ModBox/M" : String).length = 8 ∧
    ((∃ e s1, work env fuel w =
      (.threw e, ⟨s1, w.trace ++ [.sendFixed "ModBox/M" (.error e)]⟩)) ∨
    (∃ e s2, work env fuel w =
      (.threw e, ⟨s2, w.trace ++ [.sendFixed "ModBox/M" (.ok ()),
        .readModuleHeader (.error e)]⟩)) ∨
    (∃ b e s3, work env fuel w =
      (.threw e, ⟨s3, w.trace ++ [.sendFixed "ModBox/M" (.ok ()), .readModuleHeader (.ok b),
        .readModuleName (.error e)]⟩)) ∨
    (∃ b name s3 rest, work env fuel w =
        exitLog (workLoop env fuel ⟨s3, w.trace ++ [.sendFixed "ModBox/M" (.ok ()),
          .readModuleHeader (.ok b), .readModuleName (.ok name),
          .log ("Module '" ++ name ++ "' connected")]⟩) ∧
      (work env fuel w).2.trace = w.trace ++ [.sendFixed "ModBox/M" (.ok ()),
          .readModuleHeader (.ok b), .readModuleName (.ok name),
          .log ("Module '" ++ name ++ "' connected")] ++ rest)) := by
  refine ⟨by decide, ?_⟩
  rcases h1 : env.sendFixed "ModBox/M" w.st with ⟨e | u, s1⟩
  · left
    exact ⟨e, s1, by simp [work, handshake, Act.andThen, Act.ext, h1]⟩
  · rcases h2 : env.readModuleHeader s1 with ⟨e | b, s2⟩
    · right; left
      exact ⟨e, s2, by simp [work, handshake, Act.andThen, Act.ext, h1, h2]⟩
    · rcases h3 : env.readModuleName s2 with ⟨e | name, s3⟩
      · right; right; left
        exact ⟨b, e, s3, by simp [work, handshake, Act.andThen, Act.ext, h1, h2, h3]⟩
      · right; right; right
        have hw : work env fuel w =
            exitLog (workLoop env fuel ⟨s3, w.trace ++ [.sendFixed "ModBox/M" (.ok ()),
              .readModuleHeader (.ok b), .readModuleName (.ok name),
              .log ("Module '" ++ name ++ "' connected")]⟩) := by
          simp [work, handshake, Act.andThen, Act.ext, h1, h2, h3, Act.log]
        obtain ⟨e1, q1⟩ := appends_workLoop env fuel ⟨s3, w.trace ++
          [.sendFixed "ModBox/M" (.ok ()), .readModuleHeader (.ok b), .readModuleName (.ok name),
            .log ("Module '" ++ name ++ "' connected")]⟩
        obtain ⟨e2, q2⟩ := appends_exitLog (workLoop env fuel ⟨s3, w.trace ++
          [.sendFixed "ModBox/M" (.ok ()), .readModuleHeader (.ok b), .readModuleName (.ok name),
            .log ("Module '" ++ name ++ "' connected")]⟩)
        refine ⟨b, name, s3, e1 ++ e2, hw, ?_⟩
        rw [hw, q2, q1, List.append_assoc]

/-- C7: a test session in which the module sends a header other than the
expected `"ModBox/m"`: `readModuleHeader` returns `false`, `work` drops that
result, reads the module name and the command `"exit"`, and returns normally. -/
theorem work_header_mismatch_ignored :
    work testEnv 1 (start [.raw "NotModBox", .text "tester", .text "exit"] 10) =
      (.returned, ⟨⟨[], [.raw "ModBox/M"], 9⟩,
        [.sendFixed "ModBox/M" (.ok ()), .readModuleHeader (.ok false),
          .readModuleName (.ok "tester"), .log "Module 'tester' connected",
          .recvString (.ok "exit"), .log "Exiting module worker"]⟩) := by
  decide!

/-- C8: whenever `work` ends, by returning or by throwing anything (a
`std::exception` or any other value), `please_work` returns normally. -/
theorem please_work_returns (fuel : Nat) (w : World σ V P)
    (hends : (work env fuel w).1 ≠ .unfinished) :
    (please_work env fuel w).1 = .returned := by
  unfold please_work
  rcases hw : work env fuel w with ⟨o, w1⟩
  rw [hw] at hends
  cases o with
  | returned => rfl
  | threw e => cases e <;> rfl
  | unfinished => exact absurd rfl hends

/-- Witness for C8: a test session that ends with the error of an unknown command. -/
theorem please_work_returns_witness :
    (please_work testEnv 1 (start [.raw "ModBox/m", .text "tester", .text "nope"] 10)).1 =
      .returned :=
  please_work_returns testEnv 1 (start [.raw "ModBox/m", .text "tester", .text "nope"] 10)
    (by decide!)

/-- C9: the test session calling `"test.add"` on a socket that accepts one write
only (the handshake header): sending the returned value fails, and `work` ends
with that error without a single `freeArg` call, neither for the two decoded
arguments nor for the returned value. -/
theorem work_send_failure_frees_nothing :
    work testEnv 2 (start addSession 1) =
      (.threw (.std_exception "send failed"), ⟨⟨[.text "exit"], [.raw "ModBox/M"], 0⟩,
        [.sendFixed "ModBox/M" (.ok ()), .readModuleHeader (.ok true),
          .readModuleName (.ok "tester"), .log "Module 'tester' connected",
          .recvString (.ok "test.add"), .getFuncProvider "test.add" (.ok (some "test.add")),
          .getArgsSpec "test.add" (.ok ['u', 'f']), .recvArg 'u' (.ok (.u64 3)),
          .recvArg 'f' (.ok (.flt "2.500000")),
          .invoke "test.add" [.u64 3, .flt "2.500000"] (.ok (some [.u64 4])),
          .getRetSpec "test.add" (.ok ['u']),
          .sendArg (.u64 4) 'u' (.error (.std_exception "send failed"))]⟩) ∧
    (work testEnv 2 (start addSession 1)).2.trace.any Event.isFreeArg = false := by
  decide!

/-- C10: the test session calling `"test.add"` in which the input ends after the
first argument: decoding the second argument (index 1) fails, and `work` ends
with that error without a `freeArg` call for the argument already decoded. -/
theorem work_decode_failure_frees_nothing :
    work testEnv 2 (start [.raw "ModBox/m", .text "tester", .text "test.add", .u64 3] 10) =
      (.threw (.std_exception "recv failed"), ⟨⟨[], [.raw "ModBox/M"], 9⟩,
        [.sendFixed "ModBox/M" (.ok ()), .readModuleHeader (.ok true),
          .readModuleName (.ok "tester"), .log "Module 'tester' connected",
          .recvString (.ok "test.add"), .getFuncProvider "test.add" (.ok (some "test.add")),
          .getArgsSpec "test.add" (.ok ['u', 'f']), .recvArg 'u' (.ok (.u64 3)),
          .recvArg 'f' (.error (.std_exception "recv failed"))]⟩) ∧
    (work testEnv 2
      (start [.raw "ModBox/m", .text "tester", .text "test.add", .u64 3] 10)).2.trace.any
        Event.isFreeArg = false := by
  decide!

end Claims

/-! ## The module worker: release of memory and order of the calls -/

section WorkerLemmas

variable {σ V P : Type} (env : Env σ V P)

/-- The release loop, when there is a value for every type code, either frees
value after value under the type code at the same position, or stops at the
first `freeArg` that throws. -/
theorem freeAll_spec (vals : List V) (spec : List Char) (n i : Nat)
    (hn : i + n = spec.length) (hlen : spec.length ≤ vals.length) (w : World σ V P) :
    (∃ s, freeAll env vals spec n i w =
      (.ok (), ⟨s, w.trace ++ freedEvents (vals.drop i) (spec.drop i)⟩)) ∨
    (∃ e w1, freeAll env vals spec n i w = (.error e, w1)) := by
  induction n generalizing i w with
  | zero =>
    refine Or.inl ⟨w.st, ?_⟩
    have : spec.drop i = [] := List.drop_eq_nil_of_le (by omega)
    simp [freeAll, freedEvents, this]
  | succ n ih =>
    have hi : i < spec.length := by omega
    have hd : i < vals.length := by omega
    have hdd : vals.drop i = vals[i] :: vals.drop (i + 1) := List.drop_eq_getElem_cons hd
    have hcd : spec.drop i = spec[i] :: spec.drop (i + 1) := List.drop_eq_getElem_cons hi
    have hstep : freeAll env vals spec (n + 1) i w =
        Act.andThen (Act.ext (env.freeArg vals[i] spec[i]) (Event.freeArg vals[i] spec[i]))
          (fun _ => freeAll env vals spec n (i + 1)) w := by
      simp only [freeAll, Act.bind_run, Act.andThen, Act.atIndex_of_lt vals i hd,
        Act.atIndex_of_lt spec i hi]
    rw [hstep]
    rcases hr : env.freeArg vals[i] spec[i] w.st with ⟨e | u, s1⟩
    · exact Or.inr ⟨e, ⟨s1, w.trace ++ [.freeArg vals[i] spec[i] (.error e)]⟩,
        by simp [Act.andThen, Act.ext, hr]⟩
    · rcases ih (i + 1) (by omega) ⟨s1, w.trace ++ [.freeArg vals[i] spec[i] (.ok ())]⟩ with
        ⟨s, h⟩ | ⟨e, w1, h⟩
      · refine Or.inl ⟨s, ?_⟩
        simp only [Act.andThen, Act.ext, hr, h]
        rw [hdd, hcd]
        simp only [freedEvents, List.zipWith_cons_cons, List.append_assoc, List.singleton_append]
      · exact Or.inr ⟨e, w1, by simp only [Act.andThen, Act.ext, hr, h]⟩

theorem Act.atIndex_of_ge {α : Type} (l : List α) (i : Nat) (h : l.length ≤ i)
    (w : World σ V P) : Act.atIndex l i w = (.error .out_of_range, w) := by
  simp [Act.atIndex, List.getElem?_eq_none h, Act.raise]

/-- A send loop that runs to its end found an entry of the result for every
type code of the return signature. -/
theorem sendRets_ok_length (data : List V) (retSpec : List Char) (n i : Nat)
    (w w1 : World σ V P) (h : sendRets env data retSpec n i w = (.ok (), w1)) :
    n = 0 ∨ i + n ≤ data.length := by
  induction n generalizing i w with
  | zero => exact Or.inl rfl
  | succ n ih =>
    right
    rcases Nat.lt_or_ge i data.length with hi | hi
    · rcases Nat.lt_or_ge i retSpec.length with hc | hc
      · simp only [sendRets, Act.bind_run, Act.andThen, Act.atIndex_of_lt data i hi,
          Act.atIndex_of_lt retSpec i hc] at h
        rcases hs : Act.ext (env.sendArg data[i] retSpec[i]) (Event.sendArg data[i] retSpec[i]) w
          with ⟨e | u, w2⟩
        · simp [hs] at h
        · rw [hs] at h
          rcases ih (i + 1) w2 h with h0 | hle
          · omega
          · omega
      · simp [sendRets, Act.andThen, Act.atIndex_of_lt data i hi,
          Act.atIndex_of_ge retSpec i hc] at h
    · simp [sendRets, Act.andThen, Act.atIndex_of_ge data i hi] at h

/-- A pass of the loop body that runs to its end made exactly the calls of a
call record, in order. -/
theorem runCommand_ok (cmd : String) (w1 w2 : World σ V P)
    (h : runCommand env cmd w1 = (.ok (), w2)) :
    ∃ c : CallRecord V P, c.cmd = cmd ∧ c.args.length = c.argsSpec.length ∧
      c.retSpec.length ≤ c.data.length ∧ w2.trace = w1.trace ++ c.bodyEvents := by
  rcases hl : env.getFuncProvider cmd w1.st with ⟨e | _ | prov, s2⟩
  · simp [runCommand, Act.tryCatchAll, Act.andThen, Act.ext, hl, Act.raise] at h
  · simp [runCommand, Act.tryCatchAll, Act.andThen, Act.ext, hl, Act.raise] at h
  rcases hs : env.getArgsSpec cmd s2 with ⟨e | argsSpec, s3⟩
  · simp [runCommand, callProvider, Act.tryCatchAll, Act.andThen, Act.ext, hl, hs] at h
  rw [runCommand_found env w1 cmd prov argsSpec s2 s3 hl hs] at h
  rcases recvArgs_spec env argsSpec [] ⟨s3, w1.trace ++
      [.getFuncProvider cmd (.ok (some prov)), .getArgsSpec cmd (.ok argsSpec)]⟩ with
    ⟨args, s4, hlen, hrecv⟩ | ⟨vals, c, e, s4, _, _, hrecv⟩
  swap
  · simp [Act.andThen, hrecv] at h
  simp only [List.nil_append] at hrecv
  rcases hinv : env.invoke prov args s4 with ⟨e | _ | data, s5⟩
  · simp [Act.andThen, hrecv, Act.ext, hinv] at h
  · simp [Act.andThen, hrecv, Act.ext, hinv, handleResult, Act.raise] at h
  rcases hret : env.getRetSpec cmd s5 with ⟨e | retSpec, s6⟩
  · simp [Act.andThen, hrecv, Act.ext, hinv, handleResult, sendAndFree, hret] at h
  simp only [Act.andThen, hrecv, Act.ext, hinv, handleResult, sendAndFree, Act.bind_run,
    hret] at h
  rcases hsend : sendRets env data retSpec retSpec.length 0
      ⟨s6, w1.trace ++ [.getFuncProvider cmd (.ok (some prov)),
        .getArgsSpec cmd (.ok argsSpec)] ++ recvEvents argsSpec args ++
        [.invoke prov args (.ok (some data))] ++ [.getRetSpec cmd (.ok retSpec)]⟩ with
    ⟨e | u, w7⟩
  · rw [hsend] at h
    simp at h
  have hdl : retSpec.length ≤ data.length := by
    rcases sendRets_ok_length env data retSpec retSpec.length 0 _ w7 hsend with h0 | hle
    · omega
    · omega
  rcases sendRets_spec env data retSpec retSpec.length 0 (by simp) hdl
      ⟨s6, w1.trace ++ [.getFuncProvider cmd (.ok (some prov)),
        .getArgsSpec cmd (.ok argsSpec)] ++ recvEvents argsSpec args ++
        [.invoke prov args (.ok (some data))] ++ [.getRetSpec cmd (.ok retSpec)]⟩ with
    ⟨s7, hs7⟩ | ⟨j, v, c, e, s7, _, _, _, hs7⟩
  swap
  · rw [hs7] at hsend
    cases hsend
  rw [hs7] at hsend
  simp only [List.drop_zero] at hsend
  rw [hs7] at h
  simp only [List.drop_zero, freeMemory, Act.bind_run, Act.andThen] at h
  rcases freeAll_spec env args argsSpec argsSpec.length 0 (by simp) (by omega)
      ⟨s7, w1.trace ++ [.getFuncProvider cmd (.ok (some prov)),
        .getArgsSpec cmd (.ok argsSpec)] ++ recvEvents argsSpec args ++
        [.invoke prov args (.ok (some data))] ++ [.getRetSpec cmd (.ok retSpec)] ++
        sentEvents data retSpec⟩ with
    ⟨s8, hs8⟩ | ⟨e, w8, hs8⟩
  swap
  · rw [hs8] at h
    simp at h
  rw [hs8] at h
  simp only [List.drop_zero] at h
  rcases freeAll_spec env data retSpec retSpec.length 0 (by simp) hdl
      ⟨s8, w1.trace ++ [.getFuncProvider cmd (.ok (some prov)),
        .getArgsSpec cmd (.ok argsSpec)] ++ recvEvents argsSpec args ++
        [.invoke prov args (.ok (some data))] ++ [.getRetSpec cmd (.ok retSpec)] ++
        sentEvents data retSpec ++ freedEvents args argsSpec⟩ with
    ⟨s9, hs9⟩ | ⟨e, w9, hs9⟩
  swap
  · rw [hs9] at h
    simp at h
  rw [hs9] at h
  simp only [List.drop_zero, Act.deleteResult, Prod.mk.injEq, true_and] at h
  refine ⟨⟨cmd, prov, argsSpec, retSpec, args, data⟩, rfl, hlen, hdl, ?_⟩
  rw [← h]
  simp [CallRecord.bodyEvents]

/-- A loop left by `break` made the calls of a list of call records, pass after
pass, and then read `"exit"`; one pass more than the calls is budget enough, and
every larger budget gives the same run. -/
theorem workLoop_returned (fuel : Nat) (w w1 : World σ V P)
    (h : workLoop env fuel w = (.returned, w1)) :
    ∃ calls : List (CallRecord V P),
      (∀ c ∈ calls, c.cmd ≠ "exit" ∧ c.args.length = c.argsSpec.length ∧
        c.retSpec.length ≤ c.data.length) ∧
      w1.trace = w.trace ++ (calls.map CallRecord.events).flatten ++
        [.recvString (.ok "exit")] ∧
      ∀ fuel2, calls.length < fuel2 → workLoop env fuel2 w = (.returned, w1) := by
  induction fuel generalizing w with
  | zero => simp [workLoop] at h
  | succ fuel ih =>
    rcases hr : env.recvString w.st with ⟨e | cmd, s1⟩
    · simp [workLoop, Act.ext, hr] at h
    · by_cases hx : cmd = "exit"
      · refine ⟨[], by simp, ?_, ?_⟩
        · simp only [workLoop, Act.ext, hr, hx, if_true, Prod.mk.injEq, true_and] at h
          rw [← h, ← hx]
          simp
        · intro fuel2 hf
          obtain ⟨f, rfl⟩ : ∃ f, fuel2 = f + 1 := ⟨fuel2 - 1, by omega⟩
          simp only [workLoop, Act.ext, hr, hx, if_true] at h ⊢
          exact h
      · simp only [workLoop, Act.ext, hr, hx, if_false] at h
        rcases hrun : runCommand env cmd ⟨s1, w.trace ++ [.recvString (.ok cmd)]⟩ with
          ⟨e | u, w2⟩
        · rw [hrun] at h
          simp at h
        · rw [hrun] at h
          obtain ⟨calls, hcalls, htr, hfuel⟩ := ih w2 h
          obtain ⟨c, hc, hlen, hdl, hctr⟩ := runCommand_ok env cmd _ w2 hrun
          refine ⟨c :: calls, ?_, ?_, ?_⟩
          · intro d hd
            rcases List.mem_cons.mp hd with rfl | hd
            · exact ⟨by rw [hc]; exact hx, hlen, hdl⟩
            · exact hcalls d hd
          · rw [htr, hctr, ← hc]
            simp [CallRecord.events]
          · intro fuel2 hf
            obtain ⟨f, rfl⟩ : ∃ f, fuel2 = f + 1 := ⟨fuel2 - 1, by omega⟩
            simp only [workLoop, Act.ext, hr, hx, if_false, hrun]
            exact hfuel f (by simpa using hf)

theorem filter_zipWith_nil {α β γ : Type} (f : α → β → γ) (p : γ → Bool)
    (hp : ∀ a b, p (f a b) = false) (l1 : List α) (l2 : List β) :
    (List.zipWith f l1 l2).filter p = [] := by
  induction l1 generalizing l2 with
  | nil => simp
  | cons a l1 ih =>
    cases l2 with
    | nil => simp
    | cons b l2 => simp [List.filter_cons, hp, ih]

/-- The one invocation among the calls of a completed pass. -/
theorem CallRecord.filter_isInvoke (c : CallRecord V P) :
    c.events.filter Event.isInvoke = [.invoke c.prov c.args (.ok (some c.data))] := by
  simp [CallRecord.events, CallRecord.bodyEvents, List.filter_append, List.filter_cons,
    Event.isInvoke, recvEvents, sentEvents, freedEvents, filter_zipWith_nil]

/-- The one read of a command name among the calls of a completed pass. -/
theorem CallRecord.filter_isRecvString (c : CallRecord V P) :
    c.events.filter Event.isRecvString = [.recvString (.ok c.cmd)] := by
  simp [CallRecord.events, CallRecord.bodyEvents, List.filter_append, List.filter_cons,
    Event.isRecvString, recvEvents, sentEvents, freedEvents, filter_zipWith_nil]

theorem filter_isInvoke_calls (calls : List (CallRecord V P)) :
    (calls.map CallRecord.events).flatten.filter Event.isInvoke =
      calls.map (fun c => Event.invoke c.prov c.args (.ok (some c.data))) := by
  induction calls with
  | nil => simp
  | cons c calls ih =>
    simp only [List.map_cons, List.flatten_cons, List.filter_append, ih,
      CallRecord.filter_isInvoke, List.singleton_append]

theorem filter_isRecvString_calls (calls : List (CallRecord V P)) :
    (calls.map CallRecord.events).flatten.filter Event.isRecvString =
      calls.map (fun c => Event.recvString (.ok c.cmd)) := by
  induction calls with
  | nil => simp
  | cons c calls ih =>
    simp only [List.map_cons, List.flatten_cons, List.filter_append, ih,
      CallRecord.filter_isRecvString, List.singleton_append]

end WorkerLemmas

section WorkerClaims

variable {σ V P : Type} (env : Env σ V P)

/-- C11: a pass of the loop of `work` that runs to its end without error calls
`freeArg` once for each decoded argument, in order, with the type code at its
position in the argument signature, then once for each return value the return
signature names, with the type code at its position there; all these calls come
after the last `sendArg` of the pass, and only the deletion of the result
follows them. -/
theorem work_frees_after_send (k fuel : Nat) (w0 w w2 : World σ V P) (cmd : String) (s1 : σ)
    (hreach : work env k w0 = (.unfinished, w))
    (hread : env.recvString w.st = (.ok cmd, s1))
    (hne : cmd ≠ "exit")
    (hok : runCommand env cmd ⟨s1, w.trace ++ [.recvString (.ok cmd)]⟩ = (.ok (), w2)) :
    ∃ (prov : P) (argsSpec retSpec : List Char) (args data : List V),
      args.length = argsSpec.length ∧ retSpec.length ≤ data.length ∧
      w2.trace = w.trace ++ [.recvString (.ok cmd), .getFuncProvider cmd (.ok (some prov)),
          .getArgsSpec cmd (.ok argsSpec)] ++ recvEvents argsSpec args ++
          [.invoke prov args (.ok (some data)), .getRetSpec cmd (.ok retSpec)] ++
          sentEvents data retSpec ++ freedEvents args argsSpec ++ freedEvents data retSpec ++
          [.deleteResult] ∧
      (freedEvents args argsSpec : List (Event V P)).length = args.length ∧
      (freedEvents data retSpec : List (Event V P)).length = retSpec.length ∧
      work env (k + (fuel + 1)) w0 = exitLog (workLoop env fuel w2) := by
  obtain ⟨c, hc, hlen, hdl, htr⟩ := runCommand_ok env cmd _ w2 hok
  refine ⟨c.prov, c.argsSpec, c.retSpec, c.args, c.data, hlen, hdl, ?_, ?_, ?_, ?_⟩
  · rw [htr, ← hc]
    simp [CallRecord.bodyEvents]
  · simp [freedEvents, hlen]
  · simp [freedEvents, hdl]
  · rw [work_step env k fuel w0 w cmd s1 hreach hread hne, hok]

/-- Witness for C11: the call of `"test.add"` in the test session. -/
theorem work_frees_after_send_witness :
    ∃ (prov : String) (argsSpec retSpec : List Char) (args data : List Val),
      args.length = argsSpec.length ∧ retSpec.length ≤ data.length ∧
      addDone.trace = addOpened.trace ++ [.recvString (.ok "test.add"),
          .getFuncProvider "test.add" (.ok (some prov)),
          .getArgsSpec "test.add" (.ok argsSpec)] ++ recvEvents argsSpec args ++
          [.invoke prov args (.ok (some data)), .getRetSpec "test.add" (.ok retSpec)] ++
          sentEvents data retSpec ++ freedEvents args argsSpec ++ freedEvents data retSpec ++
          [.deleteResult] ∧
      (freedEvents args argsSpec : List (Event Val String)).length = args.length ∧
      (freedEvents data retSpec : List (Event Val String)).length = retSpec.length ∧
      work testEnv (0 + (0 + 1)) (start addSession 10) = exitLog (workLoop testEnv 0 addDone) :=
  work_frees_after_send testEnv 0 0 (start addSession 10) addOpened addDone "test.add"
    addArgsConn (by decide!) (by decide!) (by decide) (by decide!)

/-- C12: a run of `work` that returns normally (every step succeeded and `"exit"`
was read) has, after the handshake, made the calls of a list of command passes
`c1, ..., ck`, pass after pass, and then read `"exit"`: the command names read are
`c1, ..., ck, "exit"` in that order, the handlers are invoked exactly `k` times,
the `i`-th invocation being that of the provider of `ci` on the arguments decoded
for `ci`, and all calls of the pass of `ci` (its sends among them) come before
the read of the name of `c(i+1)`.  A budget of `k + 1` passes is enough for the
run, and every budget of more than `k` passes gives the same run. -/
theorem work_runs_commands_in_order (fuel : Nat) (w0 w1 : World σ V P)
    (h : work env fuel w0 = (.returned, w1)) :
    ∃ (b : Bool) (name : String) (calls : List (CallRecord V P)),
      (∀ c ∈ calls, c.cmd ≠ "exit" ∧ c.args.length = c.argsSpec.length ∧
        c.retSpec.length ≤ c.data.length) ∧
      w1.trace = w0.trace ++ [.sendFixed "ModBox/M" (.ok ()), .readModuleHeader (.ok b),
          .readModuleName (.ok name), .log ("Module '" ++ name ++ "' connected")] ++
        (calls.map CallRecord.events).flatten ++
        [.recvString (.ok "exit"), .log "Exiting module worker"] ∧
      (w1.trace.drop w0.trace.length).filter Event.isInvoke =
        calls.map (fun c => Event.invoke c.prov c.args (.ok (some c.data))) ∧
      (w1.trace.drop w0.trace.length).filter Event.isRecvString =
        calls.map (fun c => Event.recvString (.ok c.cmd)) ++ [.recvString (.ok "exit")] ∧
      ∀ fuel2, calls.length < fuel2 → work env fuel2 w0 = (.returned, w1) := by
  rcases h1 : env.sendFixed "ModBox/M" w0.st with ⟨e | u, s1⟩
  · simp [work, handshake, Act.andThen, Act.ext, h1] at h
  rcases h2 : env.readModuleHeader s1 with ⟨e | b, s2⟩
  · simp [work, handshake, Act.andThen, Act.ext, h1, h2] at h
  rcases h3 : env.readModuleName s2 with ⟨e | name, s3⟩
  · simp [work, handshake, Act.andThen, Act.ext, h1, h2, h3] at h
  simp only [work, handshake, Act.bind_run, Act.andThen, Act.ext, h1, h2, h3, Act.log] at h
  rcases hl : workLoop env fuel ⟨s3, w0.trace ++ [.sendFixed "ModBox/M" (.ok ())] ++
      [.readModuleHeader (.ok b)] ++ [.readModuleName (.ok name)] ++
      [.log ("Module '" ++ name ++ "' connected")]⟩ with ⟨o, w2⟩
  rw [hl] at h
  cases o with
  | threw e => simp [exitLog] at h
  | unfinished => simp [exitLog] at h
  | returned =>
    obtain ⟨calls, hcalls, htr, hfuel⟩ := workLoop_returned env fuel _ w2 hl
    simp only [exitLog, Act.log, Prod.mk.injEq, true_and] at h
    have htrace : w1.trace = w0.trace ++ ([.sendFixed "ModBox/M" (.ok ()),
        .readModuleHeader (.ok b), .readModuleName (.ok name),
        .log ("Module '" ++ name ++ "' connected")] ++
        (calls.map CallRecord.events).flatten ++
        [.recvString (.ok "exit"), .log "Exiting module worker"]) := by
      rw [← h]
      simp [htr]
    refine ⟨b, name, calls, hcalls, by rw [htrace]; simp, ?_, ?_, ?_⟩
    · rw [htrace, List.drop_left, List.filter_append, List.filter_append,
        filter_isInvoke_calls]
      simp [List.filter_cons, Event.isInvoke]
    · rw [htrace, List.drop_left, List.filter_append, List.filter_append,
        filter_isRecvString_calls]
      simp [List.filter_cons, Event.isRecvString]
    · intro fuel2 hf
      simp only [work, handshake, Act.bind_run, Act.andThen, Act.ext, h1, h2, h3, Act.log]
      rw [hfuel fuel2 hf]
      simp only [exitLog, Act.log, Prod.mk.injEq, true_and]
      exact h

/-- Witness for C12: the test session, one command followed by `"exit"`. -/
theorem work_runs_commands_in_order_witness :
    ∃ (b : Bool) (name : String) (calls : List (CallRecord Val String)),
      (∀ c ∈ calls, c.cmd ≠ "exit" ∧ c.args.length = c.argsSpec.length ∧
        c.retSpec.length ≤ c.data.length) ∧
      (work testEnv 2 (start addSession 10)).2.trace =
        (start addSession 10).trace ++ [.sendFixed "ModBox/M" (.ok ()),
          .readModuleHeader (.ok b), .readModuleName (.ok name),
          .log ("Module '" ++ name ++ "' connected")] ++
        (calls.map CallRecord.events).flatten ++
        [.recvString (.ok "exit"), .log "Exiting module worker"] ∧
      ((work testEnv 2 (start addSession 10)).2.trace.drop
          (start addSession 10).trace.length).filter Event.isInvoke =
        calls.map (fun c => Event.invoke c.prov c.args (.ok (some c.data))) ∧
      ((work testEnv 2 (start addSession 10)).2.trace.drop
          (start addSession 10).trace.length).filter Event.isRecvString =
        calls.map (fun c => Event.recvString (.ok c.cmd)) ++ [.recvString (.ok "exit")] ∧
      ∀ fuel2, calls.length < fuel2 →
        work testEnv fuel2 (start addSession 10) =
          (.returned, (work testEnv 2 (start addSession 10)).2) :=
  work_runs_commands_in_order testEnv 2 (start addSession 10)
    (work testEnv 2 (start addSession 10)).2 (by decide!)

end WorkerClaims

/-! ## The dispatch queue: lemmas -/

section DispatchLemmas

variable {γ β : Type}

/-- What a run of submissions through `addDrawFunction(f, false)` changes: tasks
with fresh, consecutive ids are appended, nothing else but the log and the
capacity moves. -/
theorem foldl_void_spec (subs : List (VoidFunc γ)) (s : DrawSys γ β) :
    ∃ s1, subs.foldl (fun acc f => addDrawFunction_void f acc) s = s1 ∧
      s1.engine = s.engine ∧ s1.executed = s.executed ∧ s1.stored = s.stored ∧
      s1.abandoned = s.abandoned ∧ s1.retrieved = s.retrieved ∧ s1.rets = s.rets ∧
      s1.nextId = s.nextId + subs.length ∧
      ∃ added, s1.drawFunctions = s.drawFunctions ++ added ∧
        added.map (fun t => t.id) = List.range' s.nextId subs.length := by
  induction subs generalizing s with
  | nil => exact ⟨s, rfl, rfl, rfl, rfl, rfl, rfl, rfl, rfl, [], by simp, by simp⟩
  | cons f subs ih =>
    obtain ⟨s1, h1, he, hx, hst, ha, hr, hrets, hn, added, hq, hids⟩ :=
      ih (addDrawFunction_void f s)
    refine ⟨s1, by simpa using h1, ?_, ?_, ?_, ?_, ?_, ?_, ?_, ?_⟩
    · rw [he]; rfl
    · rw [hx]; rfl
    · rw [hst]; rfl
    · rw [ha]; rfl
    · rw [hr]; rfl
    · rw [hrets]; rfl
    · rw [hn]
      simp only [addDrawFunction_void, addDrawFunction_enqueue, DrawSys.logMsg,
        DrawSys.emplaceBack, List.length_cons]
      omega
    · refine ⟨⟨s.nextId, .call f⟩ :: added, ?_, ?_⟩
      · rw [hq]
        simp [addDrawFunction_void, addDrawFunction_enqueue, DrawSys.logMsg,
          DrawSys.emplaceBack]
      · simp only [List.map_cons, List.length_cons, List.range'_succ, hids]
        simp [addDrawFunction_void, addDrawFunction_enqueue, DrawSys.logMsg,
          DrawSys.emplaceBack]

/-- What `func()` does on a task not invoked before: it returns normally,
whatever the lambda does; the shared state becomes ready; the lambda's value is
assigned to `ret`, or its exception is stored. -/
theorem runTask_spec (t : PackagedTask γ β) (s : DrawSys γ β) (hfresh : t.id ∉ s.executedIds) :
    ∃ s1, s.runTask t = (.ok (), s1) ∧
      s1.executed = s.executed ++ [(t.id, s.engine)] ∧
      s1.abandoned = s.abandoned ∧ s1.retrieved = s.retrieved ∧
      s1.engine = (t.body.run s.engine).2.1 ∧
      s1.nextId = s.nextId + (t.body.run s.engine).2.2.length ∧
      (∃ added, s1.drawFunctions = s.drawFunctions ++ added ∧
        added.map (fun t => t.id) =
          List.range' s.nextId (t.body.run s.engine).2.2.length) ∧
      (∀ i, i ≠ t.id → s1.rets i = s.rets i) ∧
      (∀ v, (t.body.run s.engine).1 = .ok (some v) → s1.rets t.id = some v) ∧
      (∀ x ∈ s.stored, x ∈ s1.stored) ∧
      (∀ e, (t.body.run s.engine).1 = .error e → (t.id, e) ∈ s1.stored) ∧
      ((∀ e, (t.body.run s.engine).1 ≠ .error e) → s1.stored = s.stored) := by
  rcases hb : t.body.run s.engine with ⟨r, g, subs⟩
  obtain ⟨sf, hsf, he, hx, hst, ha, hr, hrets, hn, added, hq, hids⟩ :=
    foldl_void_spec subs ({ s with engine := g } : DrawSys γ β)
  simp only at he hx hst ha hr hrets hn hq hids
  simp only [DrawSys.runTask, hfresh, if_false, hb, hsf]
  rcases r with e | _ | v
  · refine ⟨_, rfl, by simp [hx], ha, hr, he, hn, ⟨added, hq, hids⟩, ?_, ?_, ?_, ?_, ?_⟩
    · intro i _; simp [hrets]
    · intro v hv; cases hv
    · intro x hx1; simp [hst, hx1]
    · intro e1 he1; cases he1; simp
    · intro hne; exact absurd rfl (hne e)
  · refine ⟨_, rfl, by simp [hx], ha, hr, he, hn, ⟨added, hq, hids⟩, ?_, ?_, ?_, ?_, ?_⟩
    · intro i _; simp [hrets]
    · intro v hv; cases hv
    · intro x hx1; simp [hst, hx1]
    · intro e1 he1; cases he1
    · intro _; simp [hst]
  · refine ⟨_, rfl, by simp [hx], ha, hr, he, hn, ⟨added, hq, hids⟩, ?_, ?_, ?_, ?_, ?_⟩
    · intro i hi; simp [hrets, Function.update, hi]
    · intro v1 hv; cases hv; simp
    · intro x hx1; simp [hst, hx1]
    · intro e1 he1; cases he1
    · intro _; simp [hst]

/-- The loop of the drain over tasks not invoked before: unless an append by a
body reallocates the vector, it runs to its end, having invoked every task of
its range once, in order; no exception of a body leaves it. -/
theorem drainLoop_spec (todo : List (PackagedTask γ β)) (s : DrawSys γ β)
    (hnd : (todo.map (fun t => t.id)).Nodup) (hfresh : ∀ t ∈ todo, t.id ∉ s.executedIds) :
    (∃ s1, drainLoop todo s = (.undefined, s1)) ∨
    (∃ s1, drainLoop todo s = (.completed, s1) ∧
      s1.executedIds = s.executedIds ++ todo.map (fun t => t.id) ∧
      (∀ x ∈ s.executed, x ∈ s1.executed) ∧
      (∀ x ∈ s.stored, x ∈ s1.stored) ∧
      s1.abandoned = s.abandoned ∧ s1.retrieved = s.retrieved ∧
      s1.capacity = s.capacity ∧ s.nextId ≤ s1.nextId ∧
      (∃ added, s1.drawFunctions = s.drawFunctions ++ added ∧
        added.map (fun t => t.id) = List.range' s.nextId (s1.nextId - s.nextId)) ∧
      (∀ i, i ∉ todo.map (fun t => t.id) → s1.rets i = s.rets i) ∧
      (∀ t ∈ todo, ∃ g, (t.id, g) ∈ s1.executed ∧
        (∀ v, (t.body.run g).1 = .ok (some v) → s1.rets t.id = some v) ∧
        (∀ e, (t.body.run g).1 = .error e → (t.id, e) ∈ s1.stored))) := by
  induction todo generalizing s with
  | nil =>
    exact Or.inr ⟨s, rfl, by simp, fun _ h => h, fun _ h => h, rfl, rfl, rfl, le_refl _,
      ⟨[], by simp, by simp⟩, fun _ _ => rfl, by simp⟩
  | cons t rest ih =>
    obtain ⟨sa, hrun, hex, hab, hre, _, hn, ⟨add1, hq1, hid1⟩, hro, hrv, hsm, hse, _⟩ :=
      runTask_spec t s (hfresh t (List.mem_cons_self _ _))
    have hnd1 : t.id ∉ rest.map (fun t => t.id) ∧ (rest.map (fun t => t.id)).Nodup := by
      simpa using hnd
    have hexi : sa.executedIds = s.executedIds ++ [t.id] := by
      simp [DrawSys.executedIds, hex]
    simp only [drainLoop, hrun]
    by_cases hcap : sa.capacity = s.capacity
    swap
    · exact Or.inl ⟨sa, by simp [hcap]⟩
    simp only [hcap, if_true]
    have hfresh1 : ∀ u ∈ rest, u.id ∉ sa.executedIds := by
      intro u hu
      rw [hexi]
      simp only [List.mem_append, List.mem_singleton, not_or]
      refine ⟨hfresh u (List.mem_cons_of_mem _ hu), ?_⟩
      intro heq
      exact hnd1.1 (List.mem_map.mpr ⟨u, hu, heq⟩)
    rcases ih sa hnd1.2 hfresh1 with ⟨s1, h1⟩ | ⟨s1, h1, hids, hxm, hstm, hab1, hre1, hcap1, hn1,
      ⟨add2, hq2, hid2⟩, hro1, hran⟩
    · exact Or.inl ⟨s1, h1⟩
    · refine Or.inr ⟨s1, h1, ?_, ?_, ?_, by rw [hab1, hab], by rw [hre1, hre],
        by rw [hcap1, hcap], by omega, ?_, ?_, ?_⟩
      · rw [hids, hexi]; simp
      · intro x hx
        exact hxm x (by rw [hex]; exact List.mem_append_left _ hx)
      · intro x hx
        exact hstm x (hsm x hx)
      · refine ⟨add1 ++ add2, by rw [hq2, hq1, List.append_assoc], ?_⟩
        rw [List.map_append, hid1, hid2, hn]
        have hsplit : s1.nextId - s.nextId =
            (s1.nextId - (s.nextId + (t.body.run s.engine).2.2.length)) +
              (t.body.run s.engine).2.2.length := by omega
        rw [hsplit, ← List.range'_append_1]
      · intro i hi
        have hi1 : i ≠ t.id ∧ i ∉ rest.map (fun t => t.id) := by
          simpa using hi
        rw [hro1 i hi1.2, hro i hi1.1]
      · intro u hu
        rcases List.mem_cons.mp hu with rfl | hu
        · refine ⟨s.engine, hxm _ (by rw [hex]; simp), ?_, ?_⟩
          · intro v hv
            rw [hro1 _ hnd1.1]
            exact hrv v hv
          · intro e he
            exact hstm _ (hse e he)
        · exact hran u hu

/-- The drain from a well-formed state: unless an append by a body reallocates
the vector, it completes, having invoked every queued task once, in order, and
leaves an empty queue and a well-formed state. -/
theorem drain_spec (s : DrawSys γ β) (hwf : s.WellFormed) :
    (∃ s1, drain s = (.undefined, s1)) ∨
    (∃ s1, drain s = (.completed, s1) ∧ s1.drawFunctions = [] ∧
      s1.executedIds = s.executedIds ++ s.drawFunctions.map (fun t => t.id) ∧
      (∀ x ∈ s.executed, x ∈ s1.executed) ∧
      (∀ x ∈ s.stored, x ∈ s1.stored) ∧
      s1.retrieved = s.retrieved ∧ s.nextId ≤ s1.nextId ∧
      (∀ i ∈ s1.abandoned, i ∈ s.abandoned ∨ (s.nextId ≤ i ∧ i < s1.nextId)) ∧
      (∀ i, i ∉ s.drawFunctions.map (fun t => t.id) → s1.rets i = s.rets i) ∧
      (∀ t ∈ s.drawFunctions, ∃ g, (t.id, g) ∈ s1.executed ∧
        (∀ v, (t.body.run g).1 = .ok (some v) → s1.rets t.id = some v) ∧
        (∀ e, (t.body.run g).1 = .error e → (t.id, e) ∈ s1.stored)) ∧
      s1.WellFormed) := by
  obtain ⟨hnd, hq, hex, hab, hre⟩ := hwf
  rcases drainLoop_spec s.drawFunctions s hnd (fun t ht => (hq t ht).2) with
    ⟨s1, h1⟩ | ⟨s1, h1, hids, hxm, hstm, hab1, hre1, _, hn1, ⟨added, hq1, hid1⟩, hro, hran⟩
  · exact Or.inl ⟨s1, by simp [drain, h1]⟩
  · have habn : ∀ i ∈ s1.clear.abandoned, i ∈ s.abandoned ∨ (s.nextId ≤ i ∧ i < s1.nextId) := by
      intro i hi
      simp only [DrawSys.clear, List.mem_append, List.mem_filter, decide_eq_true_eq] at hi
      rcases hi with hi | ⟨hi, hni⟩
      · left; rw [← hab1]; exact hi
      · right
        rw [hq1, List.map_append, List.mem_append] at hi
        rcases hi with hi | hi
        · exact absurd (by rw [hids]; exact List.mem_append_right _ hi) hni
        · rw [hid1, List.mem_range'_1] at hi
          omega
    refine Or.inr ⟨s1.clear, by simp [drain, h1], rfl, hids, hxm, hstm, hre1, hn1, habn, hro,
      hran, ?_⟩
    refine ⟨by simp [DrawSys.clear], by simp [DrawSys.clear], ?_, ?_, ?_⟩
    · intro i hi
      have hi1 : i ∈ s.executedIds ++ s.drawFunctions.map (fun t => t.id) := by
        rw [← hids]; exact hi
      rcases List.mem_append.mp hi1 with h | h
      · exact lt_of_lt_of_le (hex i h) hn1
      · obtain ⟨t, ht, rfl⟩ := List.mem_map.mp h
        exact lt_of_lt_of_le (hq t ht).1 hn1
    · intro i hi
      rcases habn i hi with h | h
      · exact lt_of_lt_of_le (hab i h) hn1
      · exact h.2
    · intro i hi
      have : i ∈ s.retrieved := by rw [← hre1]; exact hi
      exact lt_of_lt_of_le (hre i this) hn1

/-- A task whose body submits nothing leaves the vector as it is. -/
theorem runTask_plain (t : PackagedTask γ β) (s : DrawSys γ β)
    (hsub : (t.body.run s.engine).2.2 = []) :
    (s.runTask t).2.capacity = s.capacity ∧ (s.runTask t).2.drawFunctions = s.drawFunctions ∧
      (s.runTask t).2.nextId = s.nextId ∧ (s.runTask t).2.abandoned = s.abandoned := by
  rcases hb : t.body.run s.engine with ⟨r, g, subs⟩
  rw [hb] at hsub
  simp only at hsub
  subst hsub
  by_cases hin : t.id ∈ s.executedIds
  · simp [DrawSys.runTask, hin]
  · rcases r with e | _ | v <;> simp [DrawSys.runTask, hin, hb]

/-- The loop of the drain over bodies that submit nothing never meets a
reallocation and leaves the vector as it is. -/
theorem drainLoop_plain (todo : List (PackagedTask γ β)) (s : DrawSys γ β)
    (hsub : ∀ t ∈ todo, ∀ g, (t.body.run g).2.2 = []) :
    (drainLoop todo s).1 ≠ .undefined ∧
      (drainLoop todo s).2.drawFunctions = s.drawFunctions ∧
      (drainLoop todo s).2.nextId = s.nextId ∧
      (drainLoop todo s).2.abandoned = s.abandoned := by
  induction todo generalizing s with
  | nil => simp [drainLoop]
  | cons t rest ih =>
    obtain ⟨hc, hq, hn, ha⟩ := runTask_plain t s (hsub t (List.mem_cons_self _ _) s.engine)
    rcases hr : s.runTask t with ⟨e | u, s1⟩
    · rw [hr] at hq hn ha
      simp only at hq hn ha
      rcases hw : e.what with _ | what
      · simp [drainLoop, hr, hw, hq, hn, ha]
      · simp [drainLoop, hr, hw, hq, hn, ha, DrawSys.logMsg]
    · rw [hr] at hc hq hn ha
      simp only at hc hq hn ha
      obtain ⟨h1, h2, h3, h4⟩ := ih s1 (fun u hu => hsub u (List.mem_cons_of_mem _ hu))
      simp only [drainLoop, hr, hc, if_true]
      exact ⟨h1, by rw [h2, hq], by rw [h3, hn], by rw [h4, ha]⟩

/-- A task whose lambda produces no value leaves every `ret` as it was. -/
theorem runTask_rets_keep (t : PackagedTask γ β) (s : DrawSys γ β)
    (hno : ∀ v, (t.body.run s.engine).1 ≠ .ok (some v)) : (s.runTask t).2.rets = s.rets := by
  by_cases hin : t.id ∈ s.executedIds
  · simp [DrawSys.runTask, hin]
  · rcases hb : t.body.run s.engine with ⟨r, g, subs⟩
    obtain ⟨sf, hsf, _, _, _, _, _, hrets, _⟩ :=
      foldl_void_spec subs ({ s with engine := g } : DrawSys γ β)
    simp only at hrets
    rw [hb] at hno
    simp only [DrawSys.runTask, hin, if_false, hb, hsf]
    rcases r with e | _ | v
    · simp [hrets]
    · simp [hrets]
    · exact absurd rfl (hno v)

/-- The loop of the drain that completes: every task of its range was invoked
from some engine state; the value its lambda produced there is in its `ret`,
and its `ret` is as before the loop when the lambda produced none. -/
theorem drainLoop_rets (todo : List (PackagedTask γ β)) (s s1 : DrawSys γ β)
    (hnd : (todo.map (fun t => t.id)).Nodup) (hfresh : ∀ t ∈ todo, t.id ∉ s.executedIds)
    (hdone : drainLoop todo s = (.completed, s1)) :
    ∀ t ∈ todo, ∃ g, (t.id, g) ∈ s1.executed ∧
      (∀ v, (t.body.run g).1 = .ok (some v) → s1.rets t.id = some v) ∧
      ((∀ v, (t.body.run g).1 ≠ .ok (some v)) → s1.rets t.id = s.rets t.id) := by
  induction todo generalizing s with
  | nil => simp
  | cons t rest ih =>
    obtain ⟨sa, hrun, hex, _, _, _, _, _, hro, hrv, _, _, _⟩ :=
      runTask_spec t s (hfresh t (List.mem_cons_self _ _))
    have hkeep := runTask_rets_keep t s
    rw [hrun] at hkeep
    simp only at hkeep
    have hnd1 : t.id ∉ rest.map (fun t => t.id) ∧ (rest.map (fun t => t.id)).Nodup := by
      simpa using hnd
    have hexi : sa.executedIds = s.executedIds ++ [t.id] := by
      simp [DrawSys.executedIds, hex]
    have hfresh1 : ∀ u ∈ rest, u.id ∉ sa.executedIds := by
      intro u hu
      rw [hexi]
      simp only [List.mem_append, List.mem_singleton, not_or]
      refine ⟨hfresh u (List.mem_cons_of_mem _ hu), ?_⟩
      intro heq
      exact hnd1.1 (List.mem_map.mpr ⟨u, hu, heq⟩)
    simp only [drainLoop, hrun] at hdone
    by_cases hcap : sa.capacity = s.capacity
    swap
    · simp [hcap] at hdone
    simp only [hcap, if_true] at hdone
    rcases drainLoop_spec rest sa hnd1.2 hfresh1 with ⟨s2, h2⟩ |
      ⟨s2, h2, _, hxm, _, _, _, _, _, _, hro1, _⟩
    · rw [h2] at hdone
      simp at hdone
    · rw [h2] at hdone
      simp only [Prod.mk.injEq, true_and] at hdone
      subst hdone
      intro u hu
      rcases List.mem_cons.mp hu with rfl | hu
      · refine ⟨s.engine, hxm _ (by rw [hex]; simp), ?_, ?_⟩
        · intro v hv
          rw [hro1 _ hnd1.1]
          exact hrv v hv
        · intro hno
          rw [hro1 _ hnd1.1, hkeep hno]
      · obtain ⟨g, hg, hv, hk⟩ := ih sa hnd1.2 hfresh1 h2 u hu
        refine ⟨g, hg, hv, ?_⟩
        intro hno
        rw [hk hno]
        apply hro
        intro heq
        exact hnd1.1 (List.mem_map.mpr ⟨u, hu, heq⟩)

/-- The drain that completes, from a well-formed state: every queued task was
invoked from some engine state; the value its lambda produced there is in its
`ret`, and its `ret` is as before the drain when the lambda produced none. -/
theorem drain_rets (s s1 : DrawSys γ β) (hwf : s.WellFormed)
    (hdone : drain s = (.completed, s1)) :
    ∀ t ∈ s.drawFunctions, ∃ g, (t.id, g) ∈ s1.executed ∧
      (∀ v, (t.body.run g).1 = .ok (some v) → s1.rets t.id = some v) ∧
      ((∀ v, (t.body.run g).1 ≠ .ok (some v)) → s1.rets t.id = s.rets t.id) := by
  rcases hl : drainLoop s.drawFunctions s with ⟨o, sd⟩
  cases o with
  | completed =>
    simp only [drain, hl, Prod.mk.injEq, true_and] at hdone
    subst hdone
    exact drainLoop_rets s.drawFunctions s sd hwf.1 (fun t ht => (hwf.2.1 t ht).2) hl
  | threw e => simp [drain, hl] at hdone
  | undefined => simp [drain, hl] at hdone

theorem wellFormed_emplaceBack (body : DrawBody γ β) (s : DrawSys γ β) (hwf : s.WellFormed) :
    (s.emplaceBack body).WellFormed := by
  obtain ⟨hnd, hq, hex, hab, hre⟩ := hwf
  refine ⟨?_, ?_, ?_, ?_, ?_⟩
  · simp only [DrawSys.emplaceBack, List.map_append, List.map_cons, List.map_nil]
    rw [List.nodup_append]
    refine ⟨hnd, by simp, ?_⟩
    intro a ha hb
    simp only [List.mem_singleton] at hb
    obtain ⟨t, ht, rfl⟩ := List.mem_map.mp ha
    have := (hq t ht).1
    omega
  · intro t ht
    simp only [DrawSys.emplaceBack, List.mem_append, List.mem_singleton] at ht
    rcases ht with ht | rfl
    · exact ⟨Nat.lt_succ_of_lt (hq t ht).1, (hq t ht).2⟩
    · refine ⟨Nat.lt_succ_self _, ?_⟩
      intro hin
      exact absurd (hex _ hin) (lt_irrefl _)
  · intro i hi
    exact Nat.lt_succ_of_lt (hex i hi)
  · intro i hi
    exact Nat.lt_succ_of_lt (hab i hi)
  · intro i hi
    exact Nat.lt_succ_of_lt (hre i hi)

theorem wellFormed_backFuture (s : DrawSys γ β) (hwf : s.WellFormed) :
    (backFuture s).2.WellFormed := by
  unfold backFuture
  rcases hl : s.drawFunctions.getLast? with _ | t
  · exact hwf
  · by_cases hin : t.id ∈ s.retrieved
    · simpa [hin] using hwf
    · simp only [hin, if_false]
      obtain ⟨hnd, hq, hex, hab, hre⟩ := hwf
      refine ⟨hnd, hq, hex, hab, ?_⟩
      intro i hi
      simp only [List.mem_append, List.mem_singleton] at hi
      rcases hi with hi | rfl
      · exact hre i hi
      · exact (hq t (List.mem_of_getLast?_eq_some hl)).1

/-- In a well-formed state, the future taken right after an append is that of
the task just appended. -/
theorem backFuture_emplaceBack (body : DrawBody γ β) (s : DrawSys γ β) (hwf : s.WellFormed) :
    (backFuture (s.emplaceBack body)).1 = .future s.nextId := by
  have hl : (s.emplaceBack body).drawFunctions.getLast? = some ⟨s.nextId, body⟩ := by
    simp [DrawSys.emplaceBack]
  have hin : s.nextId ∉ (s.emplaceBack body).retrieved := by
    intro h
    exact absurd (hwf.2.2.2.2 _ h) (lt_irrefl _)
  simp [backFuture, hl, hin]

theorem tracks_emplaceBack (body b : DrawBody γ β) (own : Nat) (s : DrawSys γ β)
    (h : s.Tracks own body) : (s.emplaceBack b).Tracks own body := by
  obtain ⟨hlt, hab, hcase⟩ := h
  refine ⟨Nat.lt_succ_of_lt hlt, hab, ?_⟩
  rcases hcase with ⟨⟨t, ht, hid, hb⟩, hr⟩ | hx
  · exact Or.inl ⟨⟨t, by simp [DrawSys.emplaceBack, ht], hid, hb⟩, hr⟩
  · exact Or.inr hx

theorem tracks_backFuture (body : DrawBody γ β) (own : Nat) (s : DrawSys γ β)
    (h : s.Tracks own body) : (backFuture s).2.Tracks own body := by
  unfold backFuture
  rcases hl : s.drawFunctions.getLast? with _ | t
  · exact h
  · by_cases hin : t.id ∈ s.retrieved
    · simpa [hin] using h
    · simpa [hin] using h

/-- Every step of the program keeps the state well formed and keeps every
tracked task accounted for. -/
theorem step_tracks (render : γ → γ) (body : DrawBody γ β) (own : Nat) (a : DrawAction γ β)
    (s s1 : DrawSys γ β) (hwf : s.WellFormed) (htr : s.Tracks own body)
    (hstep : s.step render a = some s1) : s1.WellFormed ∧ s1.Tracks own body := by
  cases a with
  | frame =>
    rcases drain_spec s hwf with ⟨sd, hd⟩ |
      ⟨sd, hd, hq, hids, hxm, _, _, hn, habn, hro, hran, hwf1⟩
    · simp [DrawSys.step, hd] at hstep
    · simp only [DrawSys.step, hd, Option.some.injEq] at hstep
      subst hstep
      obtain ⟨hlt, hab, hcase⟩ := htr
      refine ⟨hwf1, lt_of_lt_of_le hlt hn, ?_, ?_⟩
      · intro hin
        rcases habn own hin with h | h
        · exact hab h
        · omega
      · right
        rcases hcase with ⟨⟨t, ht, hid, hb⟩, hr⟩ | ⟨g, hg, hv, hk⟩
        · obtain ⟨g, hg, hv, hk⟩ := drain_rets s sd hwf hd t ht
          rw [hid, hb] at hv hk
          rw [hid] at hg
          exact ⟨g, hg, hv, fun hno => by
            show sd.rets own = none
            rw [hk hno, hr]⟩
        · have hni : own ∉ s.drawFunctions.map (fun t => t.id) := by
            intro hin
            obtain ⟨t, ht, hid⟩ := List.mem_map.mp hin
            have hne := (hwf.2.1 t ht).2
            rw [hid] at hne
            exact hne (List.mem_map.mpr ⟨(own, g), hg, rfl⟩)
          refine ⟨g, hxm _ hg, ?_, ?_⟩
          · intro v hv1
            show sd.rets own = some v
            rw [hro own hni]
            exact hv v hv1
          · intro hno
            show sd.rets own = none
            rw [hro own hni]
            exact hk hno
  | enqueueVoid f =>
    simp only [DrawSys.step, Option.some.injEq] at hstep
    subst hstep
    exact ⟨wellFormed_emplaceBack _ _ hwf, tracks_emplaceBack _ _ _ _ htr⟩
  | takeBack =>
    have hw := wellFormed_backFuture s hwf
    have ht := tracks_backFuture body own s htr
    rcases hb : backFuture s with ⟨r, sb⟩
    rw [hb] at hw ht
    cases r <;> simp [DrawSys.step, hb] at hstep
    · subst hstep; exact ⟨hw, ht⟩
    · subst hstep; exact ⟨hw, ht⟩
  | submitAssign f =>
    have hw := wellFormed_backFuture _
      (wellFormed_emplaceBack (.assign f) (s.logMsg "Adding draw function") hwf)
    have ht := tracks_backFuture body own _
      (tracks_emplaceBack body (.assign f) own (s.logMsg "Adding draw function") htr)
    rcases hb : backFuture ((s.logMsg "Adding draw function").emplaceBack (.assign f)) with
      ⟨r, sb⟩
    rw [hb] at hw ht
    cases r <;> simp [DrawSys.step, addDrawFunction_assign_submit, hb] at hstep
    · subst hstep; exact ⟨hw, ht⟩
    · subst hstep; exact ⟨hw, ht⟩
  | submitBox f =>
    have hw := wellFormed_backFuture _
      (wellFormed_emplaceBack (.box f) (s.logMsg "Adding draw function") hwf)
    have ht := tracks_backFuture body own _
      (tracks_emplaceBack body (.box f) own (s.logMsg "Adding draw function") htr)
    rcases hb : backFuture ((s.logMsg "Adding draw function").emplaceBack (.box f)) with
      ⟨r, sb⟩
    rw [hb] at hw ht
    cases r <;> simp [DrawSys.step, addDrawFunction_box_submit, hb] at hstep
    · subst hstep; exact ⟨hw, ht⟩
    · subst hstep; exact ⟨hw, ht⟩

/-- Every sequence of steps of the program keeps the state well formed and keeps
every tracked task accounted for. -/
theorem run_tracks (render : γ → γ) (body : DrawBody γ β) (own : Nat)
    (acts : List (DrawAction γ β)) (s s2 : DrawSys γ β) (hwf : s.WellFormed)
    (htr : s.Tracks own body) (hrun : s.run render acts = some s2) :
    s2.WellFormed ∧ s2.Tracks own body := by
  induction acts generalizing s with
  | nil =>
    simp only [DrawSys.run, Option.some.injEq] at hrun
    subst hrun
    exact ⟨hwf, htr⟩
  | cons a rest ih =>
    rcases hs : s.step render a with _ | s1
    · simp [DrawSys.run, hs] at hrun
    · simp only [DrawSys.run, hs] at hrun
      obtain ⟨hw1, ht1⟩ := step_tracks render body own a s s1 hwf htr hs
      exact ih s1 hw1 ht1 hrun

/-- Taking a future leaves the counter of the tasks and the variables `ret` as
they are. -/
theorem backFuture_keeps (s : DrawSys γ β) :
    (backFuture s).2.nextId = s.nextId ∧ (backFuture s).2.rets = s.rets := by
  unfold backFuture
  rcases hl : s.drawFunctions.getLast? with _ | t
  · exact ⟨rfl, rfl⟩
  · by_cases hin : t.id ∈ s.retrieved
    · simp [hin]
    · simp [hin]

/-- Every step of the program keeps the state well formed and leaves unassigned
the variable `ret` of every call not made yet. -/
theorem step_unassigned (render : γ → γ) (a : DrawAction γ β) (s s1 : DrawSys γ β)
    (hwf : s.WellFormed) (hun : ∀ i, s.nextId ≤ i → s.rets i = none)
    (hstep : s.step render a = some s1) :
    s1.WellFormed ∧ ∀ i, s1.nextId ≤ i → s1.rets i = none := by
  have hsub : ∀ body : DrawBody γ β,
      (backFuture ((s.logMsg "Adding draw function").emplaceBack body)).2.WellFormed ∧
        ∀ i, (backFuture ((s.logMsg "Adding draw function").emplaceBack body)).2.nextId ≤ i →
          (backFuture ((s.logMsg "Adding draw function").emplaceBack body)).2.rets i = none := by
    intro body
    obtain ⟨hn, hr⟩ := backFuture_keeps ((s.logMsg "Adding draw function").emplaceBack body)
    refine ⟨wellFormed_backFuture _ (wellFormed_emplaceBack body _ hwf), fun i hi => ?_⟩
    rw [hn] at hi
    rw [hr]
    have hi1 : s.nextId + 1 ≤ i := hi
    exact hun i (by omega)
  cases a with
  | frame =>
    rcases drain_spec s hwf with ⟨sd, hd⟩ |
      ⟨sd, hd, hq, hids, hxm, _, _, hn, habn, hro, hran, hwf1⟩
    · simp [DrawSys.step, hd] at hstep
    · simp only [DrawSys.step, hd, Option.some.injEq] at hstep
      subst hstep
      refine ⟨hwf1, fun i hi => ?_⟩
      have hi1 : sd.nextId ≤ i := hi
      have hni : i ∉ s.drawFunctions.map (fun t => t.id) := by
        intro hin
        obtain ⟨t, ht, hid⟩ := List.mem_map.mp hin
        have hlt := (hwf.2.1 t ht).1
        omega
      show sd.rets i = none
      rw [hro i hni]
      exact hun i (le_trans hn hi1)
  | enqueueVoid f =>
    simp only [DrawSys.step, Option.some.injEq] at hstep
    subst hstep
    refine ⟨wellFormed_emplaceBack _ _ hwf, fun i hi => ?_⟩
    have hi1 : s.nextId + 1 ≤ i := hi
    exact hun i (by omega)
  | takeBack =>
    have hw := wellFormed_backFuture s hwf
    obtain ⟨hn, hr⟩ := backFuture_keeps s
    rcases hb : backFuture s with ⟨r, sb⟩
    rw [hb] at hw hn hr
    simp only at hn hr
    have hres : sb.WellFormed ∧ ∀ i, sb.nextId ≤ i → sb.rets i = none :=
      ⟨hw, fun i hi => by rw [hr]; exact hun i (by omega)⟩
    cases r <;> simp [DrawSys.step, hb] at hstep
    · subst hstep; exact hres
    · subst hstep; exact hres
  | submitAssign f =>
    have hres := hsub (.assign f)
    rcases hb : backFuture ((s.logMsg "Adding draw function").emplaceBack (.assign f)) with
      ⟨r, sb⟩
    rw [hb] at hres
    cases r <;> simp [DrawSys.step, addDrawFunction_assign_submit, hb] at hstep
    · subst hstep; exact hres
    · subst hstep; exact hres
  | submitBox f =>
    have hres := hsub (.box f)
    rcases hb : backFuture ((s.logMsg "Adding draw function").emplaceBack (.box f)) with
      ⟨r, sb⟩
    rw [hb] at hres
    cases r <;> simp [DrawSys.step, addDrawFunction_box_submit, hb] at hstep
    · subst hstep; exact hres
    · subst hstep; exact hres

/-- The states the program reaches from the state before any submission are
well formed, and in them the variable `ret` of the next call is unassigned: the
two conditions under which a call of `addDrawFunction` is studied hold whenever
a call is made. -/
theorem run_unassigned (render : γ → γ) (acts : List (DrawAction γ β)) (g0 : γ)
    (s : DrawSys γ β) (hrun : (DrawSys.init g0 : DrawSys γ β).run render acts = some s) :
    s.WellFormed ∧ s.rets s.nextId = none := by
  have key : ∀ (acts : List (DrawAction γ β)) (s0 s : DrawSys γ β), s0.WellFormed →
      (∀ i, s0.nextId ≤ i → s0.rets i = none) → s0.run render acts = some s →
      s.WellFormed ∧ ∀ i, s.nextId ≤ i → s.rets i = none := by
    intro acts
    induction acts with
    | nil =>
      intro s0 s hwf hun hrun
      simp only [DrawSys.run, Option.some.injEq] at hrun
      subst hrun
      exact ⟨hwf, hun⟩
    | cons a rest ih =>
      intro s0 s hwf hun hrun
      rcases hs : s0.step render a with _ | s1
      · simp [DrawSys.run, hs] at hrun
      · simp only [DrawSys.run, hs] at hrun
        obtain ⟨hw1, hu1⟩ := step_unassigned render a s0 s1 hwf hun hs
        exact ih s1 s hw1 hu1 hrun
  have hinit : (DrawSys.init g0 : DrawSys γ β).WellFormed := by
    refine ⟨?_, ?_, ?_, ?_, ?_⟩ <;> simp [DrawSys.init, DrawSys.executedIds]
  obtain ⟨hw, hu⟩ := key acts _ s hinit (fun _ _ => rfl) hrun
  exact ⟨hw, hu _ (le_refl _)⟩

/-- Once the shared state of a tracked task is ready, the task was invoked; the
value its lambda produced is in the caller's `ret`, and `ret` is not assigned
when the lambda produced none. -/
theorem tracks_ready (body : DrawBody γ β) (own : Nat) (s : DrawSys γ β) (hwf : s.WellFormed)
    (htr : s.Tracks own body) (hready : s.ready own = true) :
    ∃ g, (own, g) ∈ s.executed ∧
      (∀ v, (body.run g).1 = .ok (some v) → s.rets own = some v) ∧
      ((∀ v, (body.run g).1 ≠ .ok (some v)) → s.rets own = none) := by
  obtain ⟨_, hab, hcase⟩ := htr
  rcases hcase with ⟨⟨t, ht, hid, _⟩, _⟩ | hx
  · exfalso
    simp only [DrawSys.ready, Bool.or_eq_true, decide_eq_true_eq] at hready
    rcases hready with h | h
    · have := (hwf.2.1 t ht).2
      rw [hid] at this
      exact this h
    · exact hab h
  · exact hx

end DispatchLemmas

/-! ## The dispatch queue: drain and submission -/

section DispatchClaims

variable {γ β : Type}

/-- C17: for every void callable, `addDrawFunction(func, false)` appends exactly
one task, holding `func`, at the end of the queue and leaves the tasks already
queued as they were; it invokes nothing (the engine state, the shared states made
ready, the stored exceptions and the assigned results are unchanged), and it is a
plain function of the state: it returns without any wait. -/
theorem addDrawFunction_void_appends (func : VoidFunc γ) (s : DrawSys γ β) :
    (addDrawFunction_void func s).drawFunctions =
        s.drawFunctions ++ [⟨s.nextId, .call func⟩] ∧
      (addDrawFunction_void func s).engine = s.engine ∧
      (addDrawFunction_void func s).executed = s.executed ∧
      (addDrawFunction_void func s).stored = s.stored ∧
      (addDrawFunction_void func s).abandoned = s.abandoned ∧
      (addDrawFunction_void func s).retrieved = s.retrieved ∧
      (addDrawFunction_void func s).rets = s.rets :=
  ⟨rfl, rfl, rfl, rfl, rfl, rfl, rfl⟩

/-- C18: in a drain from a queue of distinct tasks not yet invoked, an exception
thrown by the body of a task never leaves the drain: `func()` stores it in the
shared state of that task alone.  When the drain completes, every queued task
was invoked, in the order of the queue (those after a failing one too), each
exception is stored with its task, the queue is empty, and `drawLoop` goes on
with the rendering of the frame and the next frame.  The drain completes
whenever the bodies submit nothing. -/
theorem drain_survives_failing_body (s : DrawSys γ β) (hwf : s.WellFormed) :
    (∀ e, (drain s).1 ≠ .threw e) ∧
    (∀ s1, drain s = (.completed, s1) →
      s1.executedIds = s.executedIds ++ s.drawFunctions.map (fun t => t.id) ∧
      s1.drawFunctions = [] ∧
      (∀ t ∈ s.drawFunctions, ∃ g, (t.id, g) ∈ s1.executed ∧
        ∀ e, (t.body.run g).1 = .error e → (t.id, e) ∈ s1.stored) ∧
      ∀ (render : γ → γ) (frames : Nat),
        drawLoop render (frames + 1) s =
          drawLoop render frames { s1 with engine := render s1.engine }) ∧
    ((∀ t ∈ s.drawFunctions, ∀ g, (t.body.run g).2.2 = []) → (drain s).1 = .completed) := by
  rcases drain_spec s hwf with ⟨s1, h1⟩ | ⟨s1, h1, hq, hids, _, _, _, _, _, _, hran, _⟩
  · refine ⟨by simp [h1], by simp [h1], ?_⟩
    intro hsub
    exfalso
    have hp := (drainLoop_plain s.drawFunctions s hsub).1
    rcases hd : drainLoop s.drawFunctions s with ⟨o, sd⟩
    rw [hd] at hp
    cases o <;> simp_all [drain]
  · refine ⟨by simp [h1], ?_, by simp [h1]⟩
    intro s2 h2
    rw [h1] at h2
    cases h2
    refine ⟨hids, hq, ?_, ?_⟩
    · intro t ht
      obtain ⟨g, hg, _, hst⟩ := hran t ht
      exact ⟨g, hg, hst⟩
    · intro render frames
      simp [drawLoop, h1]

/-- Witness for C18: the queue `[incrTask, failTask, incrTask]`, whose second
body throws. -/
theorem drain_survives_failing_body_witness :
    (drain failScene).1 = .completed ∧ (drain failScene).2.executedIds = [0, 1, 2] ∧
      (drain failScene).2.stored =
        [(1, .runtime_error "unable to create terrain scene node")] ∧
      (drain failScene).2.engine = 2 ∧ (drain failScene).2.drawFunctions.length = 0 :=
  ⟨(drain_survives_failing_body failScene (by unfold DrawSys.WellFormed; decide!)).2.2
      (by
        intro t ht g
        have hq : failScene.drawFunctions =
            [⟨0, .call incrTask⟩, ⟨1, .call failTask⟩, ⟨2, .call incrTask⟩] := rfl
        rw [hq] at ht
        simp only [List.mem_cons, List.mem_singleton, List.not_mem_nil, or_false] at ht
        rcases ht with rfl | rfl | rfl <;>
          simp [DrawBody.run, incrTask, failTask, VoidFunc.run]),
    by decide!, by decide!, by decide!, by decide!⟩

/-- C14: a task submitted by the body of a task being drained, on the draining
thread, with room left in the vector.  The dispatch had drained two tasks
before, so the vector has capacity 2; its queue holds `nestingTask` alone (task
2).  During the drain the body submits `incrTask`, which is appended as task 3
without reallocation; the loop, whose range was fixed before, does not invoke
it; `clear()` then destroys it; the queue is empty when the drain ends, and the
next drain invokes nothing: task 3 is never executed and the counter stays at 2. -/
theorem drain_loses_nested_submission :
    nestedScene.capacity = 2 ∧ nestedScene.drawFunctions.map (fun t => t.id) = [2] ∧
      (drainLoop nestedScene.drawFunctions nestedScene).1 = .completed ∧
      (drainLoop nestedScene.drawFunctions nestedScene).2.drawFunctions.map (fun t => t.id) =
        [2, 3] ∧
      (drainLoop nestedScene.drawFunctions nestedScene).2.capacity = 2 ∧
      (drain nestedScene).1 = .completed ∧
      (drain nestedScene).2.executedIds = [0, 1, 2] ∧
      (drain nestedScene).2.drawFunctions.length = 0 ∧
      (drain nestedScene).2.abandoned = [3] ∧
      (drain (drain nestedScene).2).1 = .completed ∧
      (drain (drain nestedScene).2).2.executedIds = [0, 1, 2] ∧
      (drain (drain nestedScene).2).2.engine = 2 := by
  decide!

/-- C16: two schedules of a call `addDrawFunction(incrTask, true)` by a thread A.
In the first, A appends its task (task 0, lines 35-38) and releases the mutex;
another thread appends a task (task 1); A then takes
`drawFunctions.back().get_future()` (line 40) and gets the future of task 1,
not of its own task.  In the second, the draw thread drains and clears the queue
between A's append and line 40, and `back()` is called on an empty vector:
undefined behaviour.  The branches for value-producing callables take the
future inside the locked block and get that of their own task. -/
theorem barrier_future_of_other_task :
    (addDrawFunction_enqueue incrTask (DrawSys.init 0 : DrawSys Nat Nat)).drawFunctions.map
        (fun t => t.id) = [0] ∧
      (backFuture (addDrawFunction_enqueue failTask
        (addDrawFunction_enqueue incrTask (DrawSys.init 0 : DrawSys Nat Nat)))).1 =
        .future 1 ∧
      (backFuture (drain
        (addDrawFunction_enqueue incrTask (DrawSys.init 0 : DrawSys Nat Nat))).2).1 =
        .undefined ∧
      (addDrawFunction_assign_submit ⟨fun g => (.ok g, g, [])⟩
        (addDrawFunction_enqueue failTask (DrawSys.init 0 : DrawSys Nat Nat))).1 = 1 ∧
      (addDrawFunction_assign_submit ⟨fun g => (.ok g, g, [])⟩
        (addDrawFunction_enqueue failTask (DrawSys.init 0 : DrawSys Nat Nat))).2.1 =
        .future 1 := by
  decide!

/-- The lambda of the default-constructible branch assigns what `func` returns. -/
theorem DrawBody.run_assign_ok (func : ValueFunc γ β) (g : γ) (v : β)
    (h : (func.run g).1 = .ok v) : ((DrawBody.assign func).run g).1 = .ok (some v) := by
  rcases hf : func.run g with ⟨r, g1, subs⟩
  rw [hf] at h
  simp only at h
  subst h
  simp [DrawBody.run, hf]

/-- The lambda of the heap-box branch assigns a box of what `func` returns. -/
theorem DrawBody.run_box_ok (func : ValueFunc γ β) (g : γ) (v : β)
    (h : (func.run g).1 = .ok v) : ((DrawBody.box func).run g).1 = .ok (some v) := by
  rcases hf : func.run g with ⟨r, g1, subs⟩
  rw [hf] at h
  simp only at h
  subst h
  simp [DrawBody.run, hf]

/-- The lambda of the default-constructible branch assigns nothing when `func`
throws. -/
theorem DrawBody.run_assign_error (func : ValueFunc γ β) (g : γ) (e : Thrown)
    (h : (func.run g).1 = .error e) (v : β) :
    ((DrawBody.assign func).run g).1 ≠ .ok (some v) := by
  rcases hf : func.run g with ⟨r, g1, subs⟩
  rw [hf] at h
  simp only at h
  subst h
  simp [DrawBody.run, hf]

/-- The lambda of the heap-box branch assigns nothing when `func` throws. -/
theorem DrawBody.run_box_error (func : ValueFunc γ β) (g : γ) (e : Thrown)
    (h : (func.run g).1 = .error e) (v : β) :
    ((DrawBody.box func).run g).1 ≠ .ok (some v) := by
  rcases hf : func.run g with ⟨r, g1, subs⟩
  rw [hf] at h
  simp only at h
  subst h
  simp [DrawBody.run, hf]

/-- C15: a call of `addDrawFunction(func)` for a value-producing `func`, made in
a well-formed state with its variable `ret` not yet assigned (as every state is
that the program reaches, `run_unassigned`), takes (inside the locked block)
the future of the very task it appends.  Whatever steps the draw
thread and the other threads then make, once `future.wait()` lets the call
return, its task has been invoked by a drain (it was not before the call), from
some engine state `g`.  When `func` returned a value at `g`, that value is what
the call returns, on the default-constructible path (`return ret`) and on the
heap-box path (`return *ret`) alike.  When `func` threw at `g`, the exception
stays in the shared state (`wait()` does not rethrow it) and the call returns
all the same: the default-constructed `ret` on the first path, the copy of
what an unset pointer points to on the second. -/
theorem addDrawFunction_value_returns (render : γ → γ) (dflt : β) (func : ValueFunc γ β)
    (s : DrawSys γ β) (hwf : s.WellFormed) (hret : s.rets s.nextId = none) :
    (∀ g, (s.nextId, g) ∉ s.executed) ∧
    ((addDrawFunction_assign_submit func s).1 = s.nextId ∧
      (addDrawFunction_assign_submit func s).2.1 = .future s.nextId ∧
      ∀ acts s2 v, (addDrawFunction_assign_submit func s).2.2.run render acts = some s2 →
        addDrawFunction_assign_return dflt s2 s.nextId s.nextId = some v →
        ∃ g, (s.nextId, g) ∈ s2.executed ∧ (∀ v1, (func.run g).1 = .ok v1 → v = v1) ∧
          (∀ e, (func.run g).1 = .error e → v = dflt)) ∧
    ((addDrawFunction_box_submit func s).1 = s.nextId ∧
      (addDrawFunction_box_submit func s).2.1 = .future s.nextId ∧
      ∀ acts s2 r, (addDrawFunction_box_submit func s).2.2.run render acts = some s2 →
        addDrawFunction_box_return s2 s.nextId s.nextId = some r →
        ∃ g, (s.nextId, g) ∈ s2.executed ∧ (∀ v1, (func.run g).1 = .ok v1 → r = some v1) ∧
          (∀ e, (func.run g).1 = .error e → r = none)) := by
  have hnew : ∀ g, (s.nextId, g) ∉ s.executed := by
    intro g hg
    exact absurd (hwf.2.2.1 _ (List.mem_map.mpr ⟨(s.nextId, g), hg, rfl⟩)) (lt_irrefl _)
  have hnab : s.nextId ∉ s.abandoned := fun h => absurd (hwf.2.2.2.1 _ h) (lt_irrefl _)
  have hstart : ∀ body : DrawBody γ β,
      (backFuture ((s.logMsg "Adding draw function").emplaceBack body)).2.WellFormed ∧
      (backFuture ((s.logMsg "Adding draw function").emplaceBack body)).2.Tracks
        s.nextId body := by
    intro body
    refine ⟨wellFormed_backFuture _ (wellFormed_emplaceBack body _ hwf),
      tracks_backFuture body _ _ ⟨Nat.lt_succ_self _, hnab,
        Or.inl ⟨⟨⟨s.nextId, body⟩, ?_, rfl, rfl⟩, hret⟩⟩⟩
    simp [DrawSys.emplaceBack, DrawSys.logMsg]
  refine ⟨hnew, ⟨rfl, backFuture_emplaceBack (.assign func) (s.logMsg _) hwf, ?_⟩,
    ⟨rfl, backFuture_emplaceBack (.box func) (s.logMsg _) hwf, ?_⟩⟩
  · intro acts s2 v hrun hres
    obtain ⟨hw2, ht2⟩ := run_tracks render (.assign func) s.nextId acts _ s2
      (hstart (.assign func)).1 (hstart (.assign func)).2 hrun
    by_cases hready : s2.ready s.nextId = true
    · obtain ⟨g, hg, hv, hk⟩ := tracks_ready _ _ s2 hw2 ht2 hready
      refine ⟨g, hg, ?_, ?_⟩
      · intro v1 hv1
        have := hv v1 (DrawBody.run_assign_ok func g v1 hv1)
        simp [addDrawFunction_assign_return, hready, this] at hres
        exact hres.symm
      · intro e he
        have := hk (DrawBody.run_assign_error func g e he)
        simp [addDrawFunction_assign_return, hready, this] at hres
        exact hres.symm
    · simp [addDrawFunction_assign_return, hready] at hres
  · intro acts s2 r hrun hres
    obtain ⟨hw2, ht2⟩ := run_tracks render (.box func) s.nextId acts _ s2
      (hstart (.box func)).1 (hstart (.box func)).2 hrun
    by_cases hready : s2.ready s.nextId = true
    · obtain ⟨g, hg, hv, hk⟩ := tracks_ready _ _ s2 hw2 ht2 hready
      refine ⟨g, hg, ?_, ?_⟩
      · intro v1 hv1
        have := hv v1 (DrawBody.run_box_ok func g v1 hv1)
        simp [addDrawFunction_box_return, hready, this] at hres
        exact hres.symm
      · intro e he
        have := hk (DrawBody.run_box_error func g e he)
        simp [addDrawFunction_box_return, hready, this] at hres
        exact hres.symm
    · simp [addDrawFunction_box_return, hready] at hres

/-- An option that holds a value is that value. -/
theorem eq_some_getD {α : Type} (o : Option α) (d : α) (h : o.isSome = true) :
    o = some (o.getD d) := by
  cases o <;> simp_all

/-- The runs of C15 on a fresh dispatch, another thread enqueuing a task and the
draw thread running a frame after the submission.  `throwingFunc`, whose body
throws: the call returns the default value 7 on the default-constructible path,
and reads an unset pointer on the heap-box path, although the task was invoked
and produced no value.  `answerFunc`: the call returns 40, the value it
produced from the counter 0. -/
theorem addDrawFunction_value_returns_witness :
    addDrawFunction_assign_return 7 assignThrowScene 0 0 = some 7 ∧
    addDrawFunction_box_return boxThrowScene 0 0 = some none ∧
    assignThrowScene.stored = [(0, .runtime_error "failed to create a cube scene node")] ∧
    (∃ g, (0, g) ∈ assignThrowScene.executed ∧
      (∀ v1, (throwingFunc.run g).1 = .ok v1 → 7 = v1) ∧
      (∀ e, (throwingFunc.run g).1 = .error e → 7 = 7)) ∧
    (∃ g, (0, g) ∈ boxThrowScene.executed ∧
      (∀ v1, (throwingFunc.run g).1 = .ok v1 → (none : Option Nat) = some v1) ∧
      (∀ e, (throwingFunc.run g).1 = .error e → (none : Option Nat) = none)) ∧
    addDrawFunction_assign_return 0 assignScene 0 0 = some 40 ∧
    addDrawFunction_box_return boxScene 0 0 = some (some 40) :=
  ⟨by decide!, by decide!, by decide!,
    (addDrawFunction_value_returns id 7 throwingFunc (DrawSys.init 0)
      (by unfold DrawSys.WellFormed; decide!) rfl).2.1.2.2 valueSteps assignThrowScene 7
      (eq_some_getD _ _ (by decide!)) (by decide!),
    (addDrawFunction_value_returns id 7 throwingFunc (DrawSys.init 0)
      (by unfold DrawSys.WellFormed; decide!) rfl).2.2.2.2 valueSteps boxThrowScene none
      (eq_some_getD _ _ (by decide!)) (by decide!),
    by decide!, by decide!⟩

end DispatchClaims

/-! ## Floating-point numbers on the wire: lemmas -/

section FloatLemmas

/-- An integer rounds to itself. -/
theorem roundHalfEven_intCast (m : ℤ) : roundHalfEven (m : ℚ) = m := by
  simp [roundHalfEven]

/-- Rounding does not go below an integer that the number reaches. -/
theorem le_roundHalfEven {m : ℤ} {x : ℚ} (h : (m : ℚ) ≤ x) : m ≤ roundHalfEven x := by
  have hf : m ≤ ⌊x⌋ := Int.le_floor.mpr h
  unfold roundHalfEven
  split_ifs <;> omega

/-- Rounding does not go above an integer that bounds the number. -/
theorem roundHalfEven_le {m : ℤ} {x : ℚ} (h : x ≤ (m : ℚ)) : roundHalfEven x ≤ m := by
  have hf : ⌊x⌋ ≤ m := by
    have := Int.floor_le x
    exact_mod_cast (Int.cast_le (R := ℚ)).mp (le_trans this h)
  rcases lt_or_eq_of_le hf with hlt | heq
  · unfold roundHalfEven
    split_ifs <;> omega
  · have hx : x = (m : ℚ) := le_antisymm h (by rw [← heq]; exact Int.floor_le x)
    rw [hx, roundHalfEven_intCast]

/-- The characters of the decimal digits are digits. -/
theorem digitChar_isDigit : ∀ d, d < 10 → (digitChar d).isDigit = true := by
  decide

/-- The value read from the character of a digit is the digit. -/
theorem digitChar_value : ∀ d, d < 10 → (digitChar d).toNat - 48 = d := by
  decide

/-- A digit is no white space, sign, point or letter that `strtod` looks for. -/
theorem isDigit_facts (c : Char) (h : c.isDigit = true) :
    isSpace c = false ∧ c ≠ '-' ∧ c ≠ '+' ∧ c ≠ '.' ∧ c ≠ 'x' ∧ c ≠ 'X' ∧
      c.toLower ≠ 'i' ∧ c.toLower ≠ 'n' ∧ c ≠ 'e' ∧ c ≠ 'E' := by
  have hc : ∃ d, d < 10 ∧ c = digitChar d := by
    refine ⟨c.toNat - 48, ?_, ?_⟩
    · simp only [Char.isDigit, Bool.and_eq_true, decide_eq_true_eq] at h
      have h1 : c.toNat ≤ 57 := h.2
      omega
    · simp only [Char.isDigit, Bool.and_eq_true, decide_eq_true_eq] at h
      have h0 : 48 ≤ c.toNat := h.1
      have h1 : c.toNat ≤ 57 := h.2
      unfold digitChar
      rw [Nat.add_sub_cancel' h0]
      exact (Char.ofNat_toNat c).symm
  obtain ⟨d, hd, rfl⟩ := hc
  revert d
  decide

/-- Reading digits from a starting value. -/
theorem foldl_digits (ds : List Char) (acc : Nat) :
    ds.foldl (fun acc c => 10 * acc + (c.toNat - 48)) acc
      = acc * 10 ^ ds.length + digitsValue ds := by
  unfold digitsValue
  induction ds generalizing acc with
  | nil => simp
  | cons c r ih =>
    simp only [List.foldl_cons, List.length_cons]
    rw [ih (10 * acc + (c.toNat - 48)), ih (10 * 0 + (c.toNat - 48))]
    ring

/-- The value of two runs of digits put together. -/
theorem digitsValue_append (a b : List Char) :
    digitsValue (a ++ b) = digitsValue a * 10 ^ b.length + digitsValue b := by
  unfold digitsValue
  rw [List.foldl_append]
  exact foldl_digits b _

/-- The value read from digits written most significant first. -/
theorem digitsValue_map_reverse (L : List Nat) (h : ∀ d ∈ L, d < 10) :
    digitsValue (L.reverse.map digitChar) = Nat.ofDigits 10 L := by
  induction L with
  | nil => rfl
  | cons d L ih =>
    rw [List.reverse_cons, List.map_append, digitsValue_append,
      ih (fun x hx => h x (List.mem_cons_of_mem _ hx))]
    have hd := digitChar_value d (h d (List.mem_cons_self _ _))
    simp only [List.map_cons, List.map_nil, List.length_singleton, pow_one, digitsValue,
      List.foldl_cons, List.foldl_nil, Nat.mul_zero, Nat.zero_add, hd, Nat.ofDigits_cons]
    ring

/-- Reading what `natDigits` wrote gives the number back. -/
theorem digitsValue_natDigits (n : Nat) : digitsValue (natDigits n) = n := by
  unfold natDigits
  split_ifs with h
  · subst h; decide
  · rw [digitsValue_map_reverse _ (fun d hd => Nat.digits_lt_base (by norm_num) hd),
      Nat.ofDigits_digits]

/-- The text `natDigits` writes consists of digits. -/
theorem natDigits_isDigit (n : Nat) : ∀ c ∈ natDigits n, c.isDigit = true := by
  unfold natDigits
  split_ifs with h
  · decide
  · intro c hc
    simp only [List.mem_map, List.mem_reverse] at hc
    obtain ⟨d, hd, rfl⟩ := hc
    exact digitChar_isDigit d (Nat.digits_lt_base (by norm_num) hd)

/-- The text `natDigits` writes is not empty. -/
theorem natDigits_ne_nil (n : Nat) : natDigits n ≠ [] := by
  unfold natDigits
  split_ifs with h
  · simp
  · simp [Nat.digits_ne_nil_iff_ne_zero.mpr h]

/-- The text `fracDigits` writes has the length asked for. -/
theorem fracDigits_length (k n : Nat) : (fracDigits k n).length = k := by
  induction k generalizing n with
  | zero => rfl
  | succ k ih => simp [fracDigits, ih]

/-- The text `fracDigits` writes consists of digits. -/
theorem fracDigits_isDigit (k n : Nat) : ∀ c ∈ fracDigits k n, c.isDigit = true := by
  induction k generalizing n with
  | zero => simp [fracDigits]
  | succ k ih =>
    intro c hc
    simp only [fracDigits, List.mem_append, List.mem_singleton] at hc
    rcases hc with hc | rfl
    · exact ih _ c hc
    · exact digitChar_isDigit _ (Nat.mod_lt _ (by norm_num))

/-- Reading what `fracDigits` wrote gives the last digits of the number. -/
theorem digitsValue_fracDigits (k n : Nat) : digitsValue (fracDigits k n) = n % 10 ^ k := by
  induction k generalizing n with
  | zero => simp [fracDigits, digitsValue, Nat.mod_one]
  | succ k ih =>
    rw [fracDigits, digitsValue_append, ih]
    have hd := digitChar_value (n % 10) (Nat.mod_lt _ (by norm_num))
    simp only [List.length_singleton, pow_one, digitsValue, List.foldl_cons, List.foldl_nil,
      Nat.mul_zero, Nat.zero_add, hd]
    have h1 : n % 10 ^ (k + 1) = n % 10 + 10 * (n / 10 % 10 ^ k) := by
      rw [pow_succ', Nat.mod_mul]
    omega

/-- No word `infinity`, `inf` or `nan` starts with a digit. -/
theorem scanSpecial_digit (c : Char) (r : List Char) (h : c.isDigit = true) :
    scanSpecial (c :: r) = none := by
  obtain ⟨_, _, _, _, _, _, hi, hn, _, _⟩ := isDigit_facts c h
  simp [scanSpecial, startsWithWord, hi, hn]

/-- No hexadecimal number is seen when the second character is not an `x`. -/
theorem scanHex_no_x (z x : Char) (r : List Char) (h1 : x ≠ 'x') (h2 : x ≠ 'X') :
    scanHex (z :: x :: r) = none := by
  simp [scanHex, h1, h2]

/-- The decimal number read from digits, a point and digits, with nothing after
them. -/
theorem scanDecimal_point (ds fs : List Char) (hds : ∀ c ∈ ds, c.isDigit = true)
    (hfs : ∀ c ∈ fs, c.isDigit = true) (hne : ds ≠ []) :
    scanDecimal (ds ++ '.' :: fs)
      = some (.decimal (digitsValue (ds ++ fs)) fs.length 0, []) := by
  have hpt : ('.' : Char).isDigit = false := by decide
  have ht : (ds ++ '.' :: fs).takeWhile Char.isDigit = ds := by
    rw [List.takeWhile_append_of_pos hds, List.takeWhile_cons]
    simp [hpt]
  have hd : (ds ++ '.' :: fs).dropWhile Char.isDigit = '.' :: fs := by
    rw [List.dropWhile_append_of_pos hds, List.dropWhile_cons]
    simp [hpt]
  have hft : fs.takeWhile Char.isDigit = fs := by
    have := @List.takeWhile_append_of_pos Char Char.isDigit fs [] hfs
    simpa using this
  have hfd : fs.dropWhile Char.isDigit = [] := List.dropWhile_eq_nil_iff.mpr hfs
  unfold scanDecimal
  rw [ht, hd]
  simp [scanFraction, hft, hfd, hne, scanExponent]

/-- What `scanNumeral` reads from an optional minus sign, digits, a point and
digits: the whole text, as a decimal number. -/
theorem scanNumeral_point (neg : Bool) (ds fs : List Char)
    (hds : ∀ c ∈ ds, c.isDigit = true) (hfs : ∀ c ∈ fs, c.isDigit = true) (hne : ds ≠ []) :
    scanNumeral ((if neg then ['-'] else []) ++ ds ++ ['.'] ++ fs)
      = some (neg, .decimal (digitsValue (ds ++ fs)) fs.length 0, []) := by
  have hdec := scanDecimal_point ds fs hds hfs hne
  obtain ⟨d, ds1, rfl⟩ := List.exists_cons_of_ne_nil hne
  have hd : d.isDigit = true := hds d (List.mem_cons_self _ _)
  obtain ⟨hsp, hm, hp, _, _, _, _, _, _, _⟩ := isDigit_facts d hd
  have hminus : isSpace '-' = false := by decide
  have hsign : scanSign (((if neg then ['-'] else []) ++ (d :: ds1) ++ ['.'] ++ fs).dropWhile
      isSpace) = (neg, d :: ds1 ++ '.' :: fs) := by
    cases neg
    · simp [List.dropWhile_cons, hsp, scanSign, hm, hp]
    · simp [List.dropWhile_cons, hminus, scanSign]
  have hspec : scanSpecial (d :: ds1 ++ '.' :: fs) = none := scanSpecial_digit d _ hd
  have hhex : scanHex (d :: ds1 ++ '.' :: fs) = none := by
    cases ds1 with
    | nil => exact scanHex_no_x d '.' fs (by decide) (by decide)
    | cons x r =>
      obtain ⟨_, _, _, _, hx, hX, _, _, _, _⟩ :=
        isDigit_facts x (hds x (List.mem_cons_of_mem _ (List.mem_cons_self _ _)))
      exact scanHex_no_x d x _ hx hX
  unfold scanNumeral
  rw [hsign]
  simp only [hspec, hhex, hdec]

/-- A number below one half in magnitude rounds to zero. -/
theorem roundHalfEven_small {x : ℚ} (h : |x| < 1 / 2) : roundHalfEven x = 0 := by
  rw [abs_lt] at h
  rcases le_or_lt 0 x with h0 | h0
  · have hf : ⌊x⌋ = 0 := Int.floor_eq_iff.mpr ⟨by simpa using h0, by norm_num; linarith [h.2]⟩
    unfold roundHalfEven
    rw [hf]
    simp only [Int.cast_zero, sub_zero]
    rw [if_pos h.2]
  · have hf : ⌊x⌋ = -1 := Int.floor_eq_iff.mpr ⟨by norm_num; linarith [h.1], by norm_num; linarith⟩
    unfold roundHalfEven
    rw [hf]
    have h1 : ¬ (x - ((-1 : ℤ) : ℚ) < 1 / 2) := by norm_num; linarith [h.1]
    have h2 : (1 : ℚ) / 2 < x - ((-1 : ℤ) : ℚ) := by norm_num; linarith [h.1]
    rw [if_neg h1, if_pos h2]
    norm_num

/-- The magnitude of the rounded number, for a number of magnitude `2 ^ e` at least. -/
theorem round_overflow (F : FloatFormat) (hprec : 1 ≤ F.prec) (q : ℚ) (e : ℤ)
    (hem : F.emin ≤ e) (h : (2 : ℚ) ^ e ≤ |q|) : (2 : ℚ) ^ e ≤ |F.round q| := by
  have h2 : (0 : ℚ) < 2 ^ e := by positivity
  have hpos : 0 < |q| := lt_of_lt_of_le h2 h
  have hq : q ≠ 0 := abs_pos.mp hpos
  have hlog : e ≤ Int.log 2 |q| := by
    apply (Int.zpow_le_iff_le_log (by norm_num) hpos).mp
    simpa using h
  have hself : (2 : ℚ) ^ Int.log 2 |q| ≤ |q| := by
    have := Int.zpow_log_le_self (b := 2) (by norm_num) hpos
    simpa using this
  obtain ⟨P, hP⟩ : ∃ P : ℕ, F.prec = P + 1 := ⟨F.prec - 1, by omega⟩
  have hmax : max (Int.log 2 |q|) F.emin = Int.log 2 |q| := max_eq_left (le_trans hem hlog)
  unfold FloatFormat.round
  rw [if_neg hq, hmax]
  generalize Int.log 2 |q| = L at hlog hself
  have hs : (0 : ℚ) < 2 ^ (L - ((F.prec : ℤ) - 1)) := by positivity
  have hsplit : (2 : ℚ) ^ L = ((2 ^ P : ℤ) : ℚ) * 2 ^ (L - ((F.prec : ℤ) - 1)) := by
    rw [hP]
    push_cast
    rw [← zpow_natCast, ← zpow_add₀ (by norm_num)]
    congr 1
    ring
  have hround : ((2 ^ P : ℤ) : ℚ) ≤ |(roundHalfEven (q / 2 ^ (L - ((F.prec : ℤ) - 1))) : ℚ)| := by
    rw [← Int.cast_abs, Int.cast_le]
    rcases le_or_lt 0 q with h0 | h0
    · rw [abs_of_nonneg h0] at hself
      refine le_trans (le_roundHalfEven ?_) (le_abs_self _)
      rw [le_div_iff₀ hs, ← hsplit]
      exact hself
    · rw [abs_of_neg h0] at hself
      have : roundHalfEven (q / 2 ^ (L - ((F.prec : ℤ) - 1))) ≤ -(2 ^ P : ℤ) := by
        apply roundHalfEven_le
        rw [div_le_iff₀ hs]
        push_cast
        have := hsplit
        push_cast at this
        linarith
      exact le_trans (by linarith) (neg_le_abs _)
  rw [abs_mul, abs_of_pos hs]
  calc (2 : ℚ) ^ e ≤ 2 ^ L := zpow_le_zpow_right₀ (by norm_num) hlog
    _ = ((2 ^ P : ℤ) : ℚ) * 2 ^ (L - ((F.prec : ℤ) - 1)) := hsplit
    _ ≤ _ := mul_le_mul_of_nonneg_right hround (le_of_lt hs)

/-- Rounding a number of the other sign gives the rounded number of the other
sign. -/
theorem roundHalfEven_neg (x : ℚ) : roundHalfEven (-x) = -roundHalfEven x := by
  by_cases hx : ((⌊x⌋ : ℤ) : ℚ) = x
  · rw [← hx, ← Int.cast_neg, roundHalfEven_intCast, roundHalfEven_intCast]
  · have h1 : ((⌊x⌋ : ℤ) : ℚ) < x := lt_of_le_of_ne (Int.floor_le x) hx
    have h2 : x < ⌊x⌋ + 1 := Int.lt_floor_add_one x
    have hf : ⌊-x⌋ = -⌊x⌋ - 1 := by
      rw [Int.floor_eq_iff]
      push_cast
      constructor <;> linarith
    unfold roundHalfEven
    rw [hf]
    push_cast
    split_ifs <;> first | omega | (exfalso; linarith)

/-- Below the point half-way from `m` to `m + 1` rounding gives `m` at most. -/
theorem roundHalfEven_le_of_lt_half {m : ℤ} {x : ℚ} (h : x < m + 1 / 2) :
    roundHalfEven x ≤ m := by
  have hf : ⌊x⌋ ≤ m := by
    have h1 : ⌊x⌋ < m + 1 := by
      apply Int.floor_lt.mpr
      push_cast
      linarith
    omega
  rcases lt_or_eq_of_le hf with hlt | heq
  · unfold roundHalfEven
    split_ifs <;> omega
  · unfold roundHalfEven
    rw [heq, if_pos (by linarith)]

/-- From the point half-way from an odd `m` to `m + 1` on rounding gives
`m + 1` at least. -/
theorem lt_roundHalfEven_of_half_le {m : ℤ} {x : ℚ} (hm : m % 2 = 1)
    (h : (m : ℚ) + 1 / 2 ≤ x) : m + 1 ≤ roundHalfEven x := by
  have hf : m ≤ ⌊x⌋ := Int.le_floor.mpr (by linarith)
  rcases lt_or_eq_of_le hf with hlt | heq
  · unfold roundHalfEven
    split_ifs <;> omega
  · unfold roundHalfEven
    rw [← heq, if_neg (by linarith)]
    split_ifs <;> omega

/-- The rounded number of the other sign. -/
theorem round_neg (F : FloatFormat) (q : ℚ) : F.round (-q) = -F.round q := by
  unfold FloatFormat.round
  by_cases hq : q = 0
  · simp [hq]
  · rw [if_neg hq, if_neg (neg_ne_zero.mpr hq), abs_neg, neg_div, roundHalfEven_neg]
    push_cast
    ring

/-- A number that is not negative rounds to one that is not negative. -/
theorem round_nonneg (F : FloatFormat) (q : ℚ) (h : 0 ≤ q) : 0 ≤ F.round q := by
  unfold FloatFormat.round
  split_ifs with hq
  · exact le_refl _
  · apply mul_nonneg _ (by positivity)
    have : (0 : ℤ) ≤ roundHalfEven (q / 2 ^ (max (Int.log 2 |q|) F.emin - ((F.prec : ℤ) - 1))) :=
      le_roundHalfEven (by push_cast; positivity)
    exact_mod_cast this

/-- The magnitude of the rounded number is the rounded magnitude. -/
theorem abs_round (F : FloatFormat) (q : ℚ) : |F.round q| = F.round |q| := by
  rcases le_or_lt 0 q with h | h
  · rw [abs_of_nonneg h, abs_of_nonneg (round_nonneg F q h)]
  · have h1 : F.round q = -F.round (-q) := by rw [round_neg, neg_neg]
    rw [abs_of_neg h, h1, abs_neg, abs_of_nonneg (round_nonneg F (-q) (by linarith))]

/-- Rounding with no bound on the exponent is rounding in a format whose least
exponent lies below the number. -/
theorem roundNormal_eq_round (F : FloatFormat) (k : ℤ) (q : ℚ) :
    F.roundNormal q = FloatFormat.round ⟨F.prec, min (Int.log 2 |q|) k, F.emax⟩ q := by
  unfold FloatFormat.roundNormal FloatFormat.round
  simp only [max_eq_left (min_le_left (Int.log 2 |q|) k)]

/-- When the rounded number reaches a power of two above the least normal
number: from half a unit in the last place below that power on. -/
theorem round_ge_pow_iff (F : FloatFormat) (hprec : 1 ≤ F.prec) (k : ℤ) (hk : F.emin < k)
    (q : ℚ) (h0 : 0 ≤ q) :
    (2 : ℚ) ^ k ≤ F.round q ↔ (2 : ℚ) ^ k - 2 ^ (k - 1 - (F.prec : ℤ)) ≤ q := by
  obtain ⟨P, hP⟩ : ∃ P : ℕ, F.prec = P + 1 := ⟨F.prec - 1, by omega⟩
  have hcast : (F.prec : ℤ) = (P : ℤ) + 1 := by rw [hP]; push_cast; rfl
  have hk2 : (2 : ℚ) ^ k = 2 * 2 ^ (k - 1) := by
    rw [← zpow_one_add₀ (by norm_num)]
    congr 1
    ring
  have hTge : (2 : ℚ) ^ (k - 1) ≤ 2 ^ k - 2 ^ (k - 1 - (F.prec : ℤ)) := by
    have b : (2 : ℚ) ^ (k - 1 - (F.prec : ℤ)) ≤ 2 ^ (k - 1) :=
      zpow_le_zpow_right₀ (by norm_num) (by omega)
    linarith
  have hkpos : (0 : ℚ) < 2 ^ (k - 1) := by positivity
  rcases h0.eq_or_lt with rfl | hpos
  · have hr : F.round 0 = 0 := by simp [FloatFormat.round]
    rw [hr]
    constructor
    · intro h; linarith
    · intro h; linarith
  · have hq : q ≠ 0 := ne_of_gt hpos
    have habs : |q| = q := abs_of_pos hpos
    have hlo : (2 : ℚ) ^ Int.log 2 q ≤ q := by
      have := Int.zpow_log_le_self (b := 2) (by norm_num) hpos
      simpa using this
    have hhi : q < (2 : ℚ) ^ (Int.log 2 q + 1) := by
      have := Int.lt_zpow_succ_log_self (b := 2) (by norm_num) q
      simpa using this
    by_cases hek : k ≤ Int.log 2 q
    · have hkq : (2 : ℚ) ^ k ≤ q := le_trans (zpow_le_zpow_right₀ (by norm_num) hek) hlo
      have h1 := round_overflow F hprec q k (le_of_lt hk) (by rw [habs]; exact hkq)
      rw [abs_of_nonneg (round_nonneg F q h0)] at h1
      have hp2 : (0 : ℚ) < 2 ^ (k - 1 - (F.prec : ℤ)) := by positivity
      exact ⟨fun _ => by linarith, fun _ => h1⟩
    · have hek1 : Int.log 2 q < k := not_le.mp hek
      unfold FloatFormat.round
      rw [if_neg hq, habs]
      have hEle : max (Int.log 2 q) F.emin ≤ k - 1 := max_le (by omega) (by omega)
      have hEge : Int.log 2 q ≤ max (Int.log 2 q) F.emin := le_max_left _ _
      generalize max (Int.log 2 q) F.emin = E at hEle hEge
      simp only [hcast, add_sub_cancel_right]
      have hs : (0 : ℚ) < 2 ^ (E - (P : ℤ)) := by positivity
      have hsplit : (2 : ℚ) ^ (E + 1) = (2 : ℚ) ^ (P + 1) * 2 ^ (E - (P : ℤ)) := by
        rw [← zpow_natCast, ← zpow_add₀ (by norm_num)]
        congr 1
        push_cast
        ring
      have hqlt : q < 2 ^ (E + 1) :=
        lt_of_lt_of_le hhi (zpow_le_zpow_right₀ (by norm_num) (by omega))
      rcases eq_or_lt_of_le hEle with hE | hE
      · have hk3 : (2 : ℚ) ^ k = (2 : ℚ) ^ (P + 1) * 2 ^ (E - (P : ℤ)) := by
          rw [← hsplit]
          congr 1
          omega
        have hhalf : (2 : ℚ) ^ (k - 1 - ((P : ℤ) + 1)) = 1 / 2 * 2 ^ (E - (P : ℤ)) := by
          have : E - (P : ℤ) = (k - 1 - ((P : ℤ) + 1)) + 1 := by omega
          rw [this, zpow_add_one₀ (by norm_num)]
          ring
        have hodd : ((2 : ℤ) ^ (P + 1) - 1) % 2 = 1 := by
          rw [pow_succ]
          omega
        have hmc : ((((2 : ℤ) ^ (P + 1) - 1 : ℤ)) : ℚ) = (2 : ℚ) ^ (P + 1) - 1 := by
          push_cast
          ring
        rw [hk3, hhalf]
        constructor
        · intro h
          by_contra hlt
          rw [not_le] at hlt
          have hx : q / 2 ^ (E - (P : ℤ)) < (((2 : ℤ) ^ (P + 1) - 1 : ℤ) : ℚ) + 1 / 2 := by
            rw [div_lt_iff₀ hs, hmc]
            linarith
          have hr := roundHalfEven_le_of_lt_half hx
          have hr1 : (roundHalfEven (q / 2 ^ (E - (P : ℤ))) : ℚ) ≤ (2 : ℚ) ^ (P + 1) - 1 := by
            rw [← hmc]
            exact_mod_cast hr
          have := mul_le_mul_of_nonneg_right hr1 (le_of_lt hs)
          linarith
        · intro h
          have hx : (((2 : ℤ) ^ (P + 1) - 1 : ℤ) : ℚ) + 1 / 2 ≤ q / 2 ^ (E - (P : ℤ)) := by
            rw [le_div_iff₀ hs, hmc]
            linarith
          have hr := lt_roundHalfEven_of_half_le hodd hx
          have hr1 : (2 : ℚ) ^ (P + 1) ≤ (roundHalfEven (q / 2 ^ (E - (P : ℤ))) : ℚ) := by
            have : ((((2 : ℤ) ^ (P + 1) - 1 + 1 : ℤ)) : ℚ) ≤
                (roundHalfEven (q / 2 ^ (E - (P : ℤ))) : ℚ) := by exact_mod_cast hr
            push_cast at this
            linarith
          exact mul_le_mul_of_nonneg_right hr1 (le_of_lt hs)
      · have hx : q / 2 ^ (E - (P : ℤ)) ≤ (((2 : ℤ) ^ (P + 1) : ℤ) : ℚ) := by
          rw [div_le_iff₀ hs]
          push_cast
          rw [← hsplit]
          exact le_of_lt hqlt
        have hr := roundHalfEven_le hx
        have hr1 : (roundHalfEven (q / 2 ^ (E - (P : ℤ))) : ℚ) ≤ (2 : ℚ) ^ (P + 1) := by
          exact_mod_cast hr
        have h2 := mul_le_mul_of_nonneg_right hr1 (le_of_lt hs)
        rw [← hsplit] at h2
        have h3 : (2 : ℚ) ^ (E + 1) ≤ 2 ^ (k - 1) := zpow_le_zpow_right₀ (by norm_num) (by omega)
        have hcast2 : k - 1 - ((P : ℤ) + 1) = k - 1 - (F.prec : ℤ) := by rw [hcast]
        rw [hcast2]
        constructor
        · intro h; exfalso; linarith
        · intro h; exfalso; linarith

/-- When the rounded number is beyond the largest finite number of the format:
from half a unit in the last place above that number on. -/
theorem round_overflow_iff (F : FloatFormat) (hprec : 1 ≤ F.prec) (hexp : F.emin ≤ F.emax)
    (q : ℚ) :
    (2 : ℚ) ^ (F.emax + 1) ≤ |F.round q|
      ↔ (2 : ℚ) ^ (F.emax + 1) - 2 ^ (F.emax - (F.prec : ℤ)) ≤ |q| := by
  rw [abs_round, round_ge_pow_iff F hprec (F.emax + 1) (by omega) |q| (abs_nonneg q)]
  have e : F.emax + 1 - 1 - (F.prec : ℤ) = F.emax - (F.prec : ℤ) := by ring
  rw [e]

/-- When the number rounded with no bound on the exponent is below the least
normal number. -/
theorem roundNormal_tiny_iff (F : FloatFormat) (hprec : 1 ≤ F.prec) (q : ℚ) :
    |F.roundNormal q| < (2 : ℚ) ^ F.emin
      ↔ |q| < (2 : ℚ) ^ F.emin - 2 ^ (F.emin - (F.prec : ℤ) - 1) := by
  rw [roundNormal_eq_round F (F.emin - 1) q, abs_round, ← not_le, ← not_le]
  have h := round_ge_pow_iff ⟨F.prec, min (Int.log 2 |q|) (F.emin - 1), F.emax⟩ hprec F.emin
    (lt_of_le_of_lt (min_le_right _ _) (by omega)) |q| (abs_nonneg q)
  have e : F.emin - 1 - (F.prec : ℤ) = F.emin - (F.prec : ℤ) - 1 := by ring
  rw [e] at h
  exact not_congr h

/-- Below the least normal number the numbers kept exactly are the multiples of
the least subnormal number. -/
theorem round_eq_self_iff (F : FloatFormat) (q : ℚ) (h : |q| < (2 : ℚ) ^ F.emin) :
    F.round q = q ↔ ∃ k : ℤ, q = k * 2 ^ (F.emin - (F.prec : ℤ) + 1) := by
  by_cases hq : q = 0
  · subst hq
    exact ⟨fun _ => ⟨0, by simp⟩, fun _ => by simp [FloatFormat.round]⟩
  · have hpos : 0 < |q| := abs_pos.mpr hq
    have hlog : Int.log 2 |q| < F.emin := by
      apply (Int.lt_zpow_iff_log_lt (by norm_num) hpos).mp
      simpa using h
    have hmax : max (Int.log 2 |q|) F.emin = F.emin := max_eq_right (by omega)
    have e : F.emin - ((F.prec : ℤ) - 1) = F.emin - (F.prec : ℤ) + 1 := by ring
    have hs : (2 : ℚ) ^ (F.emin - (F.prec : ℤ) + 1) ≠ 0 := zpow_ne_zero _ (by norm_num)
    unfold FloatFormat.round
    rw [if_neg hq, hmax, e]
    constructor
    · intro hr
      exact ⟨_, hr.symm⟩
    · rintro ⟨k, hk⟩
      have hdiv : q / 2 ^ (F.emin - (F.prec : ℤ) + 1) = (k : ℚ) := by
        rw [hk, mul_div_assoc, div_self hs, mul_one]
      rw [hdiv, roundHalfEven_intCast, ← hk]

/-- The bit lost has a weight that is not negative. -/
theorem lostBit_nonneg (F : FloatFormat) (q : ℚ) : 0 ≤ F.lostBit q := by
  unfold FloatFormat.lostBit
  split_ifs
  · positivity
  · exact le_refl _

/-- The bit lost is below the magnitude of the number. -/
theorem lostBit_lt (F : FloatFormat) (hprec : 1 ≤ F.prec) (q : ℚ) (hq : q ≠ 0) :
    F.lostBit q < |q| := by
  have hpos : 0 < |q| := abs_pos.mpr hq
  unfold FloatFormat.lostBit
  split_ifs
  · have hself : (2 : ℚ) ^ Int.log 2 |q| ≤ |q| := by
      have := Int.zpow_log_le_self (b := 2) (by norm_num) hpos
      simpa using this
    have hlt : (2 : ℚ) ^ (Int.log 2 |q| - (F.prec : ℤ)) < 2 ^ Int.log 2 |q| :=
      zpow_lt_zpow_right₀ (by norm_num) (by omega)
    exact lt_of_lt_of_le hlt hself
  · exact hpos

/-- The bit lost is the same on both sides of zero. -/
theorem lostBit_neg (F : FloatFormat) (q : ℚ) : F.lostBit (-q) = F.lostBit q := by
  unfold FloatFormat.lostBit
  simp only [abs_neg, neg_ne_zero]

/-- Nothing is lost from zero. -/
theorem kept_zero (F : FloatFormat) : F.kept 0 = 0 := by
  simp [FloatFormat.kept, FloatFormat.lostBit]

/-- The value kept of the number of the other sign. -/
theorem kept_neg (F : FloatFormat) (q : ℚ) : F.kept (-q) = -F.kept q := by
  rcases lt_trichotomy q 0 with h | rfl | h
  · have h1 : ¬ (-q < 0) := by linarith
    simp only [FloatFormat.kept, h, h1, if_true, if_false, lostBit_neg]
    ring
  · simp [kept_zero]
  · have h1 : -q < 0 := by linarith
    have h2 : ¬ (q < 0) := by linarith
    simp only [FloatFormat.kept, h1, h2, if_true, if_false, lostBit_neg]
    ring

/-- The magnitude of the value kept. -/
theorem abs_kept (F : FloatFormat) (hprec : 1 ≤ F.prec) (q : ℚ) :
    |F.kept q| = |q| - F.lostBit q := by
  by_cases hq : q = 0
  · subst hq
    simp [kept_zero, FloatFormat.lostBit]
  · have hlt := lostBit_lt F hprec q hq
    unfold FloatFormat.kept
    split_ifs with h
    · rw [abs_of_neg h] at hlt ⊢
      rw [abs_of_neg (by linarith)]
      ring
    · have h0 : 0 < q := lt_of_le_of_ne (not_lt.mp h) (Ne.symm hq)
      rw [abs_of_pos h0] at hlt ⊢
      rw [abs_of_pos (by linarith)]

/-- The value kept of a number other than zero is not zero. -/
theorem kept_ne_zero (F : FloatFormat) (hprec : 1 ≤ F.prec) (q : ℚ) (hq : q ≠ 0) :
    F.kept q ≠ 0 := by
  have h := abs_kept F hprec q
  have hlt := lostBit_lt F hprec q hq
  intro h0
  rw [h0, abs_zero] at h
  linarith

/-- The value kept is no larger in magnitude than the number. -/
theorem abs_kept_le (F : FloatFormat) (hprec : 1 ≤ F.prec) (q : ℚ) : |F.kept q| ≤ |q| := by
  rw [abs_kept F hprec q]
  linarith [lostBit_nonneg F q]

/-- The conversion gives the rounded value kept or the range error. -/
theorem convert_cases (F : FloatFormat) (q : ℚ) :
    F.convert q = .ok (F.round (F.kept q)) ∨ F.convert q = .error .out_of_range := by
  unfold FloatFormat.convert
  split_ifs <;> simp

/-- The exact values the conversion refuses. -/
theorem convert_error_iff (F : FloatFormat) (hprec : 1 ≤ F.prec) (hexp : F.emin ≤ F.emax)
    (q : ℚ) : F.convert q = .error .out_of_range ↔ F.OutOfRange q := by
  have hU : (2 : ℚ) ^ F.emin - 2 ^ (F.emin - (F.prec : ℤ) - 1) < 2 ^ F.emin := by
    have : (0 : ℚ) < 2 ^ (F.emin - (F.prec : ℤ) - 1) := by positivity
    linarith
  unfold FloatFormat.convert FloatFormat.OutOfRange
  by_cases hov : (2 : ℚ) ^ (F.emax + 1) - 2 ^ (F.emax - (F.prec : ℤ)) ≤ |q|
  · rw [if_pos ((round_overflow_iff F hprec hexp q).mpr hov)]
    exact ⟨fun _ => Or.inl hov, fun _ => rfl⟩
  · rw [if_neg (fun h => hov ((round_overflow_iff F hprec hexp q).mp h))]
    by_cases ht : |q| < (2 : ℚ) ^ F.emin - 2 ^ (F.emin - (F.prec : ℤ) - 1)
    · have hex := round_eq_self_iff F (F.kept q)
        (lt_of_le_of_lt (abs_kept_le F hprec q) (lt_trans ht hU))
      by_cases hr : F.round (F.kept q) = F.kept q
      · rw [if_neg (fun h => h.2 hr)]
        constructor
        · intro h
          cases h
        · rintro (h | ⟨_, _, hk⟩)
          · exact absurd h hov
          · exact absurd (hex.mp hr) hk
      · have hk : ¬ ∃ k : ℤ, F.kept q = k * 2 ^ (F.emin - (F.prec : ℤ) + 1) :=
          fun hk => hr (hex.mpr hk)
        have hq : q ≠ 0 := by
          rintro rfl
          exact hr (by simp [kept_zero, FloatFormat.round])
        rw [if_pos ⟨(roundNormal_tiny_iff F hprec q).mpr ht, hr⟩]
        exact ⟨fun _ => Or.inr ⟨hq, ht, hk⟩, fun _ => rfl⟩
    · rw [if_neg (fun h => ht ((roundNormal_tiny_iff F hprec q).mp h.1))]
      constructor
      · intro h
        cases h
      · rintro (h | ⟨_, h, _⟩)
        · exact absurd h hov
        · exact absurd h ht

/-- A number other than zero and below half the least subnormal number is out
of the range of the format. -/
theorem outOfRange_of_small (F : FloatFormat) (hprec : 1 ≤ F.prec) (q : ℚ) (hq : q ≠ 0)
    (h : |q| < (2 : ℚ) ^ (F.emin - (F.prec : ℤ))) : F.OutOfRange q := by
  have hunit : (2 : ℚ) ^ (F.emin - (F.prec : ℤ) + 1) = 2 * 2 ^ (F.emin - (F.prec : ℤ)) := by
    rw [zpow_add_one₀ (by norm_num)]
    ring
  have hmin : (2 : ℚ) ^ F.emin = 2 ^ (F.prec : ℤ) * 2 ^ (F.emin - (F.prec : ℤ)) := by
    rw [← zpow_add₀ (by norm_num)]
    congr 1
    ring
  have hquarter : (2 : ℚ) ^ (F.emin - (F.prec : ℤ) - 1) = 1 / 2 * 2 ^ (F.emin - (F.prec : ℤ)) := by
    have : F.emin - (F.prec : ℤ) = (F.emin - (F.prec : ℤ) - 1) + 1 := by ring
    rw [this, zpow_add_one₀ (by norm_num)]
    simp only [add_sub_cancel_right]
    ring
  have hp2 : (2 : ℚ) ≤ 2 ^ (F.prec : ℤ) := by
    have := zpow_le_zpow_right₀ (a := (2 : ℚ)) (by norm_num) (show (1 : ℤ) ≤ (F.prec : ℤ) by omega)
    simpa using this
  have hpos : (0 : ℚ) < 2 ^ (F.emin - (F.prec : ℤ)) := by positivity
  refine Or.inr ⟨hq, ?_, ?_⟩
  · rw [hmin, hquarter]
    nlinarith
  · rintro ⟨k, hk⟩
    have hk0 : k ≠ 0 := by
      rintro rfl
      exact kept_ne_zero F hprec q hq (by simpa using hk)
    have hle := abs_kept_le F hprec q
    rw [hk, abs_mul, abs_of_pos (show (0 : ℚ) < 2 ^ (F.emin - (F.prec : ℤ) + 1) by positivity),
      hunit] at hle
    have hk1 : (1 : ℚ) ≤ |(k : ℚ)| := by
      rw [← Int.cast_abs]
      exact_mod_cast Int.one_le_abs hk0
    nlinarith

/-- The values out of range are the same on both sides of zero. -/
theorem outOfRange_signed (F : FloatFormat) (neg : Bool) (v : ℚ) :
    F.OutOfRange ((if neg then -1 else 1) * v) ↔ F.OutOfRange v := by
  cases neg
  · simp
  · unfold FloatFormat.OutOfRange
    simp only [if_true, neg_one_mul, abs_neg, neg_ne_zero, kept_neg]
    have hk : (∃ k : ℤ, -F.kept v = k * 2 ^ (F.emin - (F.prec : ℤ) + 1))
        ↔ ∃ k : ℤ, F.kept v = k * 2 ^ (F.emin - (F.prec : ℤ) + 1) := by
      constructor
      · rintro ⟨k, hk⟩
        exact ⟨-k, by push_cast; linarith⟩
      · rintro ⟨k, hk⟩
        exact ⟨-k, by push_cast; linarith⟩
    rw [hk]

/-- The errors of `convertSigned`: the range error alone, for the values out of
range. -/
theorem convertSigned_error_iff (F : FloatFormat) (hprec : 1 ≤ F.prec)
    (hexp : F.emin ≤ F.emax) (neg : Bool) (a : ℚ) (e : Thrown) :
    convertSigned F neg a = .error e ↔ e = .out_of_range ∧ F.OutOfRange a := by
  unfold convertSigned
  rcases convert_cases F ((if neg then -1 else 1) * a) with h | h
  · have hno : ¬ F.OutOfRange a := by
      intro ho
      have := (convert_error_iff F hprec hexp _).mpr ((outOfRange_signed F neg a).mpr ho)
      rw [h] at this
      cases this
    rw [h]
    simp [hno]
  · have ho : F.OutOfRange a :=
      (outOfRange_signed F neg a).mp ((convert_error_iff F hprec hexp _).mp h)
    rw [h]
    simp only [Except.error.injEq, ho, and_true]
    exact eq_comm

/-- White space is no digit, point, sign or letter that starts `inf` or `nan`. -/
theorem isSpace_facts (c : Char) (h : isSpace c = true) :
    c.isDigit = false ∧ c ≠ '.' ∧ c.toLower ≠ 'i' ∧ c.toLower ≠ 'n' ∧ c ≠ '+' ∧ c ≠ '-' := by
  have hc : c = ' ' ∨ ∃ d, d < 5 ∧ c = Char.ofNat (9 + d) := by
    simp only [isSpace, Bool.or_eq_true, decide_eq_true_eq, Bool.and_eq_true] at h
    rcases h with h | ⟨h1, h2⟩
    · exact Or.inl h
    · refine Or.inr ⟨c.toNat - 9, by omega, ?_⟩
      rw [Nat.add_sub_cancel' h1]
      exact (Char.ofNat_toNat c).symm
  rcases hc with rfl | ⟨d, hd, rfl⟩
  · decide
  · revert d
    decide

/-- A character that starts a number after its sign is no white space and no
sign. -/
theorem head_facts (c : Char)
    (h : c.isDigit = true ∨ c = '.' ∨ c.toLower = 'i' ∨ c.toLower = 'n') :
    isSpace c = false ∧ c ≠ '+' ∧ c ≠ '-' := by
  refine ⟨?_, ?_, ?_⟩
  · cases hs : isSpace c with
    | false => rfl
    | true =>
      obtain ⟨h1, h2, h3, h4, _, _⟩ := isSpace_facts c hs
      rcases h with h | h | h | h
      · rw [h1] at h; cases h
      · exact absurd h h2
      · exact absurd h h3
      · exact absurd h h4
  · rintro rfl
    revert h
    decide
  · rintro rfl
    revert h
    decide

/-- What `scanSign` takes is a sign text, and the rest follows it. -/
theorem scanSign_text (cs : List Char) :
    ∃ sg, SignText sg (scanSign cs).1 ∧ cs = sg ++ (scanSign cs).2 := by
  cases cs with
  | nil => exact ⟨[], Or.inl ⟨rfl, rfl⟩, rfl⟩
  | cons c r =>
    by_cases h1 : c = '-'
    · exact ⟨['-'], Or.inr (Or.inr ⟨rfl, by simp [scanSign, h1]⟩), by simp [scanSign, h1]⟩
    · by_cases h2 : c = '+'
      · exact ⟨['+'], Or.inr (Or.inl ⟨rfl, by simp [scanSign, h2]⟩), by simp [scanSign, h2]⟩
      · exact ⟨[], Or.inl ⟨rfl, by simp [scanSign, h1, h2]⟩, by simp [scanSign, h1, h2]⟩

/-- A sign text before a character that is no sign is read as that sign. -/
theorem scanSign_closed (sg : List Char) (neg : Bool) (c : Char) (r : List Char)
    (h : SignText sg neg) (h1 : c ≠ '+') (h2 : c ≠ '-') :
    scanSign (sg ++ c :: r) = (neg, c :: r) := by
  rcases h with ⟨rfl, rfl⟩ | ⟨rfl, rfl⟩ | ⟨rfl, rfl⟩
  · simp [scanSign, h1, h2]
  · simp [scanSign]
  · simp [scanSign]

/-- What `scanExponent` takes is an exponent text with the exponent returned,
and the rest follows it. -/
theorem scanExponent_text (marks cs : List Char) :
    ∃ ep, ExponentText marks ep (scanExponent marks cs).1 ∧
      cs = ep ++ (scanExponent marks cs).2 := by
  cases cs with
  | nil => exact ⟨[], Or.inl ⟨rfl, rfl⟩, rfl⟩
  | cons c r =>
    unfold scanExponent
    by_cases hc : c ∈ marks
    · by_cases hd : ((scanSign r).2.takeWhile Char.isDigit) = []
      · simp only [hc, hd, if_true]
        exact ⟨[], Or.inl ⟨rfl, rfl⟩, rfl⟩
      · simp only [hc, hd, if_true, if_false]
        obtain ⟨sg, hsg, hr⟩ := scanSign_text r
        refine ⟨c :: (sg ++ (scanSign r).2.takeWhile Char.isDigit),
          Or.inr ⟨c, sg, (scanSign r).1, _, hc, hsg, hd,
            fun x hx => List.mem_takeWhile_imp hx, rfl, rfl⟩, ?_⟩
        simp only [List.cons_append, List.append_assoc, List.takeWhile_append_dropWhile]
        rw [← hr]
    · simp only [hc, if_false]
      exact ⟨[], Or.inl ⟨rfl, rfl⟩, rfl⟩

/-- An exponent text alone is read whole, with the exponent it denotes. -/
theorem scanExponent_closed (marks ep : List Char) (x : Int) (h : ExponentText marks ep x) :
    scanExponent marks ep = (x, []) := by
  rcases h with ⟨rfl, rfl⟩ | ⟨m, sg, neg, ds, hm, hsg, hne, hds, rfl, rfl⟩
  · rfl
  · obtain ⟨d, ds1, rfl⟩ := List.exists_cons_of_ne_nil hne
    obtain ⟨_, hmi, hpl, _⟩ := isDigit_facts d (hds d (List.mem_cons_self _ _))
    have hs := scanSign_closed sg neg d ds1 hsg hpl hmi
    have ht : (d :: ds1).takeWhile Char.isDigit = d :: ds1 := by
      have := @List.takeWhile_append_of_pos Char Char.isDigit (d :: ds1) [] hds
      simpa using this
    have hdr : (d :: ds1).dropWhile Char.isDigit = [] := List.dropWhile_eq_nil_iff.mpr hds
    unfold scanExponent
    simp only [hm, if_true, hs, ht, hdr]
    simp

/-- An exponent text is empty or starts with one of its letters. -/
theorem exponent_head (marks ep : List Char) (x : Int) (h : ExponentText marks ep x) :
    ep = [] ∨ ∃ c r, ep = c :: r ∧ c ∈ marks := by
  rcases h with ⟨rfl, _⟩ | ⟨m, sg, neg, ds, hm, _, _, _, rfl, _⟩
  · exact Or.inl rfl
  · exact Or.inr ⟨m, _, rfl, hm⟩

/-- The digits read before and after the point form a mantissa text, and the
rest follows it. -/
theorem mantissa_text (isDig : Char → Bool) (cs : List Char)
    (hne : ¬ (cs.takeWhile isDig = [] ∧ (scanFraction isDig (cs.dropWhile isDig)).1 = [])) :
    ∃ mt, MantissaText isDig mt (cs.takeWhile isDig) (scanFraction isDig (cs.dropWhile isDig)).1 ∧
      cs = mt ++ (scanFraction isDig (cs.dropWhile isDig)).2 := by
  have hcs : cs.takeWhile isDig ++ cs.dropWhile isDig = cs := List.takeWhile_append_dropWhile _ _
  have hip : ∀ c ∈ cs.takeWhile isDig, isDig c = true := fun c hc => List.mem_takeWhile_imp hc
  revert hne hcs
  generalize cs.takeWhile isDig = ip at hip
  generalize cs.dropWhile isDig = d
  intro hne hcs
  cases d with
  | nil =>
    simp only [scanFraction, and_true] at hne ⊢
    exact ⟨ip, ⟨hip, by simp, Or.inl hne, Or.inl ⟨rfl, rfl⟩⟩, by simpa using hcs.symm⟩
  | cons c r =>
    by_cases hc : c = '.'
    · subst hc
      simp only [scanFraction, if_true] at hne ⊢
      refine ⟨ip ++ '.' :: r.takeWhile isDig,
        ⟨hip, fun x hx => List.mem_takeWhile_imp hx, ?_, Or.inr rfl⟩, ?_⟩
      · by_cases h1 : ip = []
        · exact Or.inr (fun h2 => hne ⟨h1, h2⟩)
        · exact Or.inl h1
      · rw [List.append_assoc, List.cons_append, List.takeWhile_append_dropWhile]
        exact hcs.symm
    · simp only [scanFraction, hc, if_false, and_true] at hne ⊢
      exact ⟨ip, ⟨hip, by simp, Or.inl hne, Or.inl ⟨rfl, rfl⟩⟩, hcs.symm⟩

/-- A mantissa text before the end or a character that is no digit and no
point is read whole. -/
theorem mantissa_closed (isDig : Char → Bool) (hpt : isDig '.' = false)
    (mt ip fp tail : List Char) (h : MantissaText isDig mt ip fp)
    (htail : tail = [] ∨ ∃ c r, tail = c :: r ∧ isDig c = false ∧ c ≠ '.') :
    (mt ++ tail).takeWhile isDig = ip ∧
      scanFraction isDig ((mt ++ tail).dropWhile isDig) = (fp, tail) := by
  obtain ⟨hip, hfp, _, hmt⟩ := h
  have htt : tail.takeWhile isDig = [] ∧ tail.dropWhile isDig = tail := by
    rcases htail with rfl | ⟨c, r, rfl, hc, _⟩
    · simp
    · simp [List.takeWhile_cons, List.dropWhile_cons, hc]
  rcases hmt with ⟨rfl, rfl⟩ | rfl
  · rw [List.takeWhile_append_of_pos hip, List.dropWhile_append_of_pos hip, htt.1, htt.2]
    refine ⟨by simp, ?_⟩
    rcases htail with rfl | ⟨c, r, rfl, _, hc⟩
    · rfl
    · simp [scanFraction, hc]
  · rw [List.append_assoc, List.takeWhile_append_of_pos hip, List.dropWhile_append_of_pos hip]
    simp only [List.cons_append, List.takeWhile_cons, List.dropWhile_cons, hpt]
    simp only [Bool.false_eq_true, if_false, List.append_nil, scanFraction, if_true, true_and]
    rw [List.takeWhile_append_of_pos hfp, List.dropWhile_append_of_pos hfp, htt.1, htt.2]
    simp

/-- A mantissa text holds a digit for the scanner, whatever follows it. -/
theorem mantissa_ne_none (isDig : Char → Bool) (hpt : isDig '.' = false)
    (mt ip fp r : List Char) (h : MantissaText isDig mt ip fp) :
    ¬ ((mt ++ r).takeWhile isDig = [] ∧
      (scanFraction isDig ((mt ++ r).dropWhile isDig)).1 = []) := by
  obtain ⟨hip, hfp, hne, hmt⟩ := h
  rintro ⟨h1, h2⟩
  by_cases hi : ip = []
  · subst hi
    have hf : fp ≠ [] := by
      rcases hne with h | h
      · exact absurd rfl h
      · exact h
    rcases hmt with ⟨hfe, _⟩ | rfl
    · exact hf hfe
    · simp only [List.nil_append, List.cons_append, List.dropWhile_cons, hpt,
        Bool.false_eq_true, if_false, scanFraction, if_true] at h2
      rw [List.takeWhile_append_of_pos hfp] at h2
      exact hf (List.append_eq_nil.mp h2).1
  · rcases hmt with ⟨_, rfl⟩ | rfl
    · rw [List.takeWhile_append_of_pos hip] at h1
      exact hi (List.append_eq_nil.mp h1).1
    · rw [List.append_assoc, List.takeWhile_append_of_pos hip] at h1
      exact hi (List.append_eq_nil.mp h1).1

/-- What `scanDecimal` takes is a mantissa text and an exponent text, and the
rest follows them. -/
theorem scanDecimal_text (cs : List Char) (n : Numeral) (rest : List Char)
    (h : scanDecimal cs = some (n, rest)) :
    ∃ mt ip fp ep x, MantissaText Char.isDigit mt ip fp ∧ ExponentText ['e', 'E'] ep x ∧
      cs = mt ++ ep ++ rest ∧ n = .decimal (digitsValue (ip ++ fp)) fp.length x := by
  unfold scanDecimal at h
  split_ifs at h with hne
  obtain ⟨mt, hmt, hcs⟩ := mantissa_text Char.isDigit cs hne
  obtain ⟨ep, hep, hr⟩ :=
    scanExponent_text ['e', 'E'] (scanFraction Char.isDigit (cs.dropWhile Char.isDigit)).2
  simp only [Option.some.injEq, Prod.mk.injEq] at h
  obtain ⟨hn, hrest⟩ := h
  refine ⟨mt, _, _, ep, _, hmt, hep, ?_, hn.symm⟩
  rw [List.append_assoc, ← hrest, ← hr]
  exact hcs

/-- A decimal text alone is read whole, as the number it denotes. -/
theorem scanDecimal_closed (mt ip fp ep : List Char) (x : Int)
    (hm : MantissaText Char.isDigit mt ip fp) (he : ExponentText ['e', 'E'] ep x) :
    scanDecimal (mt ++ ep) = some (.decimal (digitsValue (ip ++ fp)) fp.length x, []) := by
  have htail : ep = [] ∨ ∃ c r, ep = c :: r ∧ Char.isDigit c = false ∧ c ≠ '.' := by
    rcases exponent_head _ _ _ he with h | ⟨c, r, h, hc⟩
    · exact Or.inl h
    · refine Or.inr ⟨c, r, h, ?_⟩
      simp only [List.mem_cons, List.mem_singleton, List.not_mem_nil, or_false] at hc
      rcases hc with rfl | rfl <;> decide
  obtain ⟨h1, h2⟩ := mantissa_closed Char.isDigit (by decide) mt ip fp ep hm htail
  have hne : ¬ (ip = [] ∧ fp = []) := by
    obtain ⟨_, _, hne, _⟩ := hm
    tauto
  unfold scanDecimal
  rw [h1, h2]
  simp only [hne, if_false, scanExponent_closed _ _ _ he]

/-- A decimal text at the start of a text is read as a number. -/
theorem scanDecimal_ne_none (mt ip fp r : List Char)
    (hm : MantissaText Char.isDigit mt ip fp) : scanDecimal (mt ++ r) ≠ none := by
  unfold scanDecimal
  rw [if_neg (mantissa_ne_none Char.isDigit (by decide) mt ip fp r hm)]
  simp

/-- What `scanHex` takes is `0x`, a mantissa text and an exponent text, and the
rest follows them. -/
theorem scanHex_text (cs : List Char) (n : Numeral) (rest : List Char)
    (h : scanHex cs = some (n, rest)) :
    ∃ z mt ip fp ep x, (z = 'x' ∨ z = 'X') ∧ MantissaText isHexDigit mt ip fp ∧
      ExponentText ['p', 'P'] ep x ∧ cs = '0' :: z :: (mt ++ ep) ++ rest ∧
      n = .hex (hexValue (ip ++ fp)) fp.length x := by
  rcases cs with _ | ⟨z0, _ | ⟨z, r⟩⟩
  · simp [scanHex] at h
  · simp [scanHex] at h
  · unfold scanHex at h
    simp only at h
    split_ifs at h with hz hne
    obtain ⟨hz0, hz⟩ := hz
    subst hz0
    obtain ⟨mt, hmt, hcs⟩ := mantissa_text isHexDigit r hne
    obtain ⟨ep, hep, hr⟩ :=
      scanExponent_text ['p', 'P'] (scanFraction isHexDigit (r.dropWhile isHexDigit)).2
    simp only [Option.some.injEq, Prod.mk.injEq] at h
    obtain ⟨hn, hrest⟩ := h
    refine ⟨z, mt, _, _, ep, _, hz, hmt, hep, ?_, hn.symm⟩
    simp only [List.cons_append, List.cons.injEq, true_and]
    rw [List.append_assoc, ← hrest, ← hr]
    exact hcs

/-- A hexadecimal text alone is read whole, as the number it denotes. -/
theorem scanHex_closed (z : Char) (hz : z = 'x' ∨ z = 'X') (mt ip fp ep : List Char) (x : Int)
    (hm : MantissaText isHexDigit mt ip fp) (he : ExponentText ['p', 'P'] ep x) :
    scanHex ('0' :: z :: (mt ++ ep)) = some (.hex (hexValue (ip ++ fp)) fp.length x, []) := by
  have htail : ep = [] ∨ ∃ c r, ep = c :: r ∧ isHexDigit c = false ∧ c ≠ '.' := by
    rcases exponent_head _ _ _ he with h | ⟨c, r, h, hc⟩
    · exact Or.inl h
    · refine Or.inr ⟨c, r, h, ?_⟩
      simp only [List.mem_cons, List.mem_singleton, List.not_mem_nil, or_false] at hc
      rcases hc with rfl | rfl <;> decide
  obtain ⟨h1, h2⟩ := mantissa_closed isHexDigit (by decide) mt ip fp ep hm htail
  have hne : ¬ (ip = [] ∧ fp = []) := by
    obtain ⟨_, _, hne, _⟩ := hm
    tauto
  unfold scanHex
  simp only [hz, and_self, if_true]
  rw [h1, h2]
  simp only [hne, if_false, scanExponent_closed _ _ _ he]

/-- No hexadecimal number is seen in a text without the letter `x`. -/
theorem scanHex_none_of_chars (cs : List Char) (h : ∀ c ∈ cs, c ≠ 'x' ∧ c ≠ 'X') :
    scanHex cs = none := by
  rcases cs with _ | ⟨z0, _ | ⟨z, r⟩⟩
  · simp [scanHex]
  · simp [scanHex]
  · obtain ⟨h1, h2⟩ := h z (by simp)
    exact scanHex_no_x z0 z r h1 h2

/-- A decimal text holds no letter `x`. -/
theorem decimal_text_chars (mt ip fp ep : List Char) (x : Int)
    (hm : MantissaText Char.isDigit mt ip fp) (he : ExponentText ['e', 'E'] ep x) :
    ∀ c ∈ mt ++ ep, c ≠ 'x' ∧ c ≠ 'X' := by
  have hdig : ∀ c : Char, c.isDigit = true → c ≠ 'x' ∧ c ≠ 'X' := fun c hc => by
    obtain ⟨_, _, _, _, h1, h2, _⟩ := isDigit_facts c hc
    exact ⟨h1, h2⟩
  obtain ⟨hip, hfp, _, hmt⟩ := hm
  intro c hc
  rw [List.mem_append] at hc
  rcases hc with hc | hc
  · rcases hmt with ⟨_, rfl⟩ | rfl
    · exact hdig c (hip c hc)
    · simp only [List.mem_append, List.mem_cons] at hc
      rcases hc with hc | rfl | hc
      · exact hdig c (hip c hc)
      · decide
      · exact hdig c (hfp c hc)
  · rcases he with ⟨rfl, _⟩ | ⟨m, sg, neg, ds, hm, hsg, _, hds, rfl, _⟩
    · simp at hc
    · simp only [List.mem_cons, List.mem_append] at hc
      rcases hc with rfl | hc | hc
      · simp only [List.mem_cons, List.mem_singleton, List.not_mem_nil, or_false] at hm
        rcases hm with rfl | rfl <;> decide
      · rcases hsg with ⟨rfl, _⟩ | ⟨rfl, _⟩ | ⟨rfl, _⟩
        · simp at hc
        · simp only [List.mem_singleton] at hc
          subst hc
          decide
        · simp only [List.mem_singleton] at hc
          subst hc
          decide
      · exact hdig c (hds c hc)

/-- A text starts with a word when its first letters, in lower case, are the
word. -/
theorem startsWithWord_iff (w cs : List Char) :
    startsWithWord w cs = true ↔ (cs.take w.length).map Char.toLower = w := by
  induction w generalizing cs with
  | nil => simp [startsWithWord]
  | cons a w ih =>
    cases cs with
    | nil => simp [startsWithWord]
    | cons c cs => simp [startsWithWord, ih]

/-- What `scanNanTail` takes is a tail text, and the rest follows it. -/
theorem scanNanTail_text (cs : List Char) :
    ∃ seq, NanTailText seq ∧ cs = seq ++ scanNanTail cs := by
  cases cs with
  | nil => exact ⟨[], Or.inl rfl, rfl⟩
  | cons c r =>
    by_cases hc : c = '('
    · subst hc
      cases hdw : r.dropWhile (fun c => c.isAlphanum || c = '_') with
      | nil =>
        refine ⟨[], Or.inl rfl, ?_⟩
        simp [scanNanTail, hdw]
      | cons d r1 =>
        by_cases hd : d = ')'
        · subst hd
          refine ⟨'(' :: (r.takeWhile (fun c => c.isAlphanum || c = '_') ++ [')']),
            Or.inr ⟨_, fun x hx => ?_, rfl⟩, ?_⟩
          · have := List.mem_takeWhile_imp hx
            simpa using this
          · have hr := List.takeWhile_append_dropWhile (fun c => c.isAlphanum || c = '_') r
            rw [hdw] at hr
            simp [scanNanTail, hdw, hr]
        · refine ⟨[], Or.inl rfl, ?_⟩
          simp [scanNanTail, hdw, hd]
    · refine ⟨[], Or.inl rfl, ?_⟩
      simp [scanNanTail, hc]

/-- A tail text alone is read whole. -/
theorem scanNanTail_closed (seq : List Char) (h : NanTailText seq) : scanNanTail seq = [] := by
  rcases h with rfl | ⟨cs, hcs, rfl⟩
  · rfl
  · have hp : ∀ c ∈ cs, (fun c : Char => c.isAlphanum || c = '_') c = true := fun c hc => by
      simpa using hcs c hc
    have hdw : (cs ++ [')']).dropWhile (fun c : Char => c.isAlphanum || c = '_') = [')'] := by
      rw [List.dropWhile_append_of_pos hp]
      decide
    simp [scanNanTail, hdw]

/-- What `scanSpecial` takes is one of the words, with its tail after `nan`, and
the rest follows it. -/
theorem scanSpecial_text (cs : List Char) (n : Numeral) (rest : List Char)
    (h : scanSpecial cs = some (n, rest)) : ∃ body, cs = body ++ rest ∧ UnsignedText body n := by
  unfold scanSpecial at h
  split_ifs at h with h8 h3 hn
  · simp only [Option.some.injEq, Prod.mk.injEq] at h
    obtain ⟨rfl, rfl⟩ := h
    exact ⟨cs.take 8, (List.take_append_drop 8 cs).symm,
      Or.inr (Or.inr (Or.inl ⟨Or.inr ((startsWithWord_iff _ cs).mp h8), rfl⟩))⟩
  · simp only [Option.some.injEq, Prod.mk.injEq] at h
    obtain ⟨rfl, rfl⟩ := h
    exact ⟨cs.take 3, (List.take_append_drop 3 cs).symm,
      Or.inr (Or.inr (Or.inl ⟨Or.inl ((startsWithWord_iff _ cs).mp h3), rfl⟩))⟩
  · simp only [Option.some.injEq, Prod.mk.injEq] at h
    obtain ⟨rfl, rfl⟩ := h
    obtain ⟨seq, hseq, hd⟩ := scanNanTail_text (cs.drop 3)
    refine ⟨cs.take 3 ++ seq, ?_,
      Or.inr (Or.inr (Or.inr ⟨cs.take 3, seq, (startsWithWord_iff _ cs).mp hn, hseq, rfl, rfl⟩))⟩
    rw [List.append_assoc, ← hd, List.take_append_drop]

/-- The words `inf` and `infinity` alone are read whole. -/
theorem scanSpecial_inf (body : List Char)
    (h : body.map Char.toLower = ['i', 'n', 'f'] ∨
      body.map Char.toLower = ['i', 'n', 'f', 'i', 'n', 'i', 't', 'y']) :
    scanSpecial body = some (.infinity, []) := by
  rcases h with h | h
  · have hl : body.length = 3 := by
      have := congrArg List.length h
      simpa using this
    have h8 : startsWithWord ['i', 'n', 'f', 'i', 'n', 'i', 't', 'y'] body = false := by
      cases hs : startsWithWord ['i', 'n', 'f', 'i', 'n', 'i', 't', 'y'] body with
      | false => rfl
      | true =>
        have := (startsWithWord_iff _ body).mp hs
        rw [List.take_of_length_le (by rw [hl]; decide), h] at this
        exact absurd this (by decide)
    have h3 : startsWithWord ['i', 'n', 'f'] body = true := by
      rw [startsWithWord_iff, List.take_of_length_le (by rw [hl]; decide), h]
    unfold scanSpecial
    simp [h8, h3, List.drop_of_length_le (le_of_eq hl)]
  · have hl : body.length = 8 := by
      have := congrArg List.length h
      simpa using this
    have h8 : startsWithWord ['i', 'n', 'f', 'i', 'n', 'i', 't', 'y'] body = true := by
      rw [startsWithWord_iff, List.take_of_length_le (by rw [hl]; decide), h]
    unfold scanSpecial
    simp [h8, List.drop_of_length_le (le_of_eq hl)]

/-- The word `nan` at the start of a text is read with the tail that follows
it. -/
theorem scanSpecial_nan (w seq : List Char) (h : w.map Char.toLower = ['n', 'a', 'n']) :
    scanSpecial (w ++ seq) = some (.notANumber, scanNanTail seq) := by
  rcases w with _ | ⟨a, _ | ⟨b, _ | ⟨c, _ | ⟨d, r⟩⟩⟩⟩ <;> simp at h
  obtain ⟨ha, hb, hc⟩ := h
  simp [scanSpecial, startsWithWord, ha, hb, hc]

/-- The words `inf` and `infinity` at the start of a text are read as a
number. -/
theorem scanSpecial_inf_ne_none (body r : List Char)
    (h : body.map Char.toLower = ['i', 'n', 'f'] ∨
      body.map Char.toLower = ['i', 'n', 'f', 'i', 'n', 'i', 't', 'y']) :
    scanSpecial (body ++ r) ≠ none := by
  have h3 : startsWithWord ['i', 'n', 'f'] (body ++ r) = true := by
    rw [startsWithWord_iff]
    rcases h with h | h
    · rcases body with _ | ⟨a, _ | ⟨b, _ | ⟨c, _ | ⟨d, r1⟩⟩⟩⟩ <;> simp at h
      simp [h]
    · rcases body with _ | ⟨a, _ | ⟨b, _ | ⟨c, r1⟩⟩⟩ <;> simp at h
      simp [h]
  unfold scanSpecial
  split_ifs <;> simp_all

/-- No word is seen at a character that is neither an `i` nor an `n`. -/
theorem scanSpecial_none_of_head (c : Char) (r : List Char) (hi : c.toLower ≠ 'i')
    (hn : c.toLower ≠ 'n') : scanSpecial (c :: r) = none := by
  simp [scanSpecial, startsWithWord, hi, hn]

/-- A mantissa text starts with a digit or the point. -/
theorem mantissa_head (isDig : Char → Bool) (mt ip fp : List Char)
    (h : MantissaText isDig mt ip fp) : ∃ c r, mt = c :: r ∧ (isDig c = true ∨ c = '.') := by
  obtain ⟨hip, _, hne, hmt⟩ := h
  rcases ip with _ | ⟨c, ip1⟩
  · rcases hmt with ⟨hf, _⟩ | rfl
    · rcases hne with h | h
      · exact absurd rfl h
      · exact absurd hf h
    · exact ⟨'.', fp, rfl, Or.inr rfl⟩
  · have hc := hip c (List.mem_cons_self _ _)
    rcases hmt with ⟨_, rfl⟩ | rfl
    · exact ⟨c, ip1, rfl, Or.inl hc⟩
    · exact ⟨c, _, rfl, Or.inl hc⟩

/-- The text of a number starts with a digit, the point, or the first letter of
`inf` or `nan`. -/
theorem unsigned_head (body : List Char) (n : Numeral) (h : UnsignedText body n) :
    ∃ c r, body = c :: r ∧
      (c.isDigit = true ∨ c = '.' ∨ c.toLower = 'i' ∨ c.toLower = 'n') := by
  rcases h with ⟨mt, ip, fp, ep, x, hm, _, rfl, _⟩ | ⟨z, mt, ip, fp, ep, x, _, _, _, rfl, _⟩ |
    ⟨h, _⟩ | ⟨w, seq, hw, _, rfl, _⟩
  · obtain ⟨c, r, rfl, hc⟩ := mantissa_head _ _ _ _ hm
    exact ⟨c, _, rfl, by tauto⟩
  · exact ⟨'0', _, rfl, Or.inl (by decide)⟩
  · rcases h with h | h
    · rcases body with _ | ⟨c, r⟩ <;> simp at h
      exact ⟨c, r, rfl, Or.inr (Or.inr (Or.inl h.1))⟩
    · rcases body with _ | ⟨c, r⟩ <;> simp at h
      exact ⟨c, r, rfl, Or.inr (Or.inr (Or.inl h.1))⟩
  · rcases w with _ | ⟨c, r⟩ <;> simp at hw
    exact ⟨c, _, rfl, Or.inr (Or.inr (Or.inr hw.1))⟩

/-- The text of a number alone is read whole by the first of the three
scanners that takes it, as the number it denotes. -/
theorem unsigned_closed (body : List Char) (n : Numeral) (h : UnsignedText body n) :
    scanSpecial body = some (n, []) ∨
      (scanSpecial body = none ∧ scanHex body = some (n, [])) ∨
      (scanSpecial body = none ∧ scanHex body = none ∧ scanDecimal body = some (n, [])) := by
  rcases h with ⟨mt, ip, fp, ep, x, hm, he, rfl, rfl⟩ |
    ⟨z, mt, ip, fp, ep, x, hz, hm, he, rfl, rfl⟩ | ⟨h, rfl⟩ | ⟨w, seq, hw, hseq, rfl, rfl⟩
  · refine Or.inr (Or.inr ⟨?_, scanHex_none_of_chars _ (decimal_text_chars mt ip fp ep x hm he),
      scanDecimal_closed mt ip fp ep x hm he⟩)
    obtain ⟨c, r, rfl, hc⟩ := mantissa_head _ _ _ _ hm
    rcases hc with hc | rfl
    · exact scanSpecial_digit c _ hc
    · exact scanSpecial_none_of_head _ _ (by decide) (by decide)
  · exact Or.inr (Or.inl ⟨scanSpecial_digit '0' _ (by decide),
      scanHex_closed z hz mt ip fp ep x hm he⟩)
  · exact Or.inl (scanSpecial_inf body h)
  · refine Or.inl ?_
    rw [scanSpecial_nan w seq hw, scanNanTail_closed seq hseq]

/-- The text of a number at the start of a text is taken by one of the three
scanners. -/
theorem unsigned_ne_none (body r : List Char) (n : Numeral) (h : UnsignedText body n) :
    ¬ (scanSpecial (body ++ r) = none ∧ scanHex (body ++ r) = none ∧
      scanDecimal (body ++ r) = none) := by
  rintro ⟨h1, _, h3⟩
  rcases h with ⟨mt, ip, fp, ep, x, hm, he, rfl, rfl⟩ |
    ⟨z, mt, ip, fp, ep, x, hz, hm, he, rfl, rfl⟩ | ⟨h, rfl⟩ | ⟨w, seq, hw, hseq, rfl, rfl⟩
  · rw [List.append_assoc] at h3
    exact scanDecimal_ne_none mt ip fp _ hm h3
  · simp [scanDecimal, List.takeWhile_cons] at h3
  · exact scanSpecial_inf_ne_none body r h h1
  · rw [List.append_assoc, scanSpecial_nan w _ hw] at h1
    cases h1

/-- Scanning starts after the leading white space. -/
theorem scanNumeral_dropSpace (cs : List Char) :
    scanNumeral (cs.dropWhile isSpace) = scanNumeral cs := by
  unfold scanNumeral
  rw [List.dropWhile_idempotent]

/-- What `scanNumeral` takes: after white space, the text of a number with the
sign and the number returned, and the rest follows it. -/
theorem scanNumeral_text (cs : List Char) (neg : Bool) (n : Numeral) (rest : List Char)
    (h : scanNumeral cs = some (neg, n, rest)) :
    ∃ ws p, cs = ws ++ p ++ rest ∧ (∀ c ∈ ws, isSpace c = true) ∧ NumeralText p neg n := by
  obtain ⟨sg, hsg, hX⟩ := scanSign_text (cs.dropWhile isSpace)
  have hcs : cs = cs.takeWhile isSpace ++ cs.dropWhile isSpace :=
    (List.takeWhile_append_dropWhile _ _).symm
  have key : ∃ body, (scanSign (cs.dropWhile isSpace)).2 = body ++ rest ∧
      UnsignedText body n ∧ (scanSign (cs.dropWhile isSpace)).1 = neg := by
    unfold scanNumeral at h
    cases hsp : scanSpecial (scanSign (cs.dropWhile isSpace)).2 with
    | some r =>
      obtain ⟨n1, rest1⟩ := r
      rw [hsp] at h
      simp only [Option.some.injEq, Prod.mk.injEq] at h
      obtain ⟨hneg, rfl, rfl⟩ := h
      obtain ⟨body, hb, ht⟩ := scanSpecial_text _ _ _ hsp
      exact ⟨body, hb, ht, hneg⟩
    | none =>
      rw [hsp] at h
      cases hhx : scanHex (scanSign (cs.dropWhile isSpace)).2 with
      | some r =>
        obtain ⟨n1, rest1⟩ := r
        rw [hhx] at h
        simp only [Option.some.injEq, Prod.mk.injEq] at h
        obtain ⟨hneg, rfl, rfl⟩ := h
        obtain ⟨z, mt, ip, fp, ep, x, hz, hm, he, hb, hn⟩ := scanHex_text _ _ _ hhx
        exact ⟨_, hb, Or.inr (Or.inl ⟨z, mt, ip, fp, ep, x, hz, hm, he, rfl, hn⟩), hneg⟩
      | none =>
        rw [hhx] at h
        cases hdc : scanDecimal (scanSign (cs.dropWhile isSpace)).2 with
        | some r =>
          obtain ⟨n1, rest1⟩ := r
          rw [hdc] at h
          simp only [Option.some.injEq, Prod.mk.injEq] at h
          obtain ⟨hneg, rfl, rfl⟩ := h
          obtain ⟨mt, ip, fp, ep, x, hm, he, hb, hn⟩ := scanDecimal_text _ _ _ hdc
          exact ⟨_, hb, Or.inl ⟨mt, ip, fp, ep, x, hm, he, rfl, hn⟩, hneg⟩
        | none =>
          rw [hdc] at h
          simp at h
  obtain ⟨body, hb, ht, hneg⟩ := key
  refine ⟨cs.takeWhile isSpace, sg ++ body, ?_, fun c hc => List.mem_takeWhile_imp hc,
    sg, body, hneg ▸ hsg, rfl, ht⟩
  rw [List.append_assoc, List.append_assoc, ← hb, ← hX]
  exact hcs

/-- The text of a signed number starts with a character that is no white
space. -/
theorem numeralText_head (p : List Char) (neg : Bool) (n : Numeral) (h : NumeralText p neg n) :
    ∃ c r, p = c :: r ∧ isSpace c = false := by
  obtain ⟨sg, body, hsg, rfl, hb⟩ := h
  obtain ⟨c, r, rfl, hc⟩ := unsigned_head body n hb
  rcases hsg with ⟨rfl, _⟩ | ⟨rfl, _⟩ | ⟨rfl, _⟩
  · exact ⟨c, r, rfl, (head_facts c hc).1⟩
  · exact ⟨'+', _, rfl, by decide⟩
  · exact ⟨'-', _, rfl, by decide⟩

/-- How `scanNumeral` starts on the text of a signed number: no white space is
dropped, and the sign is read. -/
theorem scanNumeral_start (sg body r : List Char) (neg : Bool) (n : Numeral)
    (hsg : SignText sg neg) (hb : UnsignedText body n) :
    scanSign ((sg ++ body ++ r).dropWhile isSpace) = (neg, body ++ r) := by
  obtain ⟨c, r1, hc, hsp⟩ := numeralText_head (sg ++ body) neg n ⟨sg, body, hsg, rfl, hb⟩
  have hd : (sg ++ body ++ r).dropWhile isSpace = sg ++ body ++ r := by
    rw [hc]
    simp [List.dropWhile_cons, hsp]
  obtain ⟨b, r2, rfl, hbh⟩ := unsigned_head body n hb
  obtain ⟨_, h1, h2⟩ := head_facts b hbh
  rw [hd, List.append_assoc]
  exact scanSign_closed sg neg b (r2 ++ r) hsg h1 h2

/-- The text of a signed number alone is read whole, with its sign and as the
number it denotes. -/
theorem scanNumeral_closed (p : List Char) (neg : Bool) (n : Numeral)
    (h : NumeralText p neg n) : scanNumeral p = some (neg, n, []) := by
  obtain ⟨sg, body, hsg, rfl, hb⟩ := h
  have hs := scanNumeral_start sg body [] neg n hsg hb
  simp only [List.append_nil] at hs
  unfold scanNumeral
  rw [hs]
  rcases unsigned_closed body n hb with h1 | ⟨h1, h2⟩ | ⟨h1, h2, h3⟩
  · simp only [h1]
  · simp only [h1, h2]
  · simp only [h1, h2, h3]

/-- A text that starts with the text of a signed number is read as a number. -/
theorem scanNumeral_ne_none (p r : List Char) (neg : Bool) (n : Numeral)
    (h : NumeralText p neg n) : scanNumeral (p ++ r) ≠ none := by
  obtain ⟨sg, body, hsg, rfl, hb⟩ := h
  have hs := scanNumeral_start sg body r neg n hsg hb
  have hno := unsigned_ne_none body r n hb
  unfold scanNumeral
  rw [hs]
  cases h1 : scanSpecial (body ++ r) with
  | some v => simp
  | none =>
    cases h2 : scanHex (body ++ r) with
    | some v => simp
    | none =>
      cases h3 : scanDecimal (body ++ r) with
      | some v => simp
      | none => exact absurd ⟨h1, h2, h3⟩ hno

/-- The texts that `scanNumeral` reads a number from are those that start,
after white space, with the text of a signed number. -/
theorem startsWithNumeral_iff (cs : List Char) :
    StartsWithNumeral cs ↔ scanNumeral cs ≠ none := by
  constructor
  · rintro ⟨p, rest, neg, n, hcs, hp⟩
    rw [← scanNumeral_dropSpace, hcs]
    exact scanNumeral_ne_none p rest neg n hp
  · intro h
    cases hs : scanNumeral cs with
    | none => exact absurd hs h
    | some v =>
      obtain ⟨neg, n, rest⟩ := v
      obtain ⟨ws, p, hcs, hws, hp⟩ := scanNumeral_text cs neg n rest hs
      obtain ⟨c, r, hc, hsp⟩ := numeralText_head p neg n hp
      refine ⟨p, rest, neg, n, ?_, hp⟩
      rw [hcs, List.append_assoc, List.dropWhile_append_of_pos hws, hc]
      simp [List.dropWhile_cons, hsp]

/-- Leading white space is skipped. -/
theorem scanNumeral_spaces (ws cs : List Char) (h : ∀ c ∈ ws, isSpace c = true) :
    scanNumeral (ws ++ cs) = scanNumeral cs := by
  unfold scanNumeral
  rw [List.dropWhile_append_of_pos h]

/-- No number is read from a text that cannot start one. -/
theorem scanNumeral_none (cs : List Char) (h : canStartNumeral cs = false) :
    scanNumeral cs = none := by
  unfold canStartNumeral at h
  unfold scanNumeral
  cases hd : cs.dropWhile isSpace with
  | nil => simp [scanSign, scanSpecial, startsWithWord, scanHex, scanDecimal, scanFraction]
  | cons c r =>
    rw [hd] at h
    simp only [Bool.or_eq_false_iff, decide_eq_false_iff_not] at h
    obtain ⟨⟨⟨⟨⟨hdig, hpt⟩, hplus⟩, hminus⟩, hi⟩, hn⟩ := h
    have hsign : scanSign (c :: r) = (false, c :: r) := by simp [scanSign, hminus, hplus]
    have hspec : scanSpecial (c :: r) = none := by simp [scanSpecial, startsWithWord, hi, hn]
    have hzero : c ≠ '0' := by
      rintro rfl
      exact absurd hdig (by decide)
    have hhex : scanHex (c :: r) = none := by
      cases r with
      | nil => simp [scanHex]
      | cons x r1 => simp [scanHex, hzero]
    have hdec : scanDecimal (c :: r) = none := by
      simp [scanDecimal, List.takeWhile_cons, List.dropWhile_cons, hdig, scanFraction, hpt]
    rw [hsign]
    simp only [hspec, hhex, hdec]

/-- The text `to_string` prints for a finite value. -/
theorem to_string_data (q : ℚ) :
    (to_string (.finite q)).data = printFixed (decide (q < 0)) |q| :=
  rfl

/-- What `stoFloat` converts when it reads a text that `printf("%f")` printed:
the magnitude rounded to six decimal places, with the sign printed. -/
theorem stoFloat_printFixed (F : FloatFormat) (neg : Bool) (a : ℚ) :
    stoFloat F (String.mk (printFixed neg a))
      = convertSigned F neg
          (((roundHalfEven (a * 10 ^ 6)).toNat : ℚ) * 10 ^ ((0 : ℤ) - (6 : ℕ))) := by
  unfold stoFloat printFixed
  rw [scanNumeral_point _ _ _ (natDigits_isDigit _) (fracDigits_isDigit _ _)
    (natDigits_ne_nil _)]
  simp only [fracDigits_length, digitsValue_append, digitsValue_natDigits,
    digitsValue_fracDigits, Nat.mod_mod, Nat.div_add_mod']

/-- What `stoFloat` converts when it reads the text printed for a finite value:
the value rounded to six decimal places. -/
theorem stoFloat_to_string (F : FloatFormat) (q : ℚ) :
    stoFloat F (to_string (.finite q))
      = convertSigned F (decide (q < 0))
          (((roundHalfEven (|q| * 10 ^ 6)).toNat : ℚ) * 10 ^ ((0 : ℤ) - (6 : ℕ))) :=
  stoFloat_printFixed F _ _

/-- A value with at most six decimal places is printed exactly: what is read
back from the text is the value. -/
theorem printed_value (q : ℚ) (n : ℤ) (hn : q * 10 ^ 6 = n) :
    (if decide (q < 0) = true then -1 else 1) *
        (((roundHalfEven (|q| * 10 ^ 6)).toNat : ℚ) * 10 ^ ((0 : ℤ) - (6 : ℕ))) = q := by
  have habs : |q| * 10 ^ 6 = ((|n| : ℤ) : ℚ) := by
    rw [Int.cast_abs, ← hn, abs_mul]
    simp
  rw [habs, roundHalfEven_intCast]
  have hnat : ((|n|.toNat : ℕ) : ℚ) = ((|n| : ℤ) : ℚ) := by
    have : ((|n|.toNat : ℕ) : ℤ) = |n| := Int.toNat_of_nonneg (abs_nonneg n)
    exact_mod_cast congrArg (fun z : ℤ => (z : ℚ)) this
  rw [hnat, ← habs]
  have h6 : (10 : ℚ) ^ ((0 : ℤ) - (6 : ℕ)) = 1 / 10 ^ 6 := by norm_num
  rw [h6]
  simp only [decide_eq_true_eq]
  split_ifs with hq
  · rw [abs_of_neg hq]; field_simp
  · rw [abs_of_nonneg (not_lt.mp hq)]; field_simp

/-- A finite value of the format with at most six decimal places comes back
from its printed text. -/
theorem stoFloat_to_string_exact (F : FloatFormat) (q : ℚ) (hp : (q * 10 ^ 6).den = 1)
    (hv : F.convert q = .ok q) : stoFloat F (to_string (.finite q)) = .ok (.finite q) := by
  have hn : q * 10 ^ 6 = ((q * 10 ^ 6).num : ℚ) := (Rat.den_eq_one_iff _).mp hp |>.symm
  rw [stoFloat_to_string]
  unfold convertSigned
  rw [printed_value q _ hn, hv]
  by_cases h0 : q = 0
  · subst h0
    simp
  · simp [h0]

/-- What `stoFloat` returns depends on the sign and the number read alone. -/
theorem stoFloat_congr (F : FloatFormat) (a b : String) (neg : Bool) (n : Numeral)
    (r1 r2 : List Char) (ha : scanNumeral a.data = some (neg, n, r1))
    (hb : scanNumeral b.data = some (neg, n, r2)) : stoFloat F a = stoFloat F b := by
  unfold stoFloat
  rw [ha, hb]

/-- The only error of `convertSigned` is the range error. -/
theorem convertSigned_error (F : FloatFormat) (neg : Bool) (a : ℚ) (e : Thrown)
    (h : convertSigned F neg a = .error e) : e = .out_of_range := by
  unfold convertSigned at h
  rcases convert_cases F ((if neg then -1 else 1) * a) with hc | hc
  · rw [hc] at h
    simp at h
  · rw [hc] at h
    simp only [Except.error.injEq] at h
    exact h.symm

/-- The error `std::invalid_argument` comes when no number is read, and then
alone. -/
theorem stoFloat_invalid_iff (F : FloatFormat) (str : String) :
    stoFloat F str = .error invalidArgument ↔ scanNumeral str.data = none := by
  have hne : invalidArgument ≠ Thrown.out_of_range := by
    unfold invalidArgument
    simp
  constructor
  · intro h
    cases hs : scanNumeral str.data with
    | none => rfl
    | some v =>
      exfalso
      obtain ⟨neg, n, rest⟩ := v
      unfold stoFloat at h
      rw [hs] at h
      cases n with
      | infinity => simp at h
      | notANumber => simp at h
      | decimal m k x => exact hne (convertSigned_error F neg _ _ h)
      | hex m k x => exact hne (convertSigned_error F neg _ _ h)
  · intro h
    unfold stoFloat
    rw [h]

/-- The errors `stoFloat` gives when a number is read: the range error alone,
for the exact values out of the range of the format. -/
theorem stoFloat_error_iff (F : FloatFormat) (hprec : 1 ≤ F.prec) (hexp : F.emin ≤ F.emax)
    (str : String) (neg : Bool) (n : Numeral) (rest : List Char)
    (hs : scanNumeral str.data = some (neg, n, rest)) (e : Thrown) :
    stoFloat F str = .error e ↔ e = .out_of_range ∧ ∃ v, n.value = some v ∧ F.OutOfRange v := by
  unfold stoFloat
  rw [hs]
  cases n with
  | infinity => simp [Numeral.value]
  | notANumber => simp [Numeral.value]
  | decimal m k x =>
    simp only [Numeral.value, Option.some.injEq, exists_eq_left']
    exact convertSigned_error_iff F hprec hexp neg _ e
  | hex m k x =>
    simp only [Numeral.value, Option.some.injEq, exists_eq_left']
    exact convertSigned_error_iff F hprec hexp neg _ e

/-- The exact values out of the range of `float`. -/
theorem binary32_outOfRange (v : ℚ) :
    binary32.OutOfRange v ↔
      (2 : ℚ) ^ 128 - 2 ^ 103 ≤ |v| ∨
        (v ≠ 0 ∧ |v| < (2 : ℚ) ^ (-126 : ℤ) - 2 ^ (-151 : ℤ) ∧
          ¬ ∃ k : ℤ, binary32.kept v = k * 2 ^ (-149 : ℤ)) := by
  have e1 : binary32.emax + 1 = ((128 : ℕ) : ℤ) := by decide
  have e2 : binary32.emax - (binary32.prec : ℤ) = ((103 : ℕ) : ℤ) := by decide
  have e3 : binary32.emin - (binary32.prec : ℤ) - 1 = -151 := by decide
  have e4 : binary32.emin - (binary32.prec : ℤ) + 1 = -149 := by decide
  have e5 : binary32.emin = -126 := by decide
  unfold FloatFormat.OutOfRange
  rw [e1, e2, e3, e4, e5, zpow_natCast, zpow_natCast]

/-- The exact values out of the range of `double`. -/
theorem binary64_outOfRange (v : ℚ) :
    binary64.OutOfRange v ↔
      (2 : ℚ) ^ 1024 - 2 ^ 970 ≤ |v| ∨
        (v ≠ 0 ∧ |v| < (2 : ℚ) ^ (-1022 : ℤ) - 2 ^ (-1076 : ℤ) ∧
          ¬ ∃ k : ℤ, binary64.kept v = k * 2 ^ (-1074 : ℤ)) := by
  have e1 : binary64.emax + 1 = ((1024 : ℕ) : ℤ) := by decide
  have e2 : binary64.emax - (binary64.prec : ℤ) = ((970 : ℕ) : ℤ) := by decide
  have e3 : binary64.emin - (binary64.prec : ℤ) - 1 = -1076 := by decide
  have e4 : binary64.emin - (binary64.prec : ℤ) + 1 = -1074 := by decide
  have e5 : binary64.emin = -1022 := by decide
  unfold FloatFormat.OutOfRange
  rw [e1, e2, e3, e4, e5, zpow_natCast, zpow_natCast]

/-- The bit glibc loses from `0x1.000001p-127`, a number of 25 significant bits
below the least normal `float`: what is kept is `2 ^ (-127)`. -/
theorem kept_example :
    binary32.kept (((16777217 : ℕ) : ℚ) * 2 ^ ((-127 : ℤ) - 4 * ((6 : ℕ) : ℤ)))
      = 2 ^ (-127 : ℤ) := by
  have hv : ((16777217 : ℕ) : ℚ) * 2 ^ ((-127 : ℤ) - 4 * ((6 : ℕ) : ℤ))
      = 16777217 / 2 ^ 151 := by norm_num
  rw [hv]
  have hpos : (0 : ℚ) < 16777217 / 2 ^ 151 := by positivity
  have habs : |(16777217 : ℚ) / 2 ^ 151| = 16777217 / 2 ^ 151 := abs_of_pos hpos
  have hlog : Int.log 2 ((16777217 : ℚ) / 2 ^ 151) = -127 := by
    apply le_antisymm
    · have h1 : Int.log 2 ((16777217 : ℚ) / 2 ^ 151) < -126 :=
        (Int.lt_zpow_iff_log_lt (by norm_num) hpos).mp (by norm_num)
      omega
    · exact (Int.zpow_le_iff_le_log (by norm_num) hpos).mp (by norm_num)
  have hdiv : (16777217 : ℚ) / 2 ^ 151 / 2 ^ ((-127 : ℤ) - ((24 : ℕ) : ℤ)) = ((16777217 : ℤ) : ℚ) := by
    norm_num
  have hlost : binary32.lostBit (16777217 / 2 ^ 151) = 2 ^ ((-127 : ℤ) - ((24 : ℕ) : ℤ)) := by
    unfold FloatFormat.lostBit
    rw [habs, hlog]
    have hp : binary32.prec = 24 := rfl
    have hm : binary32.emin = -126 := rfl
    rw [hp, hm, hdiv, if_pos]
    refine ⟨ne_of_gt hpos, by norm_num, ?_, ?_⟩
    · exact Rat.den_intCast _
    · rw [Rat.num_intCast]
      norm_num
  unfold FloatFormat.kept
  rw [if_neg (not_lt.mpr (le_of_lt hpos)), hlost]
  norm_num

/-- Without a minus sign the number converted is returned. -/
theorem convertSigned_plus (F : FloatFormat) (a r : ℚ) (h : F.convert a = .ok r) :
    convertSigned F false a = .ok (.finite r) := by
  unfold convertSigned
  simp only [Bool.false_eq_true, if_false, one_mul, h, false_and]

/-- The number `recvFloat32` returns for `0x1.000001p-127`, as glibc gives it:
the last of the 25 bits is lost and `2 ^ (-127)` is returned without an error,
although the text stands for a number that is no `float`. -/
theorem stoFloat_lost_bit_example :
    recvFloat32 "0x1.000001p-127" = .ok (.finite (2 ^ (-127 : ℤ))) := by
  have hn : scanNumeral "0x1.000001p-127".data = some (false, .hex 16777217 6 (-127), []) := by
    decide!
  have e4 : binary32.emin - (binary32.prec : ℤ) + 1 = -149 := by decide
  have hmult : ∃ k : ℤ, (2 : ℚ) ^ (-127 : ℤ) = k * 2 ^ (binary32.emin - (binary32.prec : ℤ) + 1) := by
    refine ⟨4194304, ?_⟩
    rw [e4]
    norm_num
  have hsmall : |(2 : ℚ) ^ (-127 : ℤ)| < 2 ^ binary32.emin := by
    have e5 : binary32.emin = -126 := rfl
    rw [e5, abs_of_pos (by positivity)]
    norm_num
  have hround : binary32.round (2 ^ (-127 : ℤ)) = 2 ^ (-127 : ℤ) :=
    (round_eq_self_iff binary32 _ hsmall).mpr hmult
  have hc : binary32.convert (((16777217 : ℕ) : ℚ) * 2 ^ ((-127 : ℤ) - 4 * ((6 : ℕ) : ℤ)))
      = .ok (2 ^ (-127 : ℤ)) := by
    rcases convert_cases binary32
      (((16777217 : ℕ) : ℚ) * 2 ^ ((-127 : ℤ) - 4 * ((6 : ℕ) : ℤ))) with h | h
    · rw [h, kept_example, hround]
    · exfalso
      rcases (convert_error_iff binary32 (by decide) (by decide) _).mp h with ho | ⟨_, _, hk⟩
      · have e1 : binary32.emax + 1 = ((128 : ℕ) : ℤ) := by decide
        have e2 : binary32.emax - (binary32.prec : ℤ) = ((103 : ℕ) : ℤ) := by decide
        rw [e1, e2, zpow_natCast, zpow_natCast, abs_of_pos (by positivity)] at ho
        norm_num at ho
      · rw [kept_example] at hk
        exact hk hmult
  have hs : stoFloat binary32 "0x1.000001p-127"
      = convertSigned binary32 false (((16777217 : ℕ) : ℚ) * 2 ^ ((-127 : ℤ) - 4 * ((6 : ℕ) : ℤ))) := by
    unfold stoFloat
    rw [hn]
  exact hs.trans (convertSigned_plus binary32 _ _ hc)

end FloatLemmas

/-! ## Floating-point numbers on the wire: round trip and errors -/

section FloatClaims

/-- C19 fails on the code: the `float` and the `double` next above one are not
returned by `recvFloat32` and `recvFloat64` from what `sendFloat32` and
`sendFloat64` wrote.  The text written keeps six decimal places, `1.000000`, and
the number read back is one. -/
theorem float_round_trip_loses_digits :
    binary32.IsValue (.finite (8388609 / 8388608)) ∧
      sendFloat32 (.finite (8388609 / 8388608)) = "1.000000" ∧
      recvFloat32 (sendFloat32 (.finite (8388609 / 8388608))) = .ok (.finite 1) ∧
      recvFloat32 (sendFloat32 (.finite (8388609 / 8388608)))
        ≠ .ok (.finite (8388609 / 8388608)) ∧
      binary64.IsValue (.finite (4503599627370497 / 4503599627370496)) ∧
      sendFloat64 (.finite (4503599627370497 / 4503599627370496)) = "1.000000" ∧
      recvFloat64 (sendFloat64 (.finite (4503599627370497 / 4503599627370496)))
        = .ok (.finite 1) ∧
      recvFloat64 (sendFloat64 (.finite (4503599627370497 / 4503599627370496)))
        ≠ .ok (.finite (4503599627370497 / 4503599627370496)) := by
  refine ⟨?_, ?_, ?_, ?_, ?_, ?_, ?_, ?_⟩
  · show binary32.convert _ = _
    decide!
  · decide!
  · decide!
  · decide!
  · show binary64.convert _ = _
    decide!
  · decide!
  · decide!
  · decide!

/-- The values that do come back: a value of the format that `printf("%f")`
prints in full (a finite number that is a whole number of millionths, a zero,
an infinity, a NaN) is returned by `recvFloat32` as `sendFloat32` took it, and by
`recvFloat64` as `sendFloat64` took it, the sign of a zero and of a NaN
included. -/
theorem recvFloat_sendFloat_six_places (v : FloatVal) (h : v.PrintsExactly) :
    (binary32.IsValue v → recvFloat32 (sendFloat32 v) = .ok v) ∧
      (binary64.IsValue v → recvFloat64 (sendFloat64 v) = .ok v) := by
  cases v with
  | finite q =>
    exact ⟨fun hv => stoFloat_to_string_exact binary32 q h hv,
      fun hv => stoFloat_to_string_exact binary64 q h hv⟩
  | negZero => exact ⟨fun _ => by decide!, fun _ => by decide!⟩
  | inf b =>
    cases b
    · exact ⟨fun _ => by decide!, fun _ => by decide!⟩
    · exact ⟨fun _ => by decide!, fun _ => by decide!⟩
  | nan b =>
    cases b
    · exact ⟨fun _ => by decide!, fun _ => by decide!⟩
    · exact ⟨fun _ => by decide!, fun _ => by decide!⟩

/-- The round trip at the values `-5/32` and `5/2`, at the negative zero and at
a NaN with its sign bit set. -/
theorem recvFloat_sendFloat_six_places_witness :
    recvFloat32 (sendFloat32 (.finite (-5 / 32))) = .ok (.finite (-5 / 32)) ∧
      recvFloat64 (sendFloat64 (.finite (5 / 2))) = .ok (.finite (5 / 2)) ∧
      sendFloat32 .negZero = "-0.000000" ∧
      recvFloat32 (sendFloat32 .negZero) = .ok .negZero ∧
      sendFloat64 (.nan true) = "-nan" ∧
      recvFloat64 (sendFloat64 (.nan true)) = .ok (.nan true) :=
  ⟨(recvFloat_sendFloat_six_places (.finite (-5 / 32))
      (by show (_ : ℚ).den = 1; decide!)).1 (by show binary32.convert _ = _; decide!),
    (recvFloat_sendFloat_six_places (.finite (5 / 2))
      (by show (_ : ℚ).den = 1; decide!)).2 (by show binary64.convert _ = _; decide!),
    by decide!,
    (recvFloat_sendFloat_six_places .negZero trivial).1 trivial,
    by decide!,
    (recvFloat_sendFloat_six_places (.nan true) trivial).2 trivial⟩

/-- C20 fails on the code: `recvFloat32` and `recvFloat64` return the number
`1.5` for the text `1.5abc`, a numeral followed by other characters, and for
the text ` 1.5`, a numeral after a space; and they return a number for texts
that are no decimal numeral at all, sixteen for `0x10` and the infinity for
`inf`. -/
theorem recvFloat_accepts_surrounded_numeral :
    recvFloat32 "1.5abc" = .ok (.finite (3 / 2)) ∧
      recvFloat32 " 1.5" = .ok (.finite (3 / 2)) ∧
      recvFloat64 "1.5abc" = .ok (.finite (3 / 2)) ∧
      recvFloat64 " 1.5" = .ok (.finite (3 / 2)) ∧
      recvFloat32 "0x10" = .ok (.finite 16) ∧
      recvFloat64 "0x10" = .ok (.finite 16) ∧
      recvFloat32 "inf" = .ok (.inf false) ∧
      recvFloat64 "inf" = .ok (.inf false) := by
  refine ⟨?_, ?_, ?_, ?_, ?_, ?_, ?_, ?_⟩ <;> decide!

/-- C20, as the code has it.  `recvFloat32` and `recvFloat64` fail with
`std::invalid_argument` exactly when the text does not start, after its leading
white space, with the text of a number (an optional sign, then a decimal
number, a hexadecimal number after `0x`, `inf`, `infinity` or `nan`).  When it
does, the text is white space `ws`, the text `p` of a number and a rest: what is
returned for the whole text is what is returned for `p` alone, so the white
space and the rest are ignored; the only error is `std::out_of_range`; and that
error comes exactly when the exact value `v` of the number is out of range: of
magnitude `2 ^ 128 - 2 ^ 103` or more for `recvFloat32` (`2 ^ 1024 - 2 ^ 970` for
`recvFloat64`), or other than zero, of magnitude below `2 ^ (-126) - 2 ^ (-151)`
(`2 ^ (-1022) - 2 ^ (-1076)`) and, less the bit glibc loses from a magnitude of
exactly 25 (54) significant bits, no multiple of `2 ^ (-149)` (`2 ^ (-1074)`). -/
theorem recvFloat_rejects (str : String) :
    (recvFloat32 str = .error invalidArgument ↔ ¬ StartsWithNumeral str.data) ∧
      (recvFloat64 str = .error invalidArgument ↔ ¬ StartsWithNumeral str.data) ∧
      (StartsWithNumeral str.data →
        ∃ (ws p rest : List Char) (neg : Bool) (n : Numeral),
          str.data = ws ++ p ++ rest ∧ (∀ c ∈ ws, isSpace c = true) ∧ NumeralText p neg n ∧
            scanNumeral str.data = some (neg, n, rest) ∧
            recvFloat32 str = recvFloat32 (String.mk p) ∧
            recvFloat64 str = recvFloat64 (String.mk p) ∧
            (∀ e, recvFloat32 str = .error e → e = .out_of_range) ∧
            (∀ e, recvFloat64 str = .error e → e = .out_of_range) ∧
            (recvFloat32 str = .error .out_of_range ↔
              ∃ v, n.value = some v ∧
                ((2 : ℚ) ^ 128 - 2 ^ 103 ≤ |v| ∨
                  (v ≠ 0 ∧ |v| < (2 : ℚ) ^ (-126 : ℤ) - 2 ^ (-151 : ℤ) ∧
                    ¬ ∃ k : ℤ, binary32.kept v = k * 2 ^ (-149 : ℤ)))) ∧
            (recvFloat64 str = .error .out_of_range ↔
              ∃ v, n.value = some v ∧
                ((2 : ℚ) ^ 1024 - 2 ^ 970 ≤ |v| ∨
                  (v ≠ 0 ∧ |v| < (2 : ℚ) ^ (-1022 : ℤ) - 2 ^ (-1076 : ℤ) ∧
                    ¬ ∃ k : ℤ, binary64.kept v = k * 2 ^ (-1074 : ℤ))))) := by
  have hinv : ∀ F : FloatFormat,
      stoFloat F str = .error invalidArgument ↔ ¬ StartsWithNumeral str.data := fun F => by
    rw [stoFloat_invalid_iff, startsWithNumeral_iff, not_not]
  refine ⟨hinv binary32, hinv binary64, fun hstart => ?_⟩
  have hsome := (startsWithNumeral_iff str.data).mp hstart
  cases hs : scanNumeral str.data with
  | none => exact absurd hs hsome
  | some r =>
    obtain ⟨neg, n, rest⟩ := r
    obtain ⟨ws, p, hcs, hws, hp⟩ := scanNumeral_text str.data neg n rest hs
    have hclosed : scanNumeral (String.mk p).data = some (neg, n, []) :=
      scanNumeral_closed p neg n hp
    have h32 := stoFloat_error_iff binary32 (by decide) (by decide) str neg n rest hs
    have h64 := stoFloat_error_iff binary64 (by decide) (by decide) str neg n rest hs
    refine ⟨ws, p, rest, neg, n, hcs, hws, hp, rfl,
      stoFloat_congr binary32 str _ neg n rest [] hs hclosed,
      stoFloat_congr binary64 str _ neg n rest [] hs hclosed,
      fun e he => ((h32 e).mp he).1, fun e he => ((h64 e).mp he).1, ?_, ?_⟩
    · unfold recvFloat32
      rw [h32]
      simp only [true_and, binary32_outOfRange]
    · unfold recvFloat64
      rw [h64]
      simp only [true_and, binary64_outOfRange]

/-- The errors of C20 at the texts `nope`, `-` and the empty text, at `1e39`,
`-1e309` and `1e-46`; the least normal `float` read without an error from
`1.17549435e-38`, a text that stands for a smaller number; and no error at
`0x1.000001p-127`, where glibc loses the last of 25 bits. -/
theorem recvFloat_rejects_witness :
    ¬ StartsWithNumeral "nope".data ∧ ¬ StartsWithNumeral "-".data ∧
      ¬ StartsWithNumeral "".data ∧
      recvFloat32 "1e39" = .error .out_of_range ∧
      recvFloat64 "-1e309" = .error .out_of_range ∧
      recvFloat32 "1e-46" = .error .out_of_range ∧
      recvFloat32 "1.17549435e-38" ≠ .error .out_of_range ∧
      recvFloat32 "0x1.000001p-127" ≠ .error .out_of_range := by
  refine ⟨(recvFloat_rejects "nope").1.mp (by decide!), (recvFloat_rejects "-").1.mp (by decide!),
    (recvFloat_rejects "").2.1.mp (by decide!), ?_, ?_, ?_, ?_, ?_⟩
  · obtain ⟨ws, p, rest, neg, n, _, _, _, hscan, _, _, _, _, h32, _⟩ :=
      (recvFloat_rejects "1e39").2.2 ((startsWithNumeral_iff _).mpr (by decide!))
    have hn : scanNumeral "1e39".data = some (false, .decimal 1 0 39, []) := by decide!
    rw [hn] at hscan
    simp only [Option.some.injEq, Prod.mk.injEq] at hscan
    obtain ⟨_, rfl, _⟩ := hscan
    exact h32.mpr ⟨_, rfl, Or.inl (by norm_num)⟩
  · obtain ⟨ws, p, rest, neg, n, _, _, _, hscan, _, _, _, _, _, h64⟩ :=
      (recvFloat_rejects "-1e309").2.2 ((startsWithNumeral_iff _).mpr (by decide!))
    have hn : scanNumeral "-1e309".data = some (true, .decimal 1 0 309, []) := by decide!
    rw [hn] at hscan
    simp only [Option.some.injEq, Prod.mk.injEq] at hscan
    obtain ⟨_, rfl, _⟩ := hscan
    exact h64.mpr ⟨_, rfl, Or.inl (by norm_num)⟩
  · obtain ⟨ws, p, rest, neg, n, _, _, _, hscan, _, _, _, _, h32, _⟩ :=
      (recvFloat_rejects "1e-46").2.2 ((startsWithNumeral_iff _).mpr (by decide!))
    have hn : scanNumeral "1e-46".data = some (false, .decimal 1 0 (-46), []) := by decide!
    rw [hn] at hscan
    simp only [Option.some.injEq, Prod.mk.injEq] at hscan
    obtain ⟨_, rfl, _⟩ := hscan
    have hpos : (0 : ℚ) < ((1 : ℕ) : ℚ) * 10 ^ ((-46 : ℤ) - ((0 : ℕ) : ℤ)) := by norm_num
    refine h32.mpr ⟨_, rfl, (binary32_outOfRange _).mp
      (outOfRange_of_small binary32 (by decide) _ (ne_of_gt hpos) ?_)⟩
    have e : binary32.emin - (binary32.prec : ℤ) = -150 := by decide
    rw [e, abs_of_pos hpos]
    norm_num
  · obtain ⟨ws, p, rest, neg, n, _, _, _, hscan, _, _, _, _, h32, _⟩ :=
      (recvFloat_rejects "1.17549435e-38").2.2 ((startsWithNumeral_iff _).mpr (by decide!))
    have hn : scanNumeral "1.17549435e-38".data
        = some (false, .decimal 117549435 8 (-38), []) := by decide!
    rw [hn] at hscan
    simp only [Option.some.injEq, Prod.mk.injEq] at hscan
    obtain ⟨_, rfl, _⟩ := hscan
    intro herr
    obtain ⟨v, hv, h⟩ := h32.mp herr
    simp only [Numeral.value, Option.some.injEq] at hv
    subst hv
    have hpos : (0 : ℚ) < ((117549435 : ℕ) : ℚ) * 10 ^ ((-38 : ℤ) - ((8 : ℕ) : ℤ)) := by
      norm_num
    rw [abs_of_pos hpos] at h
    rcases h with h | ⟨_, h, _⟩
    · norm_num at h
    · norm_num at h
  · obtain ⟨ws, p, rest, neg, n, _, _, _, hscan, _, _, _, _, h32, _⟩ :=
      (recvFloat_rejects "0x1.000001p-127").2.2 ((startsWithNumeral_iff _).mpr (by decide!))
    have hn : scanNumeral "0x1.000001p-127".data
        = some (false, .hex 16777217 6 (-127), []) := by decide!
    rw [hn] at hscan
    simp only [Option.some.injEq, Prod.mk.injEq] at hscan
    obtain ⟨_, rfl, _⟩ := hscan
    intro herr
    obtain ⟨v, hv, h⟩ := h32.mp herr
    simp only [Numeral.value, Option.some.injEq] at hv
    subst hv
    rcases h with h | ⟨_, _, hk⟩
    · rw [abs_of_pos (by positivity)] at h
      norm_num at h
    · rw [kept_example] at hk
      exact hk ⟨4194304, by norm_num⟩

end FloatClaims

/-! ## The module worker: a handler that returns no result -/

section NullResult

variable {σ V P : Type} (env : Env σ V P)

/-- The decodes of the arguments are neither `getRetSpec` nor `sendArg` calls. -/
theorem recvEvents_kind (spec : List Char) (vals : List V) :
    ∀ ev ∈ (recvEvents spec vals : List (Event V P)),
      ev.isGetRetSpec = false ∧ ev.isSendArg = false := by
  induction spec generalizing vals with
  | nil => simp [recvEvents]
  | cons c rest ih =>
    cases vals with
    | nil => simp [recvEvents]
    | cons v vals =>
      intro ev hev
      simp only [recvEvents, List.zipWith_cons_cons, List.mem_cons] at hev
      rcases hev with rfl | hev
      · exact ⟨rfl, rfl⟩
      · exact ih vals ev hev

/-- C28: in any run of `work` that stands at the top of its loop, if the command
read is found, its arguments are decoded and its handler returns a null result,
`work` fails with the error `"function provider error: reslut is nullptr"`; the
invocation is the last call of the run, so that after the name was read there is
no `getRetSpec` call and no `sendArg` call. -/
theorem work_null_result (k fuel : Nat) (w0 w : World σ V P) (cmd : String) (prov : P)
    (argsSpec : List Char) (args : List V) (s1 s2 s3 s4 s5 : σ)
    (hreach : work env k w0 = (.unfinished, w))
    (hread : env.recvString w.st = (.ok cmd, s1))
    (hne : cmd ≠ "exit")
    (hlook : env.getFuncProvider cmd s1 = (.ok (some prov), s2))
    (hspec : env.getArgsSpec cmd s2 = (.ok argsSpec, s3))
    (hrecv : recvArgs env argsSpec [] ⟨s3, w.trace ++ [.recvString (.ok cmd),
      .getFuncProvider cmd (.ok (some prov)), .getArgsSpec cmd (.ok argsSpec)]⟩ =
      (.ok args, ⟨s4, w.trace ++ [.recvString (.ok cmd), .getFuncProvider cmd (.ok (some prov)),
        .getArgsSpec cmd (.ok argsSpec)] ++ recvEvents argsSpec args⟩))
    (hcall : env.invoke prov args s4 = (.ok none, s5)) :
    work env (k + (fuel + 1)) w0 =
      (.threw (.runtime_error "function provider error: reslut is nullptr"),
        ⟨s5, w.trace ++ [.recvString (.ok cmd), .getFuncProvider cmd (.ok (some prov)),
          .getArgsSpec cmd (.ok argsSpec)] ++ recvEvents argsSpec args ++
          [.invoke prov args (.ok none)]⟩) ∧
    ∀ ev ∈ (work env (k + (fuel + 1)) w0).2.trace.drop w.trace.length,
      ev.isGetRetSpec = false ∧ ev.isSendArg = false := by
  have hfound := runCommand_found env ⟨s1, w.trace ++ [.recvString (.ok cmd)]⟩ cmd prov argsSpec
    s2 s3 hlook hspec
  simp only [List.append_assoc, List.singleton_append] at hfound hrecv
  have hrun : work env (k + (fuel + 1)) w0 =
      (.threw (.runtime_error "function provider error: reslut is nullptr"),
        ⟨s5, w.trace ++ [.recvString (.ok cmd), .getFuncProvider cmd (.ok (some prov)),
          .getArgsSpec cmd (.ok argsSpec)] ++ recvEvents argsSpec args ++
          [.invoke prov args (.ok none)]⟩) := by
    apply work_step_error env k fuel w0 w _ cmd s1 _ hreach hread hne
    rw [hfound]
    simp [Act.andThen, hrecv, Act.ext, hcall, handleResult, Act.raise]
  refine ⟨hrun, ?_⟩
  rw [hrun]
  intro ev hev
  simp only [List.append_assoc, List.drop_left] at hev
  simp only [List.mem_append, List.mem_cons, List.mem_singleton, List.not_mem_nil,
    or_false] at hev
  rcases hev with (rfl | rfl | rfl) | hev | rfl
  · exact ⟨rfl, rfl⟩
  · exact ⟨rfl, rfl⟩
  · exact ⟨rfl, rfl⟩
  · exact recvEvents_kind argsSpec args ev hev
  · exact ⟨rfl, rfl⟩

/-- Witness for C28: the session that calls `"test.null"` with `7`. -/
theorem work_null_result_witness :
    work nullEnv (0 + (0 + 1)) (start nullSession 10) =
      (.threw (.runtime_error "function provider error: reslut is nullptr"),
        ⟨⟨[.text "exit"], [.raw "ModBox/M"], 9⟩,
          (opened "tester" [.text "test.null", .u64 7, .text "exit"] 9).trace ++
            [.recvString (.ok "test.null"), .getFuncProvider "test.null" (.ok (some "test.null")),
              .getArgsSpec "test.null" (.ok ['u'])] ++ recvEvents ['u'] [.u64 7] ++
            [.invoke "test.null" [.u64 7] (.ok none)]⟩) ∧
    ∀ ev ∈ (work nullEnv (0 + (0 + 1)) (start nullSession 10)).2.trace.drop
        (opened "tester" [.text "test.null", .u64 7, .text "exit"] 9).trace.length,
      ev.isGetRetSpec = false ∧ ev.isSendArg = false :=
  work_null_result nullEnv 0 0 (start nullSession 10)
    (opened "tester" [.text "test.null", .u64 7, .text "exit"] 9) "test.null" "test.null" ['u']
    [.u64 7] ⟨[.u64 7, .text "exit"], [.raw "ModBox/M"], 9⟩
    ⟨[.u64 7, .text "exit"], [.raw "ModBox/M"], 9⟩ ⟨[.u64 7, .text "exit"], [.raw "ModBox/M"], 9⟩
    ⟨[.text "exit"], [.raw "ModBox/M"], 9⟩ ⟨[.text "exit"], [.raw "ModBox/M"], 9⟩
    (by decide!) (by decide!) (by decide) (by decide!) (by decide!) (by decide!) (by decide!)

end NullResult

/-! ## Wide strings packed into bytes -/

section BytesPack

/-- The loop of `bytes_pack` adds one byte for each wide character. -/
theorem foldl_bytes_pack_step (ws : List Int) (s : List Nat) :
    ws.foldl bytes_pack_step s =
      s ++ ws.map (fun wc => if toUnsignedInt wc ≤ 0xFF then toUnsignedInt wc else '?'.toNat) := by
  induction ws generalizing s with
  | nil => simp
  | cons wc rest ih =>
    rw [List.foldl_cons, ih]
    have hbyte : toUnsignedInt wc ≤ 0xFF → toChar wc = toUnsignedInt wc := by
      intro h
      unfold toUnsignedInt at h ⊢
      unfold toChar
      omega
    by_cases h : toUnsignedInt wc ≤ 0xFF
    · simp [bytes_pack_step, h, hbyte h]
    · simp [bytes_pack_step, h]

/-- C27: for every wide string `ws`, `bytes_pack(ws)` has the length of `ws`, and
at every index its byte is the value of the wide character there, taken as
unsigned, when that value is at most `0xFF`, and the character `'?'` otherwise
(no byte at an index past the end). -/
theorem bytes_pack_spec (ws : List Int) :
    (bytes_pack ws).length = ws.length ∧
      ∀ i : Nat, (bytes_pack ws)[i]? =
        ws[i]?.map (fun wc => if toUnsignedInt wc ≤ 0xFF then toUnsignedInt wc else '?'.toNat) := by
  unfold bytes_pack
  rw [foldl_bytes_pack_step]
  constructor
  · simp
  · intro i
    simp

end BytesPack

/-! ## The event manager -/

section EventLemmas

variable {A γ : Type}

/-- A handler whose id is above all ids of the set goes to its end. -/
theorem setEmplace_last (h : EventHandler A γ) (hs : List (EventHandler A γ))
    (hlt : ∀ x ∈ hs, x.id < h.id) : setEmplace h hs = hs ++ [h] := by
  induction hs with
  | nil => rfl
  | cons x xs ih =>
    have hx : x.id < h.id := hlt x (List.mem_cons_self _ _)
    have h1 : ¬ h.id < x.id := by omega
    simp [setEmplace, EventHandler.lt, h1, hx, ih (fun y hy => hlt y (List.mem_cons_of_mem _ hy))]

/-- The entry `addEventHandler` leaves for the event, in a well-formed manager. -/
theorem addEventHandler_entry (event : String) (handler : A → γ → Except Raised Unit × γ)
    (m : EventManager A γ) (hwf : m.WellFormed) :
    (addEventHandler event handler m).2.eventHandlers event =
      some ((m.eventHandlers event).getD [] ++ [⟨m.current_id, handler⟩]) := by
  have hlt : ∀ x ∈ (m.eventHandlers event).getD [], x.id < m.current_id := by
    intro x hx
    cases hm : m.eventHandlers event with
    | none => simp [hm] at hx
    | some hs =>
      rw [hm] at hx
      exact hwf.2.1 event hs hm x hx
  simp only [addEventHandler, if_true]
  rw [setEmplace_last ⟨m.current_id, handler⟩ _ hlt]

/-- A call of `addEventHandler` that does not wrap the counter keeps the manager
well formed. -/
theorem wellFormed_addEventHandler (event : String)
    (handler : A → γ → Except Raised Unit × γ) (m : EventManager A γ) (hwf : m.WellFormed)
    (hwrap : m.current_id + 1 < 2 ^ 64) :
    (addEventHandler event handler m).2.WellFormed ∧
      (addEventHandler event handler m).2.current_id = m.current_id + 1 := by
  have hcur : (addEventHandler event handler m).2.current_id = m.current_id + 1 := by
    show (m.current_id + 1) % 2 ^ 64 = m.current_id + 1
    exact Nat.mod_eq_of_lt hwrap
  have hentry := addEventHandler_entry event handler m hwf
  have hother : ∀ e, e ≠ event →
      (addEventHandler event handler m).2.eventHandlers e = m.eventHandlers e := by
    intro e he
    simp [addEventHandler, he]
  have hold : ∀ x ∈ (m.eventHandlers event).getD [], x.id < m.current_id := by
    intro x hx
    cases hm : m.eventHandlers event with
    | none => simp [hm] at hx
    | some hs =>
      rw [hm] at hx
      exact hwf.2.1 event hs hm x hx
  have hsorted : (((m.eventHandlers event).getD []).map (fun h => h.id)).Pairwise
      (fun a b => a < b) := by
    cases hm : m.eventHandlers event with
    | none => simp
    | some hs => exact hwf.1 event hs hm
  have hmem : ∀ e hs, (addEventHandler event handler m).2.eventHandlers e = some hs →
      ∀ h ∈ hs, h.id = m.current_id ∧ e = event ∨
        h.id < m.current_id ∧ ∃ hs0, m.eventHandlers e = some hs0 ∧ h ∈ hs0 := by
    intro e hs he h hh
    by_cases hev : e = event
    · subst hev
      rw [hentry] at he
      cases he
      rcases List.mem_append.mp hh with hh | hh
      · right
        cases hm : m.eventHandlers e with
        | none => simp [hm] at hh
        | some hs0 =>
          rw [hm] at hh
          exact ⟨hwf.2.1 e hs0 hm h hh, hs0, rfl, hh⟩
      · left
        simp only [List.mem_singleton] at hh
        subst hh
        exact ⟨rfl, rfl⟩
    · rw [hother e hev] at he
      exact Or.inr ⟨hwf.2.1 e hs he h hh, hs, he, hh⟩
  refine ⟨⟨?_, ?_, ?_⟩, hcur⟩
  · intro e hs he
    by_cases hev : e = event
    · subst hev
      rw [hentry] at he
      cases he
      rw [List.map_append, List.pairwise_append]
      refine ⟨hsorted, by simp, ?_⟩
      intro a ha b hb
      simp only [List.map_cons, List.map_nil, List.mem_singleton] at hb
      obtain ⟨x, hx, rfl⟩ := List.mem_map.mp ha
      rw [hb]
      exact hold x hx
    · rw [hother e hev] at he
      exact hwf.1 e hs he
  · intro e hs he h hh
    rw [hcur]
    rcases hmem e hs he h hh with ⟨h1, _⟩ | ⟨h1, _⟩ <;> omega
  · intro e1 e2 hs1 hs2 he1 he2 h1 hh1 h2 hh2 hid
    rcases hmem e1 hs1 he1 h1 hh1 with ⟨a1, b1⟩ | ⟨a1, hs01, c1, d1⟩ <;>
      rcases hmem e2 hs2 he2 h2 hh2 with ⟨a2, b2⟩ | ⟨a2, hs02, c2, d2⟩
    · rw [b1, b2]
    · omega
    · omega
    · exact hwf.2.2 e1 e2 hs01 hs02 c1 c2 h1 d1 h2 d2 hid

/-- A manager stays well formed when the set of an event shrinks. -/
theorem wellFormed_setHandlers (m : EventManager A γ) (hwf : m.WellFormed) (event : String)
    (hs0 hs : List (EventHandler A γ)) (hm : m.eventHandlers event = some hs0)
    (hsub : hs.Sublist hs0) : (m.setHandlers event (some hs)).WellFormed := by
  have hget : ∀ e l, (m.setHandlers event (some hs)).eventHandlers e = some l →
      ∃ l0, m.eventHandlers e = some l0 ∧ l.Sublist l0 := by
    intro e l he
    by_cases hev : e = event
    · subst hev
      simp only [EventManager.setHandlers, if_true, Option.some.injEq] at he
      subst he
      exact ⟨hs0, hm, hsub⟩
    · simp only [EventManager.setHandlers, hev, if_false] at he
      exact ⟨l, he, List.Sublist.refl _⟩
  refine ⟨?_, ?_, ?_⟩
  · intro e l he
    obtain ⟨l0, h0, hl⟩ := hget e l he
    exact List.Pairwise.sublist (hl.map _) (hwf.1 e l0 h0)
  · intro e l he h hh
    obtain ⟨l0, h0, hl⟩ := hget e l he
    exact hwf.2.1 e l0 h0 h (hl.subset hh)
  · intro e1 e2 l1 l2 he1 he2 h1 hh1 h2 hh2 hid
    obtain ⟨l01, h01, hl1⟩ := hget e1 l1 he1
    obtain ⟨l02, h02, hl2⟩ := hget e2 l2 he2
    exact hwf.2.2 e1 e2 l01 l02 h01 h02 h1 (hl1.subset hh1) h2 (hl2.subset hh2) hid

/-- What `removeEventHandler` does when it returns: the set of the event is
`lo ++ x :: hi` with every id of `lo` below the id given and the id of `x` not
below it, and `x` is the handler removed. -/
theorem removeEventHandler_done (event : String) (id : Nat) (m m1 : EventManager A γ)
    (h : removeEventHandler event id m = .done m1) :
    ∃ lo x hi, m.eventHandlers event = some (lo ++ x :: hi) ∧ (∀ y ∈ lo, y.id < id) ∧
      id ≤ x.id ∧ m1 = m.setHandlers event (some (lo ++ hi)) := by
  unfold removeEventHandler at h
  cases hm : m.eventHandlers event with
  | none => simp [hm] at h
  | some handlers =>
    rw [hm] at h
    simp only at h
    cases hd : handlers.dropWhile (fun h => h.lt (whatToLookFor id)) with
    | nil => simp [hd] at h
    | cons x rest =>
      rw [hd] at h
      simp only [Effect.done.injEq] at h
      refine ⟨handlers.takeWhile (fun h => h.lt (whatToLookFor id)), x, rest, ?_, ?_, ?_, h.symm⟩
      · rw [← hd, List.takeWhile_append_dropWhile]
      · intro y hy
        have := List.mem_takeWhile_imp hy
        simpa [EventHandler.lt, whatToLookFor] using this
      · have hx : ¬ (x.lt (whatToLookFor id : EventHandler A γ)) = true := by
          have := List.head_dropWhile_not (fun h : EventHandler A γ => h.lt (whatToLookFor id))
            handlers
          rw [hd] at this
          simpa using this
        simpa [EventHandler.lt, whatToLookFor] using hx

/-- A call of `removeEventHandler` that returns keeps the manager well formed
and the counter as it was. -/
theorem wellFormed_removeEventHandler (event : String) (id : Nat) (m m1 : EventManager A γ)
    (hwf : m.WellFormed) (h : removeEventHandler event id m = .done m1) :
    m1.WellFormed ∧ m1.current_id = m.current_id := by
  obtain ⟨lo, x, hi, hm, _, _, rfl⟩ := removeEventHandler_done event id m m1 h
  refine ⟨wellFormed_setHandlers m hwf event _ _ hm ?_, rfl⟩
  exact List.Sublist.append (List.Sublist.refl lo) (List.sublist_cons_self x hi)

/-- A call of `removeAllEventHandlers` keeps the manager well formed. -/
theorem wellFormed_removeAllEventHandlers (event : String) (m : EventManager A γ)
    (hwf : m.WellFormed) : (removeAllEventHandlers event m).WellFormed := by
  have hget : ∀ e l, (removeAllEventHandlers event m).eventHandlers e = some l →
      m.eventHandlers e = some l := by
    intro e l he
    by_cases hev : e = event
    · simp [removeAllEventHandlers, EventManager.setHandlers, hev] at he
    · simpa [removeAllEventHandlers, EventManager.setHandlers, hev] using he
  exact ⟨fun e l he => hwf.1 e l (hget e l he), fun e l he => hwf.2.1 e l (hget e l he),
    fun e1 e2 l1 l2 he1 he2 => hwf.2.2 e1 e2 l1 l2 (hget e1 l1 he1) (hget e2 l2 he2)⟩

/-- The empty manager is well formed. -/
theorem wellFormed_empty (n : Nat) : (EventManager.empty n : EventManager A γ).WellFormed := by
  refine ⟨?_, ?_, ?_⟩ <;> simp [EventManager.empty]

/-- The ids a sequence of calls returns, when the counter does not wrap: each
is above those before, and the manager stays well formed. -/
theorem runOps_spec (ops : List (EventOp A γ)) (m0 m1 : EventManager A γ) (g0 g1 : γ)
    (ids : List Nat) (hwf : m0.WellFormed) (hwrap : m0.current_id + ops.length < 2 ^ 64)
    (hrun : runOps ops m0 g0 = some (ids, m1, g1)) :
    ids.Pairwise (fun a b => a < b) ∧ (∀ i ∈ ids, m0.current_id ≤ i) ∧ m1.WellFormed ∧
      m1.current_id = m0.current_id + ids.length := by
  induction ops generalizing m0 g0 ids with
  | nil =>
    simp only [runOps, Option.some.injEq, Prod.mk.injEq] at hrun
    obtain ⟨rfl, rfl, rfl⟩ := hrun
    exact ⟨List.Pairwise.nil, by simp, hwf, by simp⟩
  | cons op ops ih =>
    simp only [List.length_cons] at hwrap
    cases op with
    | addEventHandler event handler =>
      simp only [runOps, Option.map_eq_some'] at hrun
      obtain ⟨⟨ids1, m2, g2⟩, hr, heq⟩ := hrun
      simp only [Prod.mk.injEq] at heq
      obtain ⟨rfl, rfl, rfl⟩ := heq
      obtain ⟨hwf1, hcur1⟩ := wellFormed_addEventHandler event handler m0 hwf (by omega)
      obtain ⟨hp, hge, hwf2, hcur2⟩ := ih _ g0 ids1 hwf1 (by rw [hcur1]; omega) hr
      have hid : (addEventHandler event handler m0).1 = m0.current_id := rfl
      rw [hid]
      refine ⟨List.pairwise_cons.mpr ⟨?_, hp⟩, ?_, hwf2, ?_⟩
      · intro i hi
        have := hge i hi
        omega
      · intro i hi
        rcases List.mem_cons.mp hi with rfl | hi
        · exact le_refl _
        · have := hge i hi
          omega
      · rw [hcur2, hcur1, List.length_cons]
        omega
    | removeEventHandler event id =>
      simp only [runOps] at hrun
      cases hrem : removeEventHandler event id m0 with
      | done m2 =>
        rw [hrem] at hrun
        obtain ⟨hwf1, hcur1⟩ := wellFormed_removeEventHandler event id m0 m2 hwf hrem
        have := ih m2 g0 ids hwf1 (by rw [hcur1]; omega) hrun
        rw [hcur1] at this
        exact this
      | threw e =>
        rw [hrem] at hrun
        exact ih m0 g0 ids hwf (by omega) hrun
      | undefined =>
        rw [hrem] at hrun
        simp at hrun
    | removeAllEventHandlers event =>
      simp only [runOps] at hrun
      have hcur : (removeAllEventHandlers event m0).current_id = m0.current_id := rfl
      have := ih (removeAllEventHandlers event m0) g0 ids
        (wellFormed_removeAllEventHandlers event m0 hwf) (by rw [hcur]; omega) hrun
      rw [hcur] at this
      exact this
    | raiseEvent event args =>
      simp only [runOps] at hrun
      exact ih m0 _ ids hwf (by omega) hrun

/-- In a well-formed manager two registered handlers with the same id are the
same entry of the same set. -/
theorem wellFormed_distinct (m : EventManager A γ) (hwf : m.WellFormed) (e1 e2 : String)
    (hs1 hs2 : List (EventHandler A γ)) (i j : Nat) (h1 h2 : EventHandler A γ)
    (he1 : m.eventHandlers e1 = some hs1) (he2 : m.eventHandlers e2 = some hs2)
    (hi : hs1[i]? = some h1) (hj : hs2[j]? = some h2) (hid : h1.id = h2.id) :
    e1 = e2 ∧ i = j := by
  have hm1 : h1 ∈ hs1 := List.getElem?_mem hi
  have hm2 : h2 ∈ hs2 := List.getElem?_mem hj
  have he : e1 = e2 := hwf.2.2 e1 e2 hs1 hs2 he1 he2 h1 hm1 h2 hm2 hid
  subst he
  rw [he1] at he2
  cases he2
  refine ⟨rfl, ?_⟩
  have hp := hwf.1 e1 hs1 he1
  have hi1 : (hs1.map (fun h => h.id))[i]? = some h1.id := by simp [hi]
  have hj1 : (hs1.map (fun h => h.id))[j]? = some h2.id := by simp [hj]
  rw [← hid] at hj1
  have hnd : (hs1.map (fun h => h.id)).Nodup := hp.imp (fun h => Nat.ne_of_lt h)
  have hlen : i < (hs1.map (fun h => h.id)).length := by
    obtain ⟨hl, _⟩ := List.getElem?_eq_some.mp hi1
    exact hl
  exact List.getElem?_inj hlen hnd (hi1.trans hj1.symm)

end EventLemmas

section EventClaims

variable {A γ : Type}

/-- The calls of the loop of `raiseEvent`: handlers from the front of the set,
each with `args`; a call that throws is the last one; the function returns
normally after `StopEventPropagation` and when every handler returned, and it
throws what a handler threw otherwise. -/
theorem raiseLoop_spec (args : A) (hs : List (EventHandler A γ)) (g : γ) :
    (∃ n, (raiseLoop args hs g).2.2.map (fun c => c.id) = (hs.map (fun h => h.id)).take n) ∧
    (∀ c ∈ (raiseLoop args hs g).2.2, c.args = args) ∧
    (∀ pre c post, (raiseLoop args hs g).2.2 = pre ++ c :: post → c.result ≠ .ok () →
      post = []) ∧
    (∀ c ∈ (raiseLoop args hs g).2.2, c.result = .error .StopEventPropagation →
      (raiseLoop args hs g).1 = .ok ()) ∧
    (∀ c ∈ (raiseLoop args hs g).2.2, ∀ e, c.result = .error (.other e) →
      (raiseLoop args hs g).1 = .error e) ∧
    ((∀ c ∈ (raiseLoop args hs g).2.2, c.result = .ok ()) →
      (raiseLoop args hs g).2.2.length = hs.length ∧ (raiseLoop args hs g).1 = .ok ()) := by
  induction hs generalizing g with
  | nil => exact ⟨⟨0, by simp [raiseLoop]⟩, by simp [raiseLoop], by simp [raiseLoop],
      by simp [raiseLoop], by simp [raiseLoop], by simp [raiseLoop]⟩
  | cons h rest ih =>
    rcases hf : h.func args g with ⟨r, g1⟩
    rcases r with sig | u
    · cases sig with
      | StopEventPropagation =>
        have hc : raiseLoop args (h :: rest) g =
            (.ok (), g1, [⟨h.id, args, .error .StopEventPropagation⟩]) := by
          simp [raiseLoop, hf]
        rw [hc]
        refine ⟨⟨1, by simp⟩, by simp, ?_, by simp, by simp, by simp⟩
        intro pre c post hsplit _
        dsimp only at hsplit
        cases pre with
        | nil =>
          simp only [List.nil_append, List.cons.injEq] at hsplit
          exact hsplit.2.symm
        | cons p pre => simp at hsplit
      | other e =>
        have hc : raiseLoop args (h :: rest) g =
            (.error e, g1, [⟨h.id, args, .error (.other e)⟩]) := by
          simp [raiseLoop, hf]
        rw [hc]
        refine ⟨⟨1, by simp⟩, by simp, ?_, by simp, by simp, by simp⟩
        intro pre c post hsplit _
        dsimp only at hsplit
        cases pre with
        | nil =>
          simp only [List.nil_append, List.cons.injEq] at hsplit
          exact hsplit.2.symm
        | cons p pre => simp at hsplit
    · have hc : raiseLoop args (h :: rest) g =
          ((raiseLoop args rest g1).1, (raiseLoop args rest g1).2.1,
            ⟨h.id, args, .ok ()⟩ :: (raiseLoop args rest g1).2.2) := by
        simp [raiseLoop, hf]
      obtain ⟨⟨n, hn⟩, hargs, hlast, hstop, hother, hall⟩ := ih g1
      rw [hc]
      refine ⟨⟨n + 1, by simp [hn]⟩, ?_, ?_, ?_, ?_, ?_⟩
      · intro c hcm
        rcases List.mem_cons.mp hcm with rfl | hcm
        · rfl
        · exact hargs c hcm
      · intro pre c post hsplit hne
        cases pre with
        | nil =>
          simp only [List.nil_append, List.cons.injEq] at hsplit
          rw [← hsplit.1] at hne
          exact absurd rfl hne
        | cons p pre =>
          simp only [List.cons_append, List.cons.injEq] at hsplit
          exact hlast pre c post hsplit.2 hne
      · intro c hcm hres
        rcases List.mem_cons.mp hcm with rfl | hcm
        · simp at hres
        · exact hstop c hcm hres
      · intro c hcm e hres
        rcases List.mem_cons.mp hcm with rfl | hcm
        · simp at hres
        · exact hother c hcm e hres
      · intro hok
        obtain ⟨hl, hr⟩ := hall (fun c hcm => hok c (List.mem_cons_of_mem _ hcm))
        exact ⟨by simp [hl], hr⟩

/-- C24 fails on the code.  The manager holds the handlers 0 and 2 of the event
`"a"` and the handler 1 of the event `"b"`.  `removeEventHandler("a", 1)`, for
an id no handler of `"a"` has, removes the handler 2 of `"a"`: `lower_bound`
gives the first handler whose id is not below 1.  `removeEventHandler("a", 3)`
erases `end()`: undefined behaviour.  With the id of a handler of the event,
that handler alone is removed. -/
theorem removeEventHandler_removes_other_handler :
    threeHandlers.ids "a" = some [0, 2] ∧ threeHandlers.ids "b" = some [1] ∧
      (removeEventHandler "a" 1 threeHandlers).map (fun m => (m.ids "a", m.ids "b")) =
        .done (some [0], some [1]) ∧
      (removeEventHandler "a" 3 threeHandlers).map (fun m => (m.ids "a", m.ids "b")) =
        .undefined ∧
      (removeEventHandler "a" 2 threeHandlers).map (fun m => (m.ids "a", m.ids "b")) =
        .done (some [0], some [1]) ∧
      (removeEventHandler "a" 0 threeHandlers).map (fun m => (m.ids "a", m.ids "b")) =
        .done (some [2], some [1]) := by
  decide!

/-- C25: in a well-formed manager, `raiseEvent(event, args)` calls handlers of
the event from the front of its set, that is in ascending order of their ids,
each at most once and each with `args`.  A call that signals
`StopEventPropagation` is the last call: no handler with a larger id is called,
and `raiseEvent` returns normally.  When every handler called returned, all
handlers of the event were called and `raiseEvent` returns normally.  For an
event without entry or with an empty set nothing is called. -/
theorem raiseEvent_calls_in_order (m : EventManager A γ) (hwf : m.WellFormed) (event : String)
    (args : A) (g : γ) :
    (∃ n, (raiseEvent event args m g).2.2.map (fun c => c.id) =
      ((m.ids event).getD []).take n) ∧
    ((raiseEvent event args m g).2.2.map (fun c => c.id)).Pairwise (fun a b => a < b) ∧
    (∀ c ∈ (raiseEvent event args m g).2.2, c.args = args) ∧
    (∀ pre c post, (raiseEvent event args m g).2.2 = pre ++ c :: post →
      c.result = .error .StopEventPropagation →
        post = [] ∧ (raiseEvent event args m g).1 = .ok () ∧ ∀ c2 ∈ pre, c2.id < c.id) ∧
    ((∀ c ∈ (raiseEvent event args m g).2.2, c.result = .ok ()) →
      (raiseEvent event args m g).2.2.map (fun c => c.id) = (m.ids event).getD [] ∧
        (raiseEvent event args m g).1 = .ok ()) ∧
    ((m.ids event).getD [] = [] → raiseEvent event args m g = (.ok (), g, [])) := by
  cases hm : m.eventHandlers event with
  | none =>
    have hr : raiseEvent event args m g = (.ok (), g, []) := by simp [raiseEvent, hm]
    rw [hr]
    simp [EventManager.ids, hm]
  | some hs =>
    have hr : raiseEvent event args m g = raiseLoop args hs g := by simp [raiseEvent, hm]
    have hids : (m.ids event).getD [] = hs.map (fun h => h.id) := by simp [EventManager.ids, hm]
    obtain ⟨⟨n, hn⟩, hargs, hlast, hstop, _, hall⟩ := raiseLoop_spec args hs g
    have hsorted : ((raiseLoop args hs g).2.2.map (fun c => c.id)).Pairwise
        (fun a b => a < b) := by
      rw [hn]
      exact List.Pairwise.sublist (List.take_sublist _ _) (hwf.1 event hs hm)
    rw [hr, hids]
    refine ⟨⟨n, hn⟩, hsorted, hargs, ?_, ?_, ?_⟩
    · intro pre c post hsplit hres
      have hpost : post = [] := hlast pre c post hsplit (by rw [hres]; simp)
      refine ⟨hpost, hstop c (by rw [hsplit]; simp) hres, ?_⟩
      intro c2 hc2
      rw [hsplit, List.map_append, List.pairwise_append] at hsorted
      exact hsorted.2.2 c2.id (List.mem_map_of_mem _ hc2) c.id (by simp)
    · intro hok
      obtain ⟨hl, hres⟩ := hall hok
      refine ⟨?_, hres⟩
      rw [hn]
      apply List.take_of_length_le
      have := congrArg List.length hn
      simp only [List.length_map, List.length_take] at this
      simp only [List.length_map]
      omega
    · intro hnil
      have : hs = [] := by simpa using hnil
      subst this
      rfl

/-- Witness for C25: the event `"a"` with the handlers 0, 1 and 2, the second of
which stops the propagation: the handlers 0 and 1 are called, and `raiseEvent`
returns. -/
theorem raiseEvent_calls_in_order_witness :
    (raiseEvent "a" () stoppingHandlers []).2.2 =
        [⟨0, (), .ok ()⟩, ⟨1, (), .error .StopEventPropagation⟩] ∧
      ([] : List (HandlerCall Unit)) = [] ∧
      (raiseEvent "a" () stoppingHandlers []).1 = .ok () ∧
      ∀ c2 ∈ [(⟨0, (), .ok ()⟩ : HandlerCall Unit)],
        c2.id < (⟨1, (), .error .StopEventPropagation⟩ : HandlerCall Unit).id :=
  ⟨by decide!,
    (raiseEvent_calls_in_order stoppingHandlers
      (by
        unfold stoppingHandlers
        exact (wellFormed_addEventHandler _ _ _ (wellFormed_addEventHandler _ _ _
          (wellFormed_addEventHandler _ _ _ (wellFormed_empty 0) (by decide)).1
            (by decide!)).1 (by decide!)).1)
      "a" () []).2.2.2.1 [⟨0, (), .ok ()⟩] ⟨1, (), .error .StopEventPropagation⟩ []
      (by decide!) rfl⟩

/-- C26: in every sequence of calls of `addEventHandler`, `removeEventHandler`,
`removeAllEventHandlers` and `raiseEvent` made on a well-formed manager, with
defined behaviour and without wrap-around of the counter, each id returned by
`addEventHandler` is greater than every id returned before and than the id of
every handler registered at the start, whatever the events; and at the end two
registered handlers with the same id are one and the same entry. -/
theorem addEventHandler_ids_increase (ops : List (EventOp A γ)) (m0 m1 : EventManager A γ)
    (g0 g1 : γ) (ids : List Nat) (hwf : m0.WellFormed)
    (hwrap : m0.current_id + ops.length < 2 ^ 64)
    (hrun : runOps ops m0 g0 = some (ids, m1, g1)) :
    ids.Pairwise (fun a b => a < b) ∧
    (∀ event hs, m0.eventHandlers event = some hs → ∀ h ∈ hs, ∀ i ∈ ids, h.id < i) ∧
    (∀ (e1 e2 : String) (hs1 hs2 : List (EventHandler A γ)) (i j : Nat)
      (h1 h2 : EventHandler A γ), m1.eventHandlers e1 = some hs1 →
      m1.eventHandlers e2 = some hs2 → hs1[i]? = some h1 → hs2[j]? = some h2 →
        h1.id = h2.id → e1 = e2 ∧ i = j) := by
  obtain ⟨hp, hge, hwf1, _⟩ := runOps_spec ops m0 m1 g0 g1 ids hwf hwrap hrun
  refine ⟨hp, ?_, ?_⟩
  · intro event hs hm h hh i hi
    have h1 := hwf.2.1 event hs hm h hh
    have h2 := hge i hi
    omega
  · intro e1 e2 hs1 hs2 i j h1 h2 he1 he2 hi hj hid
    exact wellFormed_distinct m1 hwf1 e1 e2 hs1 hs2 i j h1 h2 he1 he2 hi hj hid

/-- Witness for C26: registrations for the events `"a"` and `"b"` with a
removal and a raised event in between; the ids returned are 0, 1, 2, 3. -/
theorem addEventHandler_ids_increase_witness :
    ((runOps [.addEventHandler "a" (noteHandler 0), .addEventHandler "b" (stopHandler 1),
        .removeEventHandler "a" 0, .addEventHandler "a" (noteHandler 2), .raiseEvent "b" (),
        .addEventHandler "b" (noteHandler 3)] (EventManager.empty 0) []).map
          (fun r => r.1)) = some [0, 1, 2, 3] ∧
      ([0, 1, 2, 3] : List Nat).Pairwise (fun a b => a < b) :=
  ⟨by decide!,
    (addEventHandler_ids_increase
      [.addEventHandler "a" (noteHandler 0), .addEventHandler "b" (stopHandler 1),
        .removeEventHandler "a" 0, .addEventHandler "a" (noteHandler 2), .raiseEvent "b" (),
        .addEventHandler "b" (noteHandler 3)] (EventManager.empty 0)
      ((runOps [.addEventHandler "a" (noteHandler 0), .addEventHandler "b" (stopHandler 1),
        .removeEventHandler "a" 0, .addEventHandler "a" (noteHandler 2), .raiseEvent "b" (),
        .addEventHandler "b" (noteHandler 3)] (EventManager.empty 0) []).getD
          ([], EventManager.empty 0, [])).2.1 []
      ((runOps [.addEventHandler "a" (noteHandler 0), .addEventHandler "b" (stopHandler 1),
        .removeEventHandler "a" 0, .addEventHandler "a" (noteHandler 2), .raiseEvent "b" (),
        .addEventHandler "b" (noteHandler 3)] (EventManager.empty 0) []).getD
          ([], EventManager.empty 0, [])).2.2 [0, 1, 2, 3]
      (wellFormed_empty 0) (by decide) rfl).1⟩

end EventClaims

/-! ## The handlers of the graphics functions: lemmas -/

section GraphicsLemmas

variable {σ V α β : Type} (env : GraphicsEnv σ V)

/-- The reads among two runs of steps put together. -/
theorem argumentReads_append (a b : List GEvent) :
    argumentReads (a ++ b) = argumentReads a ++ argumentReads b := by
  induction a with
  | nil => rfl
  | cons ev rest ih => cases ev <;> simp [argumentReads, ih]

/-- Sequencing in a handler is `andThen`. -/
theorem GAct.bind_apply (m : GAct σ α) (f : α → GAct σ β) (w : GWorld σ) :
    (m >>= f) w = GAct.andThen m f w := rfl

/-- A `return` leaves the world as it is. -/
theorem GAct.pure_apply (a : α) (w : GWorld σ) : (pure a : GAct σ α) w = (.ok a, w) := rfl

/-- A `return` reads nothing. -/
theorem GAct.completes_pure {Q : α → Prop} (a : α) (hQ : Q a) :
    GAct.Completes (pure a : GAct σ α) [] Q := by
  intro w b w1 h
  rw [GAct.pure_apply] at h
  simp only [Prod.mk.injEq, Except.ok.injEq] at h
  obtain ⟨rfl, rfl⟩ := h
  exact ⟨hQ, [], by simp, rfl⟩

/-- A `throw` does not return. -/
theorem GAct.completes_raise {Q : α → Prop} (e : Thrown) (L : List (NativeType × Nat)) :
    GAct.Completes (GAct.raise e : GAct σ α) L Q := by
  intro w b w1 h
  simp [GAct.raise] at h

/-- The reads of two pieces of code run one after the other. -/
theorem GAct.completes_bind {Q : α → Prop} {R : β → Prop} {m : GAct σ α} {f : α → GAct σ β}
    {L M N : List (NativeType × Nat)} (hm : GAct.Completes m L Q)
    (hf : ∀ a, Q a → GAct.Completes (f a) M R) (hN : N = L ++ M) :
    GAct.Completes (m >>= f) N R := by
  intro w b w2 h
  rw [GAct.bind_apply] at h
  unfold GAct.andThen at h
  rcases hmw : m w with ⟨r, w1⟩
  rw [hmw] at h
  cases r with
  | error e => simp at h
  | ok a =>
    simp only at h
    obtain ⟨hq, e1, ht1, hr1⟩ := hm w a w1 hmw
    obtain ⟨hr, e2, ht2, hr2⟩ := hf a hq w1 b w2 h
    refine ⟨hr, e1 ++ e2, by rw [ht2, ht1, List.append_assoc], ?_⟩
    rw [argumentReads_append, hr1, hr2, hN]

/-- The call `getArgument<T>(args, idx)` is one read. -/
theorem GAct.completes_getArgument (T : NativeType) (args : List V) (idx : Nat) :
    GAct.Completes (GAct.getArgument env T args idx) [(T, idx)] (fun _ => True) := by
  intro w a w1 h
  simp only [GAct.getArgument, Prod.mk.injEq] at h
  exact ⟨trivial, [.getArgument T idx], by rw [← h.2], rfl⟩

/-- A call into the engine reads no argument. -/
theorem GAct.completes_call (c : EngineCall) :
    GAct.Completes (GAct.call env c) [] (fun _ => True) := by
  intro w a w1 h
  simp only [GAct.call, Prod.mk.injEq] at h
  exact ⟨trivial, [.call c (env.call c w.st).1], by rw [← h.2], rfl⟩

/-- A line of the log reads no argument. -/
theorem GAct.completes_log (msg : String) :
    GAct.Completes (GAct.log msg : GAct σ Unit) [] (fun _ => True) := by
  intro w a w1 h
  simp only [GAct.log, Prod.mk.injEq] at h
  exact ⟨trivial, [.log msg], by rw [← h.2], rfl⟩

/-- A locked scope reads what its body reads. -/
theorem GAct.completes_withLock {Q : α → Prop} {m : GAct σ α} {L : List (NativeType × Nat)}
    (mutex : String) (hm : GAct.Completes m L Q) :
    GAct.Completes (GAct.withLock mutex m) L Q := by
  intro w a w1 h
  simp only [GAct.withLock, Prod.mk.injEq] at h
  obtain ⟨h1, h2⟩ := h
  obtain ⟨hq, evs, ht, hr⟩ := hm ⟨w.st, w.trace ++ [.lock mutex]⟩ a
    (m ⟨w.st, w.trace ++ [.lock mutex]⟩).2 (by rw [← h1])
  refine ⟨hq, [.lock mutex] ++ evs ++ [.unlock mutex], ?_, ?_⟩
  · rw [← h2]
    simp only [ht, List.append_assoc]
  · rw [argumentReads_append, argumentReads_append, hr]
    simp [argumentReads]

/-- A branch reads what the branch taken reads. -/
theorem GAct.completes_ite {Q : α → Prop} {c : Prop} [Decidable c] {m n : GAct σ α}
    {L : List (NativeType × Nat)} (hm : c → GAct.Completes m L Q)
    (hn : ¬ c → GAct.Completes n L Q) : GAct.Completes (if c then m else n) L Q := by
  by_cases h : c
  · rw [if_pos h]; exact hm h
  · rw [if_neg h]; exact hn h

/-- The function `setReturn` reads no argument; when it returns, the value is
stored in the slot. -/
theorem completes_setReturn {Q : FuncResult → Prop} (ret : FuncResult) (idx value : Nat)
    (hQ : idx < ret.data.length → Q ⟨ret.data.set idx (some value)⟩) :
    GAct.Completes (setReturn ret idx value : GAct σ FuncResult) [] Q := by
  unfold setReturn
  apply GAct.completes_ite
  · intro h
    exact GAct.completes_pure _ (hQ h)
  · intro _
    exact GAct.completes_raise _ _

/-- The function `DrawablesManager::access` reads no argument. -/
theorem completes_access (handle : Nat) :
    GAct.Completes (DrawablesManager.access env handle) [] (fun _ => True) := by
  intro w a w1 h
  unfold DrawablesManager.access GAct.catchOutOfRange at h
  rcases hc : GAct.call env (.drawables_access handle) w with ⟨r, w2⟩
  rw [hc] at h
  cases r with
  | ok v =>
    simp only at h
    rw [← hc] at h
    exact GAct.completes_call env _ w a w1 h
  | error e =>
    cases e <;> simp [GAct.raise] at h

/-- What `handlerGraphicsCreateCube` does when it returns. -/
theorem completes_createCube (args : List V) :
    GAct.Completes (handlerGraphicsCreateCube env args) [] (fun r => ∃ v, r.data = [some v]) := by
  unfold handlerGraphicsCreateCube
  refine GAct.completes_withLock _ ?_
  refine GAct.completes_bind (GAct.completes_call env _) (fun _ _ => ?_) rfl
  refine GAct.completes_bind (GAct.completes_call env _) (fun _ _ => ?_) rfl
  refine GAct.completes_bind (GAct.completes_call env _) (fun _ _ => ?_) rfl
  exact completes_setReturn _ _ _ (fun _ => ⟨_, rfl⟩)

/-- What `handlerGraphicsMoveObject` does when it returns. -/
theorem completes_moveObject (args : List V) :
    GAct.Completes (handlerGraphicsMoveObject env args)
      [(.uint64_t, 0), (.double, 1), (.double, 2), (.double, 3)]
      (fun r => r.data = []) := by
  unfold handlerGraphicsMoveObject
  refine GAct.completes_ite (fun _ => GAct.completes_raise _ _) (fun _ => ?_)
  refine GAct.completes_withLock _ ?_
  refine GAct.completes_bind (GAct.completes_getArgument env _ _ _) (fun _ _ => ?_) rfl
  refine GAct.completes_bind (GAct.completes_getArgument env _ _ _) (fun _ _ => ?_) rfl
  refine GAct.completes_bind (GAct.completes_getArgument env _ _ _) (fun _ _ => ?_) rfl
  refine GAct.completes_bind (GAct.completes_getArgument env _ _ _) (fun _ _ => ?_) rfl
  refine GAct.completes_bind (GAct.completes_call env _) (fun _ _ => ?_) rfl
  refine GAct.completes_bind (GAct.completes_call env _) (fun _ _ => ?_) rfl
  refine GAct.completes_bind (GAct.completes_call env _) (fun _ _ => ?_) rfl
  exact GAct.completes_pure _ rfl

/-- What `handlerGraphicsDeleteObject` does when it returns. -/
theorem completes_deleteObject (args : List V) :
    GAct.Completes (handlerGraphicsDeleteObject env args) [(.uint64_t, 0)]
      (fun r => r.data = []) := by
  unfold handlerGraphicsDeleteObject
  refine GAct.completes_ite (fun _ => GAct.completes_raise _ _) (fun _ => ?_)
  refine GAct.completes_withLock _ ?_
  refine GAct.completes_bind (GAct.completes_getArgument env _ _ _) (fun _ _ => ?_) rfl
  refine GAct.completes_bind (GAct.completes_call env _) (fun _ _ => ?_) rfl
  refine GAct.completes_bind (GAct.completes_call env _) (fun _ _ => ?_) rfl
  refine GAct.completes_bind (GAct.completes_call env _) (fun _ _ => ?_) rfl
  exact GAct.completes_pure _ rfl

/-- What `handlerGraphicsRotateObject` does when it returns. -/
theorem completes_rotateObject (args : List V) :
    GAct.Completes (handlerGraphicsRotateObject env args)
      [(.uint64_t, 0), (.double, 1), (.double, 2), (.double, 3)]
      (fun r => r.data = []) := by
  unfold handlerGraphicsRotateObject
  refine GAct.completes_ite (fun _ => GAct.completes_raise _ _) (fun _ => ?_)
  refine GAct.completes_withLock _ ?_
  refine GAct.completes_bind (GAct.completes_getArgument env _ _ _) (fun _ _ => ?_) rfl
  refine GAct.completes_bind (GAct.completes_getArgument env _ _ _) (fun _ _ => ?_) rfl
  refine GAct.completes_bind (GAct.completes_getArgument env _ _ _) (fun _ _ => ?_) rfl
  refine GAct.completes_bind (GAct.completes_getArgument env _ _ _) (fun _ _ => ?_) rfl
  refine GAct.completes_bind (GAct.completes_call env _) (fun _ _ => ?_) rfl
  refine GAct.completes_bind (GAct.completes_call env _) (fun _ _ => ?_) rfl
  refine GAct.completes_bind (GAct.completes_call env _) (fun _ _ => ?_) rfl
  exact GAct.completes_pure _ rfl

/-- What `handlerGraphicsLoadTexture` does when it returns. -/
theorem completes_loadTexture (args : List V) :
    GAct.Completes (handlerGraphicsLoadTexture env args) [(.string, 0)]
      (fun r => ∃ v, r.data = [some v]) := by
  unfold handlerGraphicsLoadTexture
  refine GAct.completes_withLock _ ?_
  refine GAct.completes_ite (fun _ => GAct.completes_raise _ _) (fun _ => ?_)
  refine GAct.completes_bind (GAct.completes_getArgument env _ _ _) (fun _ _ => ?_) rfl
  refine GAct.completes_bind (GAct.completes_call env _) (fun _ _ => ?_) rfl
  refine GAct.completes_ite (fun _ => ?_) (fun _ => ?_)
  · exact completes_setReturn _ _ _ (fun _ => ⟨_, rfl⟩)
  · refine GAct.completes_bind (GAct.completes_call env _) (fun _ _ => ?_) rfl
    exact completes_setReturn _ _ _ (fun _ => ⟨_, rfl⟩)

/-- What `handlerGraphicsAddTexture` does when it returns. -/
theorem completes_addTexture (args : List V) :
    GAct.Completes (handlerGraphicsAddTexture env args) [(.uint64_t, 0), (.uint64_t, 1)]
      (fun r => r.data = []) := by
  unfold handlerGraphicsAddTexture
  refine GAct.completes_ite (fun _ => GAct.completes_raise _ _) (fun _ => ?_)
  refine GAct.completes_withLock _ ?_
  refine GAct.completes_bind (GAct.completes_getArgument env _ _ _) (fun _ _ => ?_) rfl
  refine GAct.completes_bind (GAct.completes_getArgument env _ _ _) (fun _ _ => ?_) rfl
  refine GAct.completes_bind (GAct.completes_call env _) (fun _ _ => ?_) rfl
  refine GAct.completes_bind (GAct.completes_call env _) (fun _ _ => ?_) rfl
  refine GAct.completes_bind (GAct.completes_log _) (fun _ _ => ?_) rfl
  refine GAct.completes_bind (GAct.completes_call env _) (fun _ _ => ?_) rfl
  refine GAct.completes_bind (GAct.completes_call env _) (fun _ _ => ?_) rfl
  exact GAct.completes_pure _ rfl

/-- What `handlerGraphicsDrawableAddTexture` does when it returns. -/
theorem completes_drawableAddTexture (args : List V) :
    GAct.Completes (handlerGraphicsDrawableAddTexture env args)
      [(.uint64_t, 0), (.uint64_t, 1)] (fun r => r.data = []) := by
  unfold handlerGraphicsDrawableAddTexture
  refine GAct.completes_ite (fun _ => GAct.completes_raise _ _) (fun _ => ?_)
  refine GAct.completes_withLock _ ?_
  refine GAct.completes_bind (GAct.completes_getArgument env _ _ _) (fun _ _ => ?_) rfl
  refine GAct.completes_bind (GAct.completes_getArgument env _ _ _) (fun _ _ => ?_) rfl
  refine GAct.completes_bind (completes_access env _) (fun _ _ => ?_) rfl
  refine GAct.completes_bind (GAct.completes_call env _) (fun _ _ => ?_) rfl
  refine GAct.completes_bind (GAct.completes_log _) (fun _ _ => ?_) rfl
  refine GAct.completes_bind (GAct.completes_call env _) (fun _ _ => ?_) rfl
  exact GAct.completes_pure _ rfl

/-- What `handlerCreateDrawableCube` does when it returns. -/
theorem completes_createDrawableCube (args : List V) :
    GAct.Completes (handlerCreateDrawableCube env args) [] (fun r => ∃ v, r.data = [some v]) := by
  unfold handlerCreateDrawableCube
  refine GAct.completes_ite (fun _ => GAct.completes_raise _ _) (fun _ => ?_)
  refine GAct.completes_bind (GAct.completes_log _) (fun _ _ => ?_) rfl
  refine GAct.completes_bind (GAct.completes_call env _) (fun _ _ => ?_) rfl
  refine GAct.completes_bind (GAct.completes_call env _) (fun _ _ => ?_) rfl
  exact completes_setReturn _ _ _ (fun _ => ⟨_, rfl⟩)

/-- What `handlerDrawableEnablePhysics` does when it returns. -/
theorem completes_enablePhysics (args : List V) :
    GAct.Completes (handlerDrawableEnablePhysics env args)
      [(.uint64_t, 0), (.float, 1), (.float, 2), (.float, 3)]
      (fun r => r.data = []) := by
  unfold handlerDrawableEnablePhysics
  refine GAct.completes_ite (fun _ => GAct.completes_raise _ _) (fun _ => ?_)
  refine GAct.completes_bind (GAct.completes_getArgument env _ _ _) (fun _ _ => ?_) rfl
  refine GAct.completes_bind (GAct.completes_getArgument env _ _ _) (fun _ _ => ?_) rfl
  refine GAct.completes_bind (GAct.completes_getArgument env _ _ _) (fun _ _ => ?_) rfl
  refine GAct.completes_bind (GAct.completes_getArgument env _ _ _) (fun _ _ => ?_) rfl
  refine GAct.completes_bind (completes_access env _) (fun _ _ => ?_) rfl
  refine GAct.completes_bind (GAct.completes_call env _) (fun _ _ => ?_) rfl
  exact GAct.completes_pure _ rfl

/-- The reads of a piece of code that returned, taken from the trace it left. -/
theorem GAct.Completes.reads {Q : α → Prop} {m : GAct σ α} {L : List (NativeType × Nat)}
    (hm : GAct.Completes m L Q) (w w1 : GWorld σ) (a : α) (h : m w = (.ok a, w1)) :
    Q a ∧ argumentReads (w1.trace.drop w.trace.length) = L := by
  obtain ⟨hq, evs, ht, hr⟩ := hm w a w1 h
  refine ⟨hq, ?_⟩
  rw [ht, List.drop_left, hr]

end GraphicsLemmas

/-! ## The handlers of the graphics functions: argument counts, native types and results -/

section GraphicsClaims

variable {σ V : Type} (env : GraphicsEnv σ V)

/-- The start of every run of `handlerGraphicsCreateCube`: the mutex is locked
and `graphicsCreateCube` is called. -/
theorem createCube_trace (args : List V) (w : GWorld σ) :
    ∃ rest, (handlerGraphicsCreateCube env args w).2.trace =
      w.trace ++ [.lock "gameObjectMutex",
        .call .graphicsCreateCube (env.call .graphicsCreateCube w.st).1] ++ rest := by
  rcases h1 : env.call .graphicsCreateCube w.st with ⟨r1, s1⟩
  cases r1 with
  | error e =>
    exact ⟨[.unlock "gameObjectMutex"], by
      simp [handlerGraphicsCreateCube, GAct.withLock, GAct.bind_apply, GAct.andThen, GAct.call, h1]⟩
  | ok node =>
    rcases h2 : env.call (.newGameObject node) s1 with ⟨r2, s2⟩
    cases r2 with
    | error e =>
      exact ⟨[.call (.newGameObject node) (.error e), .unlock "gameObjectMutex"], by
        simp [handlerGraphicsCreateCube, GAct.withLock, GAct.bind_apply, GAct.andThen, GAct.call,
          h1, h2]⟩
    | ok obj =>
      rcases h3 : env.call (.registerGameObject obj) s2 with ⟨r3, s3⟩
      cases r3 with
      | error e =>
        exact ⟨[.call (.newGameObject node) (.ok obj),
          .call (.registerGameObject obj) (.error e), .unlock "gameObjectMutex"], by
          simp [handlerGraphicsCreateCube, GAct.withLock, GAct.bind_apply, GAct.andThen,
            GAct.call, h1, h2, h3]⟩
      | ok handle =>
        exact ⟨[.call (.newGameObject node) (.ok obj),
          .call (.registerGameObject obj) (.ok handle), .unlock "gameObjectMutex"], by
          simp [handlerGraphicsCreateCube, GAct.withLock, GAct.bind_apply, GAct.andThen,
            GAct.call, h1, h2, h3, setReturn, FuncResult.resize, GAct.pure_apply]⟩

/-- C21: eight of the nine registered handlers fail with a `std::logic_error`
when the number of decoded arguments differs from the length of the registered
argument signature, with the engine as it was and with no read of an argument
and no call into the engine made.  `handlerGraphicsCreateCube`, registered with
the empty signature, does not look at its arguments: with any arguments it runs
as with none, and it starts by locking the mutex and creating a cube. -/
theorem graphics_argument_count_check (args : List V) (w : GWorld σ) :
    (∀ entry ∈ initializeGraphicsFuncProviders env, entry.name ≠ "graphics.createCube" →
      args.length ≠ entry.argsSpec.length →
        ∃ what, (entry.handler args w).1 = .error (logic_error what) ∧
          (entry.handler args w).2.st = w.st ∧
          ∀ ev ∈ (entry.handler args w).2.trace.drop w.trace.length,
            ev.isGetArgument = false ∧ ev.isCall = false) ∧
    (⟨"graphics.createCube", handlerGraphicsCreateCube env, [], ['u']⟩ : GraphicsEntry σ V) ∈
      initializeGraphicsFuncProviders env ∧
    handlerGraphicsCreateCube env args w = handlerGraphicsCreateCube env [] w ∧
    ∃ rest, (handlerGraphicsCreateCube env args w).2.trace =
      w.trace ++ [.lock "gameObjectMutex",
        .call .graphicsCreateCube (env.call .graphicsCreateCube w.st).1] ++ rest := by
  refine ⟨?_, List.mem_cons_self _ _, rfl, createCube_trace env args w⟩
  intro entry hentry hname hlen
  simp only [initializeGraphicsFuncProviders, List.mem_cons, List.mem_singleton,
    List.not_mem_nil, or_false] at hentry
  rcases hentry with rfl | rfl | rfl | rfl | rfl | rfl | rfl | rfl | rfl
  · exact absurd rfl hname
  · have h : args.length ≠ 4 := by simpa using hlen
    exact ⟨"Wrong number of arguments for handlerGraphicsMoveObject()", by simp [handlerGraphicsMoveObject, h, GAct.raise]⟩
  · have h : args.length ≠ 4 := by simpa using hlen
    exact ⟨"Wrong number of arguments for handlerGraphicsRotateObject()", by simp [handlerGraphicsRotateObject, h, GAct.raise]⟩
  · have h : args.length ≠ 1 := by simpa using hlen
    exact ⟨"Wrong number of arguments for handlerGraphicsDeleteObject()", by simp [handlerGraphicsDeleteObject, h, GAct.raise]⟩
  · have h : args.length ≠ 1 := by simpa using hlen
    exact ⟨"Wrong number of arguments for handlerGraphicsLoadTexture()", by simp [handlerGraphicsLoadTexture, h, GAct.raise, GAct.withLock,
      GEvent.isGetArgument, GEvent.isCall]⟩
  · have h : args.length ≠ 2 := by simpa using hlen
    exact ⟨"Wrong number of arguments for handlerGraphicsAddTexture()", by simp [handlerGraphicsAddTexture, h, GAct.raise]⟩
  · have h : args.length ≠ 2 := by simpa using hlen
    exact ⟨"Wrong number of arguments for handlerGraphicsAddTexture()", by simp [handlerGraphicsDrawableAddTexture, h, GAct.raise]⟩
  · have h : args.length ≠ 0 := by simpa using hlen
    exact ⟨"Wrong number of arguments for handlerCreateDrawableCube()", by simp [handlerCreateDrawableCube, h, GAct.raise]⟩
  · have h : args.length ≠ 4 := by simpa using hlen
    exact ⟨"Wrong number of arguments for handlerDrawableEnablePhysics()", by simp [handlerDrawableEnablePhysics, h, GAct.raise]⟩

/-- The runs of C21 in the test engine: `graphics.moveObject` called with one
argument fails at once, and `graphics.createCube` called with one argument
creates a cube and returns its handle. -/
theorem graphics_argument_count_check_witness :
    (∃ what, (handlerGraphicsMoveObject testGraphics [Val.u64 5] ⟨0, []⟩).1 =
        .error (logic_error what) ∧
      (handlerGraphicsMoveObject testGraphics [Val.u64 5] ⟨0, []⟩).2.st = 0 ∧
      ∀ ev ∈ (handlerGraphicsMoveObject testGraphics [Val.u64 5] ⟨0, []⟩).2.trace.drop 0,
        ev.isGetArgument = false ∧ ev.isCall = false) ∧
    handlerGraphicsCreateCube testGraphics [Val.u64 5] ⟨0, []⟩ =
      (.ok ⟨[some 3]⟩, ⟨3, [.lock "gameObjectMutex", .call .graphicsCreateCube (.ok 1),
        .call (.newGameObject 1) (.ok 2), .call (.registerGameObject 2) (.ok 3),
        .unlock "gameObjectMutex"]⟩) :=
  ⟨(graphics_argument_count_check testGraphics [Val.u64 5] ⟨0, []⟩).1
      ⟨"graphics.moveObject", handlerGraphicsMoveObject testGraphics, ['u', 'f', 'f', 'f'], []⟩
      (List.mem_cons_of_mem _ (List.mem_cons_self _ _)) (by decide) (by decide),
    by decide!⟩

/-- C22 fails on the code: `graphics.moveObject`, `graphics.rotateObject` and
`graphics.drawable.enablePhysics` are registered with the same argument
signature `"ufff"`; a call of one of the first two that returns has read the
arguments 1, 2 and 3 as `double`, a call of the third that returns has read them
as `float`. -/
theorem float_code_read_at_two_widths (args : List V) (w : GWorld σ) :
    (initializeGraphicsFuncProviders env).map (fun e => (e.name, e.argsSpec)) =
      [("graphics.createCube", []), ("graphics.moveObject", ['u', 'f', 'f', 'f']),
        ("graphics.rotateObject", ['u', 'f', 'f', 'f']), ("graphics.deleteObject", ['u']),
        ("graphics.texture.loadFromFile", ['s']), ("graphics.texture.add", ['u', 'u']),
        ("graphics.texture.addToDrawable", ['u', 'u']), ("graphics.drawable.createCube", []),
        ("graphics.drawable.enablePhysics", ['u', 'f', 'f', 'f'])] ∧
    (∀ ret w1, handlerGraphicsMoveObject env args w = (.ok ret, w1) →
      argumentReads (w1.trace.drop w.trace.length) =
        [(.uint64_t, 0), (.double, 1), (.double, 2), (.double, 3)]) ∧
    (∀ ret w1, handlerGraphicsRotateObject env args w = (.ok ret, w1) →
      argumentReads (w1.trace.drop w.trace.length) =
        [(.uint64_t, 0), (.double, 1), (.double, 2), (.double, 3)]) ∧
    (∀ ret w1, handlerDrawableEnablePhysics env args w = (.ok ret, w1) →
      argumentReads (w1.trace.drop w.trace.length) =
        [(.uint64_t, 0), (.float, 1), (.float, 2), (.float, 3)]) :=
  ⟨rfl, fun ret w1 h => ((completes_moveObject env args).reads w w1 ret h).2,
    fun ret w1 h => ((completes_rotateObject env args).reads w w1 ret h).2,
    fun ret w1 h => ((completes_enablePhysics env args).reads w w1 ret h).2⟩

/-- The runs of C22 in the test engine: the same four decoded arguments, read as
`uint64_t, double, double, double` by `graphics.moveObject` and as
`uint64_t, float, float, float` by `graphics.drawable.enablePhysics`. -/
theorem float_code_read_at_two_widths_witness :
    argumentReads ((handlerGraphicsMoveObject testGraphics
        [.u64 5, .flt "1.5", .flt "2.5", .flt "0.5"] ⟨0, []⟩).2.trace.drop 0) =
      [(.uint64_t, 0), (.double, 1), (.double, 2), (.double, 3)] ∧
    argumentReads ((handlerDrawableEnablePhysics testGraphics
        [.u64 5, .flt "1.5", .flt "2.5", .flt "0.5"] ⟨0, []⟩).2.trace.drop 0) =
      [(.uint64_t, 0), (.float, 1), (.float, 2), (.float, 3)] :=
  ⟨(float_code_read_at_two_widths testGraphics [.u64 5, .flt "1.5", .flt "2.5", .flt "0.5"]
      ⟨0, []⟩).2.1 ⟨[]⟩ _ (by decide!),
    (float_code_read_at_two_widths testGraphics [.u64 5, .flt "1.5", .flt "2.5", .flt "0.5"]
      ⟨0, []⟩).2.2.2 ⟨[]⟩ _ (by decide!)⟩

/-- C23: `initializeGraphicsFuncProviders` registers nine functions, and whenever
the handler of one of them returns, its result holds as many values as the
registered return signature has type codes: `data` has that many slots, and a
value is stored in every slot. -/
theorem graphics_result_matches_signature (entry : GraphicsEntry σ V)
    (hentry : entry ∈ initializeGraphicsFuncProviders env) (args : List V) (w w1 : GWorld σ)
    (ret : FuncResult) (h : entry.handler args w = (.ok ret, w1)) :
    (initializeGraphicsFuncProviders env).length = 9 ∧
      ret.data.length = entry.retSpec.length ∧ ∀ slot ∈ ret.data, ∃ v, slot = some v := by
  refine ⟨rfl, ?_⟩
  have hone : ∀ r : FuncResult, (∃ v, r.data = [some v]) →
      r.data.length = 1 ∧ ∀ slot ∈ r.data, ∃ v, slot = some v := by
    rintro r ⟨v, hv⟩
    rw [hv]
    exact ⟨rfl, by simp⟩
  have hnone : ∀ r : FuncResult, r.data = [] →
      r.data.length = 0 ∧ ∀ slot ∈ r.data, ∃ v, slot = some v := by
    intro r hr
    rw [hr]
    exact ⟨rfl, by simp⟩
  simp only [initializeGraphicsFuncProviders, List.mem_cons, List.mem_singleton,
    List.not_mem_nil, or_false] at hentry
  rcases hentry with rfl | rfl | rfl | rfl | rfl | rfl | rfl | rfl | rfl
  · exact hone ret (completes_createCube env args w ret w1 h).1
  · exact hnone ret (completes_moveObject env args w ret w1 h).1
  · exact hnone ret (completes_rotateObject env args w ret w1 h).1
  · exact hnone ret (completes_deleteObject env args w ret w1 h).1
  · exact hone ret (completes_loadTexture env args w ret w1 h).1
  · exact hnone ret (completes_addTexture env args w ret w1 h).1
  · exact hnone ret (completes_drawableAddTexture env args w ret w1 h).1
  · exact hone ret (completes_createDrawableCube env args w ret w1 h).1
  · exact hnone ret (completes_enablePhysics env args w ret w1 h).1

/-- Witness for C23: `graphics.texture.loadFromFile` in the test engine returns
one value, the handle of the texture. -/
theorem graphics_result_matches_signature_witness :
    (initializeGraphicsFuncProviders testGraphics).length = 9 ∧
      (FuncResult.mk [some 2]).data.length = ['u'].length ∧
      ∀ slot ∈ (FuncResult.mk [some 2]).data, ∃ v, slot = some v :=
  graphics_result_matches_signature testGraphics
    ⟨"graphics.texture.loadFromFile", handlerGraphicsLoadTexture testGraphics, ['s'], ['u']⟩
    (List.mem_cons_of_mem _ (List.mem_cons_of_mem _ (List.mem_cons_of_mem _
      (List.mem_cons_of_mem _ (List.mem_cons_self _ _)))))
    [.str "wall.png"] ⟨0, []⟩
    ⟨2, [.lock "irrlichtMutex", .getArgument .string 0, .call (.getTexture "wall.png") (.ok 1),
      .call (.registerTexture 1) (.ok 2), .unlock "irrlichtMutex"]⟩
    ⟨[some 2]⟩ (by decide!)

end GraphicsClaims

end ModBox
